import Mathlib

/-! Transaction reconciliation of `MoneroWallet.cpp`.

A shallow embedding of the record builders, the merge step `mergeTx`, and the
query entry points `getTransfers`, `getOutputs` and `getTxs` of
`src/wallet/MoneroWallet.cpp`.

Conventions of the embedding.

* `boost::optional<T>` is `Option T`; `uint64_t` and `uint32_t` values are
  natural numbers, reduced modulo `2 ^ 64` where the C++ arithmetic can wrap.
* `std::map<K, V>` is an association list kept in ascending key order by
  `mapSet` (the assignment `m[k] = v`) and read by `mapFind` (`m.find(k)`).
* The C++ object graph is cyclic (`tx->block`, `block->txs`, `transfer->tx`).
  Here a block lists its txs by id, a tx carries a copy of the block it was
  built with, and the block a reconciled tx lives in is the entry of the block
  index at the height of the tx.
* A `throw` is an `Except.error` that carries the message; where the state at
  the moment of the throw matters it is carried along with the message.
* `std::sort` belongs to the C++ standard library; the queries take an
  implementation of it as a parameter (`StdLibrary`), of which the theorems
  assume only what the standard promises (`StdLibrary.Conforms`).
* A `double` is the rational number it denotes; a conversion or a division
  rounds to the nearest double (`roundToDouble`).
-/

namespace monero

/-! ## Data model -/

/-- One destination of an outgoing transfer (`MoneroDestination`). -/
structure MoneroDestination where
  amount : Option Nat := none
  address : Option String := none
  deriving DecidableEq, Repr

/-- An incoming transfer (`MoneroIncomingTransfer`), without its back-reference to the tx. -/
structure MoneroIncomingTransfer where
  amount : Option Nat := none
  accountIndex : Option Nat := none
  subaddressIndex : Option Nat := none
  address : Option String := none
  numSuggestedConfirmations : Option Nat := none
  deriving DecidableEq, Repr

/-- An outgoing transfer (`MoneroOutgoingTransfer`), without its back-reference to the tx. -/
structure MoneroOutgoingTransfer where
  amount : Option Nat := none
  accountIndex : Option Nat := none
  subaddressIndices : List Nat := []
  addresses : List String := []
  destinations : List MoneroDestination := []
  numSuggestedConfirmations : Option Nat := none
  deriving DecidableEq, Repr

/-- A transfer of either direction (`MoneroTransfer` and its two subclasses). -/
inductive MoneroTransfer where
  | incoming (t : MoneroIncomingTransfer)
  | outgoing (t : MoneroOutgoingTransfer)
  deriving DecidableEq, Repr

/-- A key image (`MoneroKeyImage`); only the hex field is written by this file. -/
structure MoneroKeyImage where
  hex : Option String := none
  deriving DecidableEq, Repr

/-- A wallet output (`MoneroOutputWallet`), without its back-reference to the tx. -/
structure MoneroOutputWallet where
  amount : Option Nat := none
  index : Option Nat := none
  accountIndex : Option Nat := none
  subaddressIndex : Option Nat := none
  isSpent : Option Bool := none
  isUnlocked : Option Bool := none
  isFrozen : Option Bool := none
  keyImage : Option MoneroKeyImage := none
  deriving DecidableEq, Repr

/-- A block (`MoneroBlock`): the txs it owns are listed by tx id. -/
structure MoneroBlock where
  height : Option Nat := none
  timestamp : Option Nat := none
  txs : List String := []
  deriving DecidableEq, Repr

/-- A wallet tx (`MoneroTxWallet`) with the fields this file reads or writes. -/
structure MoneroTxWallet where
  id : Option String := none
  block : Option MoneroBlock := none
  paymentId : Option String := none
  unlockTime : Option Nat := none
  fee : Option Nat := none
  note : Option String := none
  isCoinbase : Option Bool := none
  isConfirmed : Option Bool := none
  isFailed : Option Bool := none
  isRelayed : Option Bool := none
  inTxPool : Option Bool := none
  doNotRelay : Option Bool := none
  isDoubleSpendSeen : Option Bool := none
  numConfirmations : Option Nat := none
  incomingTransfers : List MoneroIncomingTransfer := []
  outgoingTransfer : Option MoneroOutgoingTransfer := none
  vouts : List MoneroOutputWallet := []
  deriving DecidableEq, Repr

/-- Modelled from the spec: `MoneroTx::getHeight` (defined outside src): the height of the
block of the tx, absent when the tx has no block ("absent means unconfirmed"). -/
def MoneroTxWallet.getHeight (tx : MoneroTxWallet) : Option Nat :=
  match tx.block with
  | none => none
  | some b => b.height

/-! ## Ordered maps -/

/-- Lookup `m.find(k)` in a map held as an association list. -/
def mapFind {κ β : Type} [DecidableEq κ] (k : κ) : List (κ × β) → Option β
  | [] => none
  | (k', v) :: rest => if k = k' then some v else mapFind k rest

/-- Assignment `m[k] = v`: replaces the value under `k`, or inserts in key order. -/
def mapSet {κ β : Type} [DecidableEq κ] [LT κ] [DecidableRel (fun a b : κ => a < b)]
    (k : κ) (v : β) : List (κ × β) → List (κ × β)
  | [] => [(k, v)]
  | (k', v') :: rest =>
    if k = k' then (k, v) :: rest
    else if k < k' then (k, v) :: (k', v') :: rest
    else (k', v') :: mapSet k v rest

/-- The two indexes that `mergeTx` maintains: txs by id and blocks by height. -/
structure Indexes where
  txMap : List (String × MoneroTxWallet) := []
  blockMap : List (Nat × MoneroBlock) := []
  deriving DecidableEq, Repr

/-! ## Merging (the record merges are defined outside src) -/

/-- The lexicographic order of two lists of numbers. -/
def lexLess : List Nat → List Nat → Bool
  | [], [] => false
  | [], _ :: _ => true
  | _ :: _, [] => false
  | x :: xs, y :: ys => decide (x < y) || (decide (x = y) && lexLess xs ys)

/-- Modelled from the spec: the greater of two strings in the lexicographic order of
their characters, the value the merge keeps of a text field that both records set (see
`mergeField`). -/
def greaterString (a b : String) : String :=
  if lexLess (a.data.map Char.toNat) (b.data.map Char.toNat) then b else a

/-- Modelled from the spec: merge of one optional field. "Any field present in the new
fragment but absent in the existing record is copied in", and a field that only the
existing record has is kept. Of a field that both records set, the merge keeps "the more
complete/authoritative value", the same one in whichever order the two records are
merged ("merge is commutative"): `pick` is that choice. The spec does not say which of
two different values is the more authoritative; the model keeps the greater of two
numbers or strings, a set flag over a cleared one, and merges two nested records field
by field. -/
def mergeField {α : Type} (pick : α → α → α) (existing fresh : Option α) : Option α :=
  match existing, fresh with
  | some x, some y => some (pick x y)
  | some x, none => some x
  | none, y => y

/-- Modelled from the spec: "transfer/output lists are unioned rather than overwritten":
every element of the new list that the existing list lacks is appended to it. -/
def unionInto {α : Type} [DecidableEq α] (existing : List α) : List α → List α
  | [] => existing
  | y :: rest => unionInto (if y ∈ existing then existing else existing ++ [y]) rest

/-- Modelled from the spec: `MoneroBlock::merge` (defined outside src), which mirrors
the tx merge for blocks: the fields are merged one by one and the tx lists are
unioned. -/
def MoneroBlock.merge (self other : MoneroBlock) : MoneroBlock :=
  { height := mergeField max self.height other.height
    timestamp := mergeField max self.timestamp other.timestamp
    txs := unionInto self.txs other.txs }

/-- Modelled from the spec: `MoneroOutgoingTransfer::merge` (defined outside src), the
part of the deep merge of two txs that merges their outgoing transfers: the fields are
merged one by one and the lists are unioned. -/
def MoneroOutgoingTransfer.merge (self other : MoneroOutgoingTransfer) :
    MoneroOutgoingTransfer :=
  { amount := mergeField max self.amount other.amount
    accountIndex := mergeField max self.accountIndex other.accountIndex
    subaddressIndices := unionInto self.subaddressIndices other.subaddressIndices
    addresses := unionInto self.addresses other.addresses
    destinations := unionInto self.destinations other.destinations
    numSuggestedConfirmations :=
      mergeField max self.numSuggestedConfirmations other.numSuggestedConfirmations }

/-- Modelled from the spec: `MoneroTxWallet::merge` (defined outside src): "deep-merge
the two `Tx` records field-by-field": a field present in the new fragment but absent in
the existing record is copied in, the block and the outgoing transfer are merged in the
same way, and the transfer and output lists are unioned. -/
def MoneroTxWallet.merge (self other : MoneroTxWallet) : MoneroTxWallet :=
  { id := mergeField greaterString self.id other.id
    block := mergeField MoneroBlock.merge self.block other.block
    paymentId := mergeField greaterString self.paymentId other.paymentId
    unlockTime := mergeField max self.unlockTime other.unlockTime
    fee := mergeField max self.fee other.fee
    note := mergeField greaterString self.note other.note
    isCoinbase := mergeField or self.isCoinbase other.isCoinbase
    isConfirmed := mergeField or self.isConfirmed other.isConfirmed
    isFailed := mergeField or self.isFailed other.isFailed
    isRelayed := mergeField or self.isRelayed other.isRelayed
    inTxPool := mergeField or self.inTxPool other.inTxPool
    doNotRelay := mergeField or self.doNotRelay other.doNotRelay
    isDoubleSpendSeen := mergeField or self.isDoubleSpendSeen other.isDoubleSpendSeen
    numConfirmations := mergeField max self.numConfirmations other.numConfirmations
    incomingTransfers := unionInto self.incomingTransfers other.incomingTransfers
    outgoingTransfer :=
      mergeField MoneroOutgoingTransfer.merge self.outgoingTransfer other.outgoingTransfer
    vouts := unionInto self.vouts other.vouts }

/-- The function `mergeTx`: merges a tx into the tx index and its block into the block
index. An error carries the indexes as they are when the exception is thrown. -/
def mergeTx (tx : MoneroTxWallet) (st : Indexes) (skipIfAbsent : Bool) :
    Except (String × Indexes) Indexes :=
  match tx.id with
  | none => .error ("Tx id is not initialized", st)
  | some id =>
    -- if tx doesn't exist, add it (unless skipped), otherwise merge with existing tx
    let txMap :=
      match mapFind id st.txMap with
      | none => if !skipIfAbsent then mapSet id tx st.txMap else st.txMap
      | some aTx => mapSet id (aTx.merge tx) st.txMap
    -- if confirmed, merge tx's block
    let blockMap :=
      match tx.getHeight, tx.block with
      | some h, some b =>
        match mapFind h st.blockMap with
        | none => mapSet h b st.blockMap
        | some aBlock => mapSet h (aBlock.merge b) st.blockMap
      | _, _ => st.blockMap
    .ok { txMap := txMap, blockMap := blockMap }

/-! ## Substrate records (`tools::wallet2`, an external collaborator)

Hashes and key images are given by their hex form, the result of `pod_to_hex`,
which is 64 characters long for a tx hash or a payment id. -/

/-- The type `cryptonote::subaddress_index`. -/
structure subaddress_index where
  major : Nat := 0
  minor : Nat := 0
  deriving DecidableEq, Repr

/-- The type `cryptonote::tx_destination_entry`; `addressStr` is the value of
`get_account_address_as_str` for the destination. -/
structure tx_destination_entry where
  original : String := ""
  amount : Nat := 0
  addressStr : String := ""
  deriving DecidableEq, Repr

/-- The type `wallet2::payment_details`: one incoming payment. -/
structure payment_details where
  m_tx_hash : String := ""
  m_amount : Nat := 0
  m_fee : Nat := 0
  m_block_height : Nat := 0
  m_unlock_time : Nat := 0
  m_timestamp : Nat := 0
  m_coinbase : Bool := false
  m_subaddr_index : subaddress_index := {}
  deriving DecidableEq, Repr

/-- The type `wallet2::pool_payment_details`: one incoming payment seen in the tx pool. -/
structure pool_payment_details where
  m_pd : payment_details := {}
  m_double_spend_seen : Bool := false
  deriving DecidableEq, Repr

/-- The type `wallet2::confirmed_transfer_details`: one confirmed outgoing payment. -/
structure confirmed_transfer_details where
  m_amount_in : Nat := 0
  m_amount_out : Nat := 0
  m_change : Nat := 0
  m_block_height : Nat := 0
  m_dests : List tx_destination_entry := []
  m_payment_id : String := ""
  m_timestamp : Nat := 0
  m_unlock_time : Nat := 0
  m_subaddr_account : Nat := 0
  m_subaddr_indices : List Nat := []
  deriving DecidableEq, Repr

/-- The states of `wallet2::unconfirmed_transfer_details::m_state`. -/
inductive transfer_state where
  | pending
  | pending_not_in_pool
  | failed
  deriving DecidableEq, Repr

/-- The type `wallet2::unconfirmed_transfer_details`: one unconfirmed or failed outgoing
payment; `m_tx_unlock_time` is `m_tx.unlock_time`. -/
structure unconfirmed_transfer_details where
  m_tx_unlock_time : Nat := 0
  m_amount_in : Nat := 0
  m_amount_out : Nat := 0
  m_change : Nat := 0
  m_dests : List tx_destination_entry := []
  m_payment_id : String := ""
  m_state : transfer_state := .pending
  m_subaddr_account : Nat := 0
  m_subaddr_indices : List Nat := []
  deriving DecidableEq, Repr

/-- The type `wallet2::transfer_details`: one output owned by the wallet; `amount` is the
value of `td.amount()`. -/
structure transfer_details where
  m_block_height : Nat := 0
  m_txid : String := ""
  amount : Nat := 0
  m_global_output_index : Nat := 0
  m_subaddr_index : subaddress_index := {}
  m_spent : Bool := false
  m_frozen : Bool := false
  m_key_image_known : Bool := false
  m_key_image : String := ""
  deriving DecidableEq, Repr

/-- The part of `tools::wallet2` that the builders and the queries consume: the answers
the substrate gives during one run of a query. The four payment streams take the
arguments the queries pass: the height range, the account and the subaddress set. The
answers of different calls need not come from one state of the wallet, since the calls
are not atomic with respect to each other. `get_unconfirmed_payments` is read after
`update_pool_state()`. `height` is the value of `MoneroWallet::getHeight()`. -/
structure Wallet2 where
  get_tx_note : String → String
  get_subaddress_as_str : subaddress_index → String
  get_last_block_reward : Nat
  is_transfer_unlocked : transfer_details → Bool
  height : Nat
  get_payments : Nat → Nat → Option Nat → List Nat → List (String × payment_details)
  get_payments_out :
    Nat → Nat → Option Nat → List Nat → List (String × confirmed_transfer_details)
  get_unconfirmed_payments_out :
    Option Nat → List Nat → List (String × unconfirmed_transfer_details)
  get_unconfirmed_payments : Option Nat → List Nat → List (String × pool_payment_details)
  get_transfers : List transfer_details

/-! ## Record builders -/

/-- The modulus of `uint64_t` arithmetic. -/
def U64 : Nat := 2 ^ 64

/-- Subtraction of `uint64_t` values, which wraps around. -/
def sub64 (a b : Nat) : Nat := (a % U64 + (U64 - b % U64)) % U64

/-- Addition of `uint64_t` values, which wraps around. -/
def add64 (a b : Nat) : Nat := (a + b) % U64

/-- Modelled from the spec: `MoneroTx::DEFAULT_PAYMENT_ID` (defined outside src), "the
well-known all-zero default payment id", in the short 16 character form that an all-zero
id has after truncation. -/
def DEFAULT_PAYMENT_ID : String := "0000000000000000"

/-- The payment id of a built tx, from the hex form `hex` of the raw id: the two
statements `if (substr(16) has no char other than '0') paymentId = substr(0, 16)` and
`if (paymentId == DEFAULT_PAYMENT_ID) paymentId = boost::none` that every builder runs.
(`pod_to_hex` yields at least 16 characters, so `substr(16)` does not throw.) -/
def normalizedPaymentId (hex : String) : Option String :=
  let paymentId :=
    if (hex.data.drop 16).all (fun c => c == '0') then String.mk (hex.data.take 16) else hex
  if paymentId = DEFAULT_PAYMENT_ID then none else some paymentId

/-- The note of a built tx: `get_tx_note`, cleared when empty. -/
def noteOf (wallet2 : Wallet2) (txHash : String) : Option String :=
  let note := wallet2.get_tx_note txHash
  if note = "" then none else some note

/-- The statement that computes `numConfirmations` in the two confirmed builders. -/
def numConfirmationsAt (height blockHeight : Nat) (inTxPool : Bool) : Nat :=
  if blockHeight ≥ height ∨ (blockHeight = 0 ∧ !inTxPool) then 0 else height - blockHeight

/-- The statement that computes `numSuggestedConfirmations` in every transfer builder. -/
def numSuggestedConfirmationsOf (amount blockReward : Nat) : Nat :=
  if blockReward = 0 then 0 else (sub64 (add64 amount blockReward) 1) / blockReward

/-- The function `buildTxWithIncomingTransfer`. -/
def buildTxWithIncomingTransfer (wallet2 : Wallet2) (height : Nat) (payment_id : String)
    (pd : payment_details) : MoneroTxWallet :=
  let block : MoneroBlock :=
    { height := some pd.m_block_height, timestamp := some pd.m_timestamp, txs := [pd.m_tx_hash] }
  let incomingTransfer : MoneroIncomingTransfer :=
    { amount := some pd.m_amount
      accountIndex := some pd.m_subaddr_index.major
      subaddressIndex := some pd.m_subaddr_index.minor
      address := some (wallet2.get_subaddress_as_str pd.m_subaddr_index)
      numSuggestedConfirmations :=
        some (numSuggestedConfirmationsOf pd.m_amount wallet2.get_last_block_reward) }
  { id := some pd.m_tx_hash
    block := some block
    paymentId := normalizedPaymentId payment_id
    unlockTime := some pd.m_unlock_time
    fee := some pd.m_fee
    note := noteOf wallet2 pd.m_tx_hash
    isCoinbase := some pd.m_coinbase
    isConfirmed := some true
    isFailed := some false
    isRelayed := some true
    inTxPool := some false
    doNotRelay := some false
    isDoubleSpendSeen := some false
    numConfirmations := some (numConfirmationsAt height pd.m_block_height false)
    incomingTransfers := [incomingTransfer] }

/-- The destinations of an outgoing transfer, built from `m_dests`. -/
def destinationsOf (dests : List tx_destination_entry) : List MoneroDestination :=
  dests.map fun d =>
    { amount := some d.amount
      address := some (if d.original = "" then d.addressStr else d.original) }

/-- The loop `for (destination : destinations) amount += *destination->amount`. -/
def destinationSum (destinations : List MoneroDestination) : Nat :=
  destinations.foldl (fun amount d => add64 amount (d.amount.getD 0)) 0

/-- The statement "replace transfer amount with destination sum" of the outgoing builders. -/
def outgoingAmount (amount : Nat) (destinations : List MoneroDestination) : Nat :=
  if amount = 0 ∧ destinations ≠ [] then destinationSum destinations else amount

/-- The function `buildTxWithOutgoingTransfer`. -/
def buildTxWithOutgoingTransfer (wallet2 : Wallet2) (height : Nat) (txid : String)
    (pd : confirmed_transfer_details) : MoneroTxWallet :=
  let block : MoneroBlock :=
    { height := some pd.m_block_height, timestamp := some pd.m_timestamp, txs := [txid] }
  let fee := sub64 pd.m_amount_in pd.m_amount_out
  let change := if pd.m_change = U64 - 1 then 0 else pd.m_change
  let destinations := destinationsOf pd.m_dests
  let amount := outgoingAmount (sub64 (sub64 pd.m_amount_in change) fee) destinations
  let outgoingTransfer : MoneroOutgoingTransfer :=
    { amount := some amount
      accountIndex := some pd.m_subaddr_account
      subaddressIndices := pd.m_subaddr_indices
      addresses := pd.m_subaddr_indices.map fun i =>
        wallet2.get_subaddress_as_str { major := pd.m_subaddr_account, minor := i }
      destinations := destinations
      numSuggestedConfirmations :=
        some (numSuggestedConfirmationsOf amount wallet2.get_last_block_reward) }
  { id := some txid
    block := some block
    paymentId := normalizedPaymentId pd.m_payment_id
    unlockTime := some pd.m_unlock_time
    fee := some fee
    note := noteOf wallet2 txid
    isCoinbase := some false
    isConfirmed := some true
    isFailed := some false
    isRelayed := some true
    inTxPool := some false
    doNotRelay := some false
    isDoubleSpendSeen := some false
    numConfirmations := some (numConfirmationsAt height pd.m_block_height false)
    outgoingTransfer := some outgoingTransfer }

/-- The function `buildTxWithIncomingTransferUnconfirmed`. -/
def buildTxWithIncomingTransferUnconfirmed (wallet2 : Wallet2) (payment_id : String)
    (ppd : pool_payment_details) : MoneroTxWallet :=
  let pd := ppd.m_pd
  let incomingTransfer : MoneroIncomingTransfer :=
    { amount := some pd.m_amount
      accountIndex := some pd.m_subaddr_index.major
      subaddressIndex := some pd.m_subaddr_index.minor
      address := some (wallet2.get_subaddress_as_str pd.m_subaddr_index)
      numSuggestedConfirmations :=
        some (numSuggestedConfirmationsOf pd.m_amount wallet2.get_last_block_reward) }
  { id := some pd.m_tx_hash
    paymentId := normalizedPaymentId payment_id
    unlockTime := some pd.m_unlock_time
    fee := some pd.m_fee
    note := noteOf wallet2 pd.m_tx_hash
    isCoinbase := some false
    isConfirmed := some false
    isFailed := some false
    isRelayed := some true
    inTxPool := some true
    doNotRelay := some false
    isDoubleSpendSeen := some ppd.m_double_spend_seen
    numConfirmations := some 0
    incomingTransfers := [incomingTransfer] }

/-- The function `buildTxWithOutgoingTransferUnconfirmed`. -/
def buildTxWithOutgoingTransferUnconfirmed (wallet2 : Wallet2) (txid : String)
    (pd : unconfirmed_transfer_details) : MoneroTxWallet :=
  let isFailed := decide (pd.m_state = transfer_state.failed)
  let isRelayed := !isFailed
  let fee := sub64 pd.m_amount_in pd.m_amount_out
  let destinations := destinationsOf pd.m_dests
  let amount := outgoingAmount (sub64 (sub64 pd.m_amount_in pd.m_change) fee) destinations
  let outgoingTransfer : MoneroOutgoingTransfer :=
    { amount := some amount
      accountIndex := some pd.m_subaddr_account
      subaddressIndices := pd.m_subaddr_indices
      addresses := pd.m_subaddr_indices.map fun i =>
        wallet2.get_subaddress_as_str { major := pd.m_subaddr_account, minor := i }
      destinations := destinations
      numSuggestedConfirmations :=
        some (numSuggestedConfirmationsOf amount wallet2.get_last_block_reward) }
  { id := some txid
    paymentId := normalizedPaymentId pd.m_payment_id
    unlockTime := some pd.m_tx_unlock_time
    fee := some fee
    note := noteOf wallet2 txid
    isCoinbase := some false
    isConfirmed := some false
    isFailed := some isFailed
    isRelayed := some isRelayed
    inTxPool := some (!isFailed)
    doNotRelay := some false
    isDoubleSpendSeen := if !isFailed && isRelayed then some false else none
    numConfirmations := some 0
    outgoingTransfer := some outgoingTransfer }

/-- The function `buildTxWithVout`. -/
def buildTxWithVout (wallet2 : Wallet2) (td : transfer_details) : MoneroTxWallet :=
  let block : MoneroBlock := { height := some td.m_block_height, txs := [td.m_txid] }
  let vout : MoneroOutputWallet :=
    { amount := some td.amount
      index := some td.m_global_output_index
      accountIndex := some td.m_subaddr_index.major
      subaddressIndex := some td.m_subaddr_index.minor
      isSpent := some td.m_spent
      isUnlocked := some (wallet2.is_transfer_unlocked td)
      isFrozen := some td.m_frozen
      keyImage := if td.m_key_image_known then some { hex := some td.m_key_image } else none }
  { id := some td.m_txid
    block := some block
    isConfirmed := some true
    isFailed := some false
    isRelayed := some true
    inTxPool := some false
    doNotRelay := some false
    isDoubleSpendSeen := some false
    vouts := [vout] }

/-! ## Requests and criteria

The request classes and their `meetsCriteria` methods are defined outside src. A request
is modelled by the criteria fields this file reads. A tx request and its transfer or
output request may point to each other; here the links are one-way, and a request that
points to a tx request records whether that tx request points back to it. -/

/-- The transfer criteria of a `MoneroTransferRequest` that this file reads. -/
structure MoneroTransferCriteria where
  isIncoming : Option Bool := none
  isOutgoing : Option Bool := none
  hasDestinations : Option Bool := none
  accountIndex : Option Nat := none
  subaddressIndices : List Nat := []
  deriving DecidableEq, Repr

/-- The output criteria of a `MoneroOutputRequest`; none of its own fields is read here. -/
structure MoneroOutputCriteria where
  accountIndex : Option Nat := none
  subaddressIndex : Option Nat := none
  isSpent : Option Bool := none
  deriving DecidableEq, Repr

/-- The tx criteria of a `MoneroTxRequest` that this file reads; `height` is the value
of `getHeight()`. -/
structure MoneroTxRequest where
  isConfirmed : Option Bool := none
  inTxPool : Option Bool := none
  isFailed : Option Bool := none
  isRelayed : Option Bool := none
  height : Option Nat := none
  minHeight : Option Nat := none
  maxHeight : Option Nat := none
  txIds : List String := []
  includeOutputs : Option Bool := none
  transferRequest : Option MoneroTransferCriteria := none
  outputRequest : Option MoneroOutputCriteria := none
  deriving DecidableEq, Repr

/-- A transfer request: transfer criteria linked to a tx request. `linkedBack` tells
whether the transfer request of that tx request, when set, is this very request (the
circular link `txRequest->transferRequest.get() == &request`). -/
structure MoneroTransferRequest extends MoneroTransferCriteria where
  txRequest : Option MoneroTxRequest := none
  linkedBack : Bool := false
  deriving DecidableEq, Repr

/-- An output request: output criteria linked to a tx request. `linkedBack` tells whether
the output request of that tx request, when set, is this very request. -/
structure MoneroOutputRequest extends MoneroOutputCriteria where
  txRequest : Option MoneroTxRequest := none
  linkedBack : Bool := false
  deriving DecidableEq, Repr

/-- The three `meetsCriteria` methods, which are defined outside src and are taken as
parameters. A transfer or an output is tested together with the tx that owns it, in the
state that tx has at the moment of the call. -/
structure CriteriaEngine where
  meetsTx : MoneroTxRequest → MoneroTxWallet → Bool
  meetsTransfer : MoneroTransferRequest → MoneroTxWallet → MoneroTransfer → Bool
  meetsOutput : MoneroOutputRequest → MoneroTxWallet → MoneroOutputWallet → Bool

/-- Modelled from the spec: the criteria engine on criteria that constrain nothing, "a
criteria object with no fields set matches every candidate". -/
def matchAll : CriteriaEngine :=
  { meetsTx := fun _ _ => true
    meetsTransfer := fun _ _ _ => true
    meetsOutput := fun _ _ _ => true }

/-- The function `boolEquals`. -/
def boolEquals (val : Bool) (optVal : Option Bool) : Bool :=
  match optVal with
  | none => false
  | some v => val == v

/-! ## Orderings and sorting -/

/-- The comparison `<` of two `boost::optional<uint64_t>`: an unset value is below every
set value. -/
def optionalLess : Option Nat → Option Nat → Bool
  | none, some _ => true
  | some a, some b => decide (a < b)
  | _, none => false

/-- The function `txHeightLessThan`. -/
def txHeightLessThan (tx1 tx2 : MoneroTxWallet) : Bool :=
  if tx1.block ≠ none ∧ tx2.block ≠ none then optionalLess tx1.getHeight tx2.getHeight
  else if tx1.block = none then false
  else true

/-- The function `incomingTransferBefore`; each transfer comes with the tx that owns it.
The indices are read with `.get()`; every builder sets them, an unset one counts as 0. -/
def incomingTransferBefore (tx1 : MoneroTxWallet) (transfer1 : MoneroIncomingTransfer)
    (tx2 : MoneroTxWallet) (transfer2 : MoneroIncomingTransfer) : Bool :=
  if txHeightLessThan tx1 tx2 then true
  else if transfer1.accountIndex.getD 0 < transfer2.accountIndex.getD 0 then true
  else if transfer1.accountIndex.getD 0 = transfer2.accountIndex.getD 0 then
    decide (transfer1.subaddressIndex.getD 0 < transfer2.subaddressIndex.getD 0)
  else false

/-- The function `voutBefore`; each output comes with the tx that owns it. The indices
are read with `.get()`; every builder sets them, an unset one counts as 0. -/
def voutBefore (tx1 : MoneroTxWallet) (ow1 : MoneroOutputWallet)
    (tx2 : MoneroTxWallet) (ow2 : MoneroOutputWallet) : Bool :=
  if txHeightLessThan tx1 tx2 then true
  else if ow1.accountIndex.getD 0 < ow2.accountIndex.getD 0 then true
  else if ow1.accountIndex.getD 0 = ow2.accountIndex.getD 0 then
    if ow1.subaddressIndex.getD 0 < ow2.subaddressIndex.getD 0 then true
    else if ow1.subaddressIndex.getD 0 = ow2.subaddressIndex.getD 0
        ∧ ow1.index.getD 0 < ow2.index.getD 0 then true
    else false
  else false

/-- Insertion of `x` into a list sorted by `less`, after the elements that are not
above it. -/
def sortedInsert {α : Type} (less : α → α → Bool) (x : α) : List α → List α
  | [] => [x]
  | y :: rest => if less x y then x :: y :: rest else y :: sortedInsert less x rest

/-- Insertion sort, which keeps equivalent elements in their original order. -/
def insertionSort {α : Type} (less : α → α → Bool) (l : List α) : List α :=
  l.foldl (fun sorted x => sortedInsert less x sorted) []

/-- An implementation of `std::sort(begin, end, less)`, which belongs to the C++ standard
library and not to src; the queries take it as a parameter. -/
structure StdLibrary where
  sort : {α : Type} → (α → α → Bool) → List α → List α

/-- A comparison that `std::sort` accepts, a strict weak ordering: `less` is asymmetric
and its negation is transitive (this is the same as irreflexive and transitive with
transitive incomparability). -/
def StrictWeakOrder {α : Type} (less : α → α → Bool) : Prop :=
  (∀ a b, less a b = true → less b a = false) ∧
  (∀ a b c, less b a = false → less c b = false → less c a = false)

/-- What the standard promises of `std::sort`: the result is a rearrangement of the
input and, when the comparison is a strict weak ordering, no element of the result is
less than an element before it. The order of equivalent elements is left open. -/
def StdLibrary.Conforms (S : StdLibrary) : Prop :=
  ∀ {α : Type} (less : α → α → Bool) (l : List α),
    (S.sort less l).Perm l ∧
    (StrictWeakOrder less → (S.sort less l).Pairwise fun a b => less b a = false)

/-- A standard library whose sort is stable (insertion sort). -/
def stableLibrary : StdLibrary :=
  { sort := fun less l => insertionSort less l }

/-- A standard library whose sort puts equivalent elements in the reverse of their
original order (insertion sort of the reversed input). -/
def reversingLibrary : StdLibrary :=
  { sort := fun less l => insertionSort less l.reverse }

/-- A `std::set<uint32_t>` built by inserting the elements of a vector: ascending, without
repetition. -/
def stdSetOf (l : List Nat) : List Nat :=
  l.foldl (fun s x => if x ∈ s then s else sortedInsert (fun a b => decide (a < b)) x s) []

/-- The elements of a list without repetition, in the order of first occurrence: the
idiom `if (set.find(x) == set.end()) { out.push_back(x); set.insert(x); }`. The C++ sets
hold tx pointers; here two txs are the same when their values are equal, and the two
queries return one tx object per tx id. -/
def uniqueInOrder {α : Type} [DecidableEq α] (l : List α) : List α :=
  l.foldl (fun out x => if x ∈ out then out else out ++ [x]) []

/-! ## The queries `getTransfers` and `getOutputs` -/

/-- The constant `CRYPTONOTE_MAX_BLOCK_NUMBER` of the Monero core configuration. -/
def CRYPTONOTE_MAX_BLOCK_NUMBER : Nat := 500000000

/-- The local `canBeConfirmed` of `getTransfers`. -/
def canBeConfirmed (txReq : MoneroTxRequest) : Bool :=
  !boolEquals false txReq.isConfirmed && !boolEquals true txReq.inTxPool
    && !boolEquals true txReq.isFailed && !boolEquals false txReq.isRelayed

/-- The local `canBeInTxPool` of `getTransfers`. -/
def canBeInTxPool (txReq : MoneroTxRequest) : Bool :=
  !boolEquals true txReq.isConfirmed && !boolEquals false txReq.inTxPool
    && !boolEquals true txReq.isFailed && !boolEquals false txReq.isRelayed
    && txReq.height == none && txReq.minHeight == none

/-- The local `canBeIncoming` of `getTransfers`. -/
def canBeIncoming (req : MoneroTransferCriteria) : Bool :=
  !boolEquals false req.isIncoming && !boolEquals true req.isOutgoing
    && !boolEquals true req.hasDestinations

/-- The local `canBeOutgoing` of `getTransfers`. -/
def canBeOutgoing (req : MoneroTransferCriteria) : Bool :=
  !boolEquals false req.isOutgoing && !boolEquals true req.isIncoming

/-- The local `isFailed` of `getTransfers`. -/
def canBeFailed (txReq : MoneroTxRequest) : Bool :=
  !boolEquals false txReq.isFailed && !boolEquals true txReq.isConfirmed
    && !boolEquals true txReq.inTxPool

/-- The loop `for (tx : txs) mergeTx(tx, txMap, blockMap, skipIfAbsent)`; an exception of
`mergeTx` ends it. -/
def mergeTxs : List MoneroTxWallet → Indexes → Bool → Except String Indexes
  | [], st, _ => .ok st
  | tx :: rest, st, skipIfAbsent =>
    match mergeTx tx st skipIfAbsent with
    | .error (msg, _) => .error msg
    | .ok st1 => mergeTxs rest st1 skipIfAbsent

/-- The statement `tx->block.get()->txs.erase(std::remove(..., tx), ...)`: the tx is
taken out of the tx list of its block, the block index entry at the height of the tx. -/
def removeTxFromBlock (tx : MoneroTxWallet) (blockMap : List (Nat × MoneroBlock)) :
    List (Nat × MoneroBlock) :=
  match tx.id, tx.getHeight with
  | some id, some h =>
    match mapFind h blockMap with
    | some b => mapSet h { b with txs := b.txs.filter (fun i => i ≠ id) } blockMap
    | none => blockMap
  | _, _ => blockMap

/-- The test of `getTransfers` that makes it throw: the tx request of the request has a
transfer request that is not the request itself. -/
def MoneroTransferRequest.badLink (request : MoneroTransferRequest) : Bool :=
  match request.txRequest with
  | none => false
  | some txRequest => txRequest.transferRequest != none && !request.linkedBack

/-- The message thrown by `getTransfers` on a bad link. -/
def TRANSFER_LINK_ERROR : String :=
  "Transfer request's tx request must be a circular reference or null"

/-- The request of `getTransfers` after "copy and normalize request", when that does not
throw: a copy that has a tx request, in which the link from the tx request back to the
transfer request is cleared. -/
def normalizeTransferRequest (request : MoneroTransferRequest) : MoneroTransferRequest :=
  { request with
    txRequest := some { (request.txRequest.getD {}) with transferRequest := none }
    linkedBack := false }

/-- The first part of `getTransfers`: the selected streams are pulled from the substrate,
every record is built into a fragment and merged into fresh indexes. -/
def reconcileTransfers (wallet2 : Wallet2) (request : MoneroTransferRequest) :
    Except String Indexes :=
  let req := normalizeTransferRequest request
  let txReq := req.txRequest.getD {}
  -- build parameters for wallet2->get_payments()
  let minHeight0 := txReq.minHeight.getD 0
  let maxHeight :=
    match txReq.maxHeight with
    | none => CRYPTONOTE_MAX_BLOCK_NUMBER
    | some m => min CRYPTONOTE_MAX_BLOCK_NUMBER m
  let minHeight := if minHeight0 > 0 then minHeight0 - 1 else minHeight0
  let accountIndex := req.accountIndex
  let subaddressIndices := stdSetOf req.subaddressIndices
  -- translate to in, out, pending, pool, failed
  let isIn := canBeIncoming req.toMoneroTransferCriteria && canBeConfirmed txReq
  let isOut := canBeOutgoing req.toMoneroTransferCriteria && canBeConfirmed txReq
  let isPending := canBeOutgoing req.toMoneroTransferCriteria && canBeInTxPool txReq
  let isPool := canBeIncoming req.toMoneroTransferCriteria && canBeInTxPool txReq
  let isFailed := canBeFailed txReq
  let height := wallet2.height
  let incoming :=
    if isIn then
      (wallet2.get_payments minHeight maxHeight accountIndex subaddressIndices).map
        fun p => buildTxWithIncomingTransfer wallet2 height p.1 p.2
    else []
  let outgoing :=
    if isOut then
      (wallet2.get_payments_out minHeight maxHeight accountIndex subaddressIndices).map
        fun p => buildTxWithOutgoingTransfer wallet2 height p.1 p.2
    else []
  let unconfirmedOut :=
    if isPending || isFailed then
      ((wallet2.get_unconfirmed_payments_out accountIndex subaddressIndices).map
        fun p => buildTxWithOutgoingTransferUnconfirmed wallet2 p.1 p.2).filter
        -- skip merging if tx unrequested
        fun tx => !(txReq.isFailed != none && txReq.isFailed != tx.isFailed)
    else []
  let pool :=
    if isPool then
      (wallet2.get_unconfirmed_payments accountIndex subaddressIndices).map
        fun p => buildTxWithIncomingTransferUnconfirmed wallet2 p.1 p.2
    else []
  do
    let st1 ← mergeTxs incoming {} false
    let st2 ← mergeTxs outgoing st1 false
    let st3 ← mergeTxs unconfirmedOut st2 false
    mergeTxs pool st3 false

/-- The loop of `getTransfers` over the incoming transfers of one tx: a transfer that
fails the criteria is erased from the tx. `kept` are the transfers already passed and
the tx given to the test is the tx as it is when the test is called. -/
def filterIncoming (meets : MoneroTxWallet → MoneroTransfer → Bool) (tx : MoneroTxWallet)
    (kept : List MoneroIncomingTransfer) : List MoneroIncomingTransfer →
    List MoneroIncomingTransfer
  | [] => kept
  | t :: rest =>
    if meets { tx with incomingTransfers := kept ++ t :: rest } (.incoming t) then
      filterIncoming meets tx (kept ++ [t]) rest
    else filterIncoming meets tx kept rest

/-- The body of the loop of `getTransfers` over the sorted txs, for one tx: the tx with
its filtered transfers. -/
def filterTxTransfers (S : StdLibrary) (meets : MoneroTxWallet → MoneroTransfer → Bool)
    (tx : MoneroTxWallet) : MoneroTxWallet :=
  -- sort transfers
  let tx1 := { tx with
    incomingTransfers := S.sort (fun a b => incomingTransferBefore tx a tx b) tx.incomingTransfers }
  -- collect outgoing transfer, erase if filtered
  let tx2 :=
    match tx1.outgoingTransfer with
    | some o => if meets tx1 (.outgoing o) then tx1 else { tx1 with outgoingTransfer := none }
    | none => tx1
  -- collect incoming transfers, erase if unrequested
  { tx2 with incomingTransfers := filterIncoming meets tx2 [] tx2.incomingTransfers }

/-- The transfers a tx owns, its outgoing transfer first. -/
def MoneroTxWallet.transfers (tx : MoneroTxWallet) : List MoneroTransfer :=
  (tx.outgoingTransfer.toList.map MoneroTransfer.outgoing)
    ++ tx.incomingTransfers.map MoneroTransfer.incoming

/-- What `getTransfers` leaves behind: the returned transfers, each with the tx that owns
it, the reconciled txs in sorted order, and the block index. -/
structure TransfersResult where
  transfers : List (MoneroTxWallet × MoneroTransfer) := []
  txs : List MoneroTxWallet := []
  blockMap : List (Nat × MoneroBlock) := []
  deriving DecidableEq, Repr

/-- The loop of `getTransfers` over the sorted txs. -/
def filterTransfers (S : StdLibrary) (meets : MoneroTxWallet → MoneroTransfer → Bool) :
    List MoneroTxWallet → List (Nat × MoneroBlock) → TransfersResult
  | [], blockMap => { blockMap := blockMap }
  | tx :: rest, blockMap =>
    let tx3 := filterTxTransfers S meets tx
    -- remove unrequested txs from block
    let blockMap1 :=
      if tx3.block ≠ none ∧ tx3.outgoingTransfer = none ∧ tx3.incomingTransfers = [] then
        removeTxFromBlock tx3 blockMap
      else blockMap
    let r := filterTransfers S meets rest blockMap1
    { transfers := tx3.transfers.map (fun t => (tx3, t)) ++ r.transfers
      txs := tx3 :: r.txs
      blockMap := r.blockMap }

/-- The txs of the tx index in key order, sorted with `txHeightLessThan`. -/
def sortedTxs (S : StdLibrary) (st : Indexes) : List MoneroTxWallet :=
  S.sort txHeightLessThan (st.txMap.map fun e => e.2)

/-- The function `MoneroWallet::getTransfers`. -/
def getTransfers (S : StdLibrary) (E : CriteriaEngine) (wallet2 : Wallet2)
    (request : MoneroTransferRequest) : Except String TransfersResult :=
  if request.badLink then .error TRANSFER_LINK_ERROR
  else
    match reconcileTransfers wallet2 request with
    | .error msg => .error msg
    | .ok st =>
      -- sort txs by block height, then filter and return transfers
      .ok (filterTransfers S (E.meetsTransfer (normalizeTransferRequest request)) (sortedTxs S st)
        st.blockMap)

/-- The test of `getOutputs` that makes it throw: the tx request of the request has an
output request that is not the request itself. -/
def MoneroOutputRequest.badLink (request : MoneroOutputRequest) : Bool :=
  match request.txRequest with
  | none => false
  | some txRequest => txRequest.outputRequest != none && !request.linkedBack

/-- The message thrown by `getOutputs` on a bad link. -/
def OUTPUT_LINK_ERROR : String :=
  "Output request's tx request must be a circular reference or null"

/-- The request of `getOutputs` after "copy and normalize request", when that does not
throw, as for `getTransfers`. -/
def normalizeOutputRequest (request : MoneroOutputRequest) : MoneroOutputRequest :=
  { request with
    txRequest := some { (request.txRequest.getD {}) with outputRequest := none }
    linkedBack := false }

/-- The loop of `getOutputs` over the outputs of one tx: an output that fails the
criteria is erased from the tx. -/
def filterVouts (meets : MoneroTxWallet → MoneroOutputWallet → Bool) (tx : MoneroTxWallet)
    (kept : List MoneroOutputWallet) : List MoneroOutputWallet → List MoneroOutputWallet
  | [] => kept
  | o :: rest =>
    if meets { tx with vouts := kept ++ o :: rest } o then filterVouts meets tx (kept ++ [o]) rest
    else filterVouts meets tx kept rest

/-- The body of the loop of `getOutputs` over the sorted txs, for one tx. -/
def filterTxVouts (S : StdLibrary) (meets : MoneroTxWallet → MoneroOutputWallet → Bool)
    (tx : MoneroTxWallet) : MoneroTxWallet :=
  let tx1 := { tx with vouts := S.sort (fun a b => voutBefore tx a tx b) tx.vouts }
  { tx1 with vouts := filterVouts meets tx1 [] tx1.vouts }

/-- What `getOutputs` leaves behind: the returned outputs, each with the tx that owns it,
the reconciled txs in sorted order, and the block index. -/
structure OutputsResult where
  vouts : List (MoneroTxWallet × MoneroOutputWallet) := []
  txs : List MoneroTxWallet := []
  blockMap : List (Nat × MoneroBlock) := []
  deriving DecidableEq, Repr

/-- The loop of `getOutputs` over the sorted txs. -/
def filterOutputs (S : StdLibrary) (meets : MoneroTxWallet → MoneroOutputWallet → Bool) :
    List MoneroTxWallet → List (Nat × MoneroBlock) → OutputsResult
  | [], blockMap => { blockMap := blockMap }
  | tx :: rest, blockMap =>
    let tx2 := filterTxVouts S meets tx
    -- remove txs without requested vout
    let blockMap1 :=
      if tx2.vouts = [] ∧ tx2.block ≠ none then removeTxFromBlock tx2 blockMap else blockMap
    let r := filterOutputs S meets rest blockMap1
    { vouts := tx2.vouts.map (fun o => (tx2, o)) ++ r.vouts
      txs := tx2 :: r.txs
      blockMap := r.blockMap }

/-- The function `MoneroWallet::getOutputs`. -/
def getOutputs (S : StdLibrary) (E : CriteriaEngine) (wallet2 : Wallet2)
    (request : MoneroOutputRequest) : Except String OutputsResult :=
  if request.badLink then .error OUTPUT_LINK_ERROR
  else
    -- get output data from wallet2, cache unique txs and blocks
    match mergeTxs (wallet2.get_transfers.map fun td => buildTxWithVout wallet2 td) {} false with
    | .error msg => .error msg
    | .ok st =>
      -- sort txs by block height, then filter and return outputs
      .ok (filterOutputs S (E.meetsOutput (normalizeOutputRequest request)) (sortedTxs S st)
        st.blockMap)

/-! ## The query `getTxs` -/

/-- The two queries that `getTxs` calls, as they answer during one attempt. -/
structure QueryCalls where
  getTransfers : MoneroTransferRequest → Except String (List (MoneroTxWallet × MoneroTransfer))
  getOutputs : MoneroOutputRequest → Except String (List (MoneroTxWallet × MoneroOutputWallet))

/-- Where a tx pointer collected by `getTxs` points once the tx is merged: to the entry
of the tx index under its id when `mergeTx` stored that very tx, otherwise to the tx
itself, which was merged into an entry that was already there. -/
inductive TxRef where
  | indexed (id : String)
  | detached (tx : MoneroTxWallet)
  deriving DecidableEq, Repr

/-- The loop `for (tx : txs) mergeTx(tx, txMap, blockMap, false)` of `getTxs`, which also
records where each collected tx pointer points afterwards. -/
def indexTxs : List MoneroTxWallet → Indexes → Except String (Indexes × List TxRef)
  | [], st => .ok (st, [])
  | tx :: rest, st =>
    match mergeTx tx st false with
    | .error (msg, _) => .error msg
    | .ok st1 =>
      let ref :=
        match tx.id with
        | some id => if mapFind id st.txMap = none then TxRef.indexed id else TxRef.detached tx
        | none => TxRef.detached tx
      match indexTxs rest st1 with
      | .error msg => .error msg
      | .ok (st2, refs) => .ok (st2, ref :: refs)

/-- The tx a collected pointer points to, read in the tx index `txMap`. -/
def TxRef.resolve (txMap : List (String × MoneroTxWallet)) : TxRef → MoneroTxWallet
  | .indexed id => (mapFind id txMap).getD { id := some id }
  | .detached tx => tx

/-- What `getTxs` leaves behind: the returned txs and the block index they live in. -/
structure TxsResult where
  txs : List MoneroTxWallet := []
  blockMap : List (Nat × MoneroBlock) := []
  deriving DecidableEq, Repr

/-- The loop of `getTxs` that filters the txs: a tx that fails the criteria is erased
from the list and from its block. -/
def filterTxs (meets : MoneroTxWallet → Bool) :
    List MoneroTxWallet → List (Nat × MoneroBlock) → TxsResult
  | [], blockMap => { blockMap := blockMap }
  | tx :: rest, blockMap =>
    if meets tx then
      let r := filterTxs meets rest blockMap
      { r with txs := tx :: r.txs }
    else
      filterTxs meets rest (if tx.block ≠ none then removeTxFromBlock tx blockMap else blockMap)

/-- The loop "verify all specified tx ids found": the first requested id that no tx in
`txs` carries, if there is one. -/
def firstMissingId (txIds : List String) (txs : List MoneroTxWallet) : Option String :=
  txIds.find? fun txId => !(txs.any fun tx => tx.id == some txId)

/-- The condition of the re-fetch: some tx is marked confirmed and carries no block. (The
flag is read with `*`; every builder sets it, an unset one counts as not confirmed.) -/
def hasInconsistency (txs : List MoneroTxWallet) : Bool :=
  txs.any fun tx => tx.isConfirmed == some true && tx.block == none

/-- The message of the model for `txIter->second` on `txMap.end()`, which C++ leaves
undefined. -/
def END_ITERATOR_ERROR : String := "dereference of txMap.end()"

/-- The loop "order txs if tx ids given": the entry of the tx index for every requested
id, in the requested order. -/
def orderByIds : List String → List (String × MoneroTxWallet) → Except String (List MoneroTxWallet)
  | [], _ => .ok []
  | txId :: rest, txMap =>
    match mapFind txId txMap with
    | none => .error END_ITERATOR_ERROR
    | some tx =>
      match orderByIds rest txMap with
      | .error msg => .error msg
      | .ok txs => .ok (tx :: txs)

/-- The tx request of `getTxs` after normalisation: it has a transfer request. -/
def normalizeTxRequest (request : MoneroTxRequest) : MoneroTxRequest :=
  { request with transferRequest := some (request.transferRequest.getD {}) }

/-- The part "fetch and merge outputs if requested" of `getTxs`: the txs of the outputs
are merged one time each, and only into txs that are already indexed. -/
def mergeOutputTxs (calls : QueryCalls) (req : MoneroTxRequest) (st : Indexes) :
    Except String Indexes :=
  if req.includeOutputs = some true then
    -- fetch outputs
    match calls.getOutputs { txRequest := some req } with
    | .error msg => .error msg
    | .ok outputs =>
      -- merge output txs one time while retaining order
      mergeTxs (uniqueInOrder (outputs.map fun o => o.1)) st true
  else .ok st

/-- The txs of `getTxs` after the merges and the filter by the request: the list
`txsRequested` with the block index, and the two indexes. -/
def txsRequested (E : CriteriaEngine) (calls : QueryCalls) (request : MoneroTxRequest) :
    Except String (TxsResult × Indexes) :=
  let req := normalizeTxRequest request
  -- temporarily disable transfer request
  let reqNoLink := { req with transferRequest := none }
  -- fetch all transfers that meet tx request
  match calls.getTransfers { txRequest := some reqNoLink } with
  | .error msg => .error msg
  | .ok transfers =>
    -- collect unique txs from transfers while retaining order,
    -- cache types into maps for merging and lookup
    match indexTxs (uniqueInOrder (transfers.map fun t => t.1)) {} with
    | .error msg => .error msg
    | .ok (st1, refs) =>
      match mergeOutputTxs calls reqNoLink st1 with
      | .error msg => .error msg
      | .ok st2 =>
        -- filter txs that don't meet transfer req
        .ok (filterTxs (E.meetsTx req) (refs.map (TxRef.resolve st2.txMap)) st2.blockMap, st2)

/-- One run of the body of `getTxs`: an exception, the request to re-fetch (`none`), or
the returned txs. -/
def getTxsAttempt (E : CriteriaEngine) (calls : QueryCalls) (request : MoneroTxRequest) :
    Except String (Option TxsResult) :=
  match txsRequested E calls request with
  | .error msg => .error msg
  | .ok (r, st) =>
    -- verify all specified tx ids found
    match firstMissingId request.txIds r.txs with
    | some txId => .error ("Tx not found in wallet: " ++ txId)
    | none =>
      -- special case: re-fetch txs if inconsistency
      if hasInconsistency r.txs then .ok none
      -- otherwise order txs if tx ids given then return
      else if request.txIds ≠ [] then
        match orderByIds request.txIds st.txMap with
        | .error msg => .error msg
        | .ok ordered => .ok (some { r with txs := ordered })
      else .ok (some r)

/-- The function `MoneroWallet::getTxs(request)`. The re-fetch is the recursive call
`return getTxs(*req)` on the normalised request; `calls n` is how the two queries answer
during attempt `n`, and `fuel` bounds the number of attempts (`none`: not yet returned). -/
def getTxsWith (E : CriteriaEngine) (calls : Nat → QueryCalls) :
    Nat → Nat → MoneroTxRequest → Option (Except String TxsResult)
  | 0, _, _ => none
  | fuel + 1, attempt, request =>
    match getTxsAttempt E (calls attempt) request with
    | .error msg => some (.error msg)
    | .ok (some r) => some (.ok r)
    | .ok none => getTxsWith E calls fuel (attempt + 1) (normalizeTxRequest request)

/-- The two queries on one state of the substrate. -/
def walletCalls (S : StdLibrary) (E : CriteriaEngine) (wallet2 : Wallet2) : QueryCalls :=
  { getTransfers := fun req => (getTransfers S E wallet2 req).map fun r => r.transfers
    getOutputs := fun req => (getOutputs S E wallet2 req).map fun r => r.vouts }

/-- The function `MoneroWallet::getTxs(request)` on a wallet whose substrate is in state
`wallet2 n` during attempt `n`. -/
def getTxs (S : StdLibrary) (E : CriteriaEngine) (wallet2 : Nat → Wallet2) (fuel : Nat)
    (request : MoneroTxRequest) : Option (Except String TxsResult) :=
  getTxsWith E (fun n => walletCalls S E (wallet2 n)) fuel 0 request

/-! ## Synchronisation

The sync entry points `sync`, `lockAndSync` and `syncAux` and the listener
`Wallet2Listener`. The wallet state that a sync reads or writes is a `SyncWallet`; calls
into the substrate and notifications to listeners are appended to its `log`, in the order
in which they happen. An exception carries the state as it is at the throw. -/

/-- The result of a sync (`MoneroSyncResult`). -/
structure MoneroSyncResult where
  numBlocksFetched : Nat := 0
  receivedMoney : Bool := false
  deriving DecidableEq, Repr

/-- What a sync does to the outside: the calls `wallet2->rescan_blockchain(false)`,
`wallet2->refresh(.., startHeight, ..)` and `wallet2->find_and_save_rings(false)`, and
the notifications `onNewBlock` and `onSyncProgress`. A progress notification goes to the
wallet listener or to the listener of the call; its `percentDone` is the quotient of
`numerator` and `denominator` taken as doubles, see `SyncEvent.percentDone`. -/
inductive SyncEvent where
  | rescanBlockchain
  | refresh (startHeight : Nat)
  | findAndSaveRings
  | onNewBlock (height : Nat)
  | onSyncProgress (toSyncListener : Bool) (height startHeight endHeight numerator
      denominator : Nat)
  deriving DecidableEq, Repr

/-- One call of `wallet2->refresh` as the substrate performs it: the heights it passes to
`on_new_block`, in order, the wallet height afterwards, and either the exception it
throws or the counts it returns. -/
structure RefreshRun where
  blocks : List Nat := []
  heightAfter : Nat := 0
  failure : Option String := none
  result : MoneroSyncResult := {}
  deriving DecidableEq, Repr

/-- The answers of the substrate during one sync cycle: the daemon heights with their
error strings, the exceptions (if any) of the rescan and of the ring search, the blocks
the rescan passes to `on_new_block` and the wallet height after it, the refresh for each
start height, and whether another thread requests a rescan (sets `rescanOnSync`) while
the cycle runs. -/
structure SyncSubstrate where
  daemonHeight : Nat := 0
  daemonHeightErr : String := ""
  daemonTargetHeight : Nat := 0
  daemonTargetErr : String := ""
  rescanFailure : Option String := none
  rescanBlocks : List Nat := []
  rescanHeightAfter : Nat := 0
  ringsFailure : Option String := none
  refresh : Nat → RefreshRun := fun _ => {}
  rescanRequested : Bool := false

/-- The state of the wallet that a sync reads or writes: the members `isConnected`,
`isSynced` and `rescanOnSync`, the wallet height and the restore height held by
`wallet2`, the members of `Wallet2Listener` (whether a wallet listener and a listener of
the call are set, and the two sync heights), and the log of events. -/
structure SyncWallet where
  isConnected : Bool := false
  isSynced : Bool := false
  rescanOnSync : Bool := false
  height : Nat := 0
  restoreHeight : Nat := 0
  listener : Bool := false
  syncListener : Bool := false
  syncStartHeight : Option Nat := none
  syncEndHeight : Option Nat := none
  log : List SyncEvent := []
  deriving DecidableEq, Repr

/-- A step of a sync: a value with the new state, or an exception with the state at the
throw. -/
abbrev SyncStep (α : Type) : Type := Except (String × SyncWallet) (α × SyncWallet)

/-- The function `MoneroWallet::getDaemonHeight`. -/
def getDaemonHeight (isConnected : Bool) (e : SyncSubstrate) : Except String Nat :=
  if !isConnected then .error "wallet is not connected to daemon"
  else if e.daemonHeightErr ≠ "" then .error e.daemonHeightErr
  else .ok e.daemonHeight

/-- The function `MoneroWallet::getDaemonTargetHeight`. -/
def getDaemonTargetHeight (isConnected : Bool) (e : SyncSubstrate) : Except String Nat :=
  if !isConnected then .error "wallet is not connected to daemon"
  else if e.daemonTargetErr ≠ "" then .error e.daemonTargetErr
  else if e.daemonTargetHeight = 0 then getDaemonHeight isConnected e
  else .ok e.daemonTargetHeight

/-- The function `MoneroWallet::getIsDaemonSynced`. -/
def getIsDaemonSynced (isConnected : Bool) (e : SyncSubstrate) : Except String Bool :=
  if !isConnected then .error "wallet is not connected to daemon"
  else
    match getDaemonHeight isConnected e with
    | .error msg => .error msg
    | .ok daemonHeight =>
      match getDaemonTargetHeight isConnected e with
      | .error msg => .error msg
      | .ok target => .ok (decide (daemonHeight ≥ target) && decide (daemonHeight > 1))

/-- The function `MoneroWallet::getChainHeight`. -/
def getChainHeight (isConnected : Bool) (e : SyncSubstrate) : Except String Nat :=
  if !isConnected then .error "No connection to daemon"
  else if e.daemonHeightErr ≠ "" then .error e.daemonHeightErr
  else .ok e.daemonHeight

/-- The message thrown by `onSyncStart` when a sync height is already set. -/
def SYNC_IN_PROGRESS_ERROR : String :=
  "Sync start or end height should not already be allocated, is previous sync in progress?"

/-- The function `Wallet2Listener::onSyncStart`. -/
def onSyncStart (w : SyncWallet) (e : SyncSubstrate) (startHeight : Nat) (syncListener : Bool) :
    SyncStep Unit :=
  if w.syncStartHeight ≠ none ∨ w.syncEndHeight ≠ none then .error (SYNC_IN_PROGRESS_ERROR, w)
  else
    let w1 := { w with syncStartHeight := some startHeight }
    match getChainHeight w1.isConnected e with
    | .error msg => .error (msg, w1)
    | .ok chainHeight =>
      .ok ((), { w1 with syncEndHeight := some chainHeight, syncListener := syncListener })

/-- The function `Wallet2Listener::onSyncEnd`. -/
def onSyncEnd (w : SyncWallet) : SyncWallet :=
  { w with syncStartHeight := none, syncEndHeight := none, syncListener := false }

/-- The function `Wallet2Listener::on_new_block`. (`*syncEndHeight` is read when the start
height is set; the two are set together, an unset end height counts as 0.) -/
def on_new_block (w : SyncWallet) (height : Nat) : SyncWallet :=
  -- notify listener of block
  let w1 := if w.listener then { w with log := w.log ++ [SyncEvent.onNewBlock height] } else w
  -- notify listeners of sync progress
  match w1.syncStartHeight with
  | none => w1
  | some syncStartHeight =>
    if height ≥ syncStartHeight then
      -- increase end height if necessary
      let syncEndHeight :=
        if height ≥ w1.syncEndHeight.getD 0 then add64 height 1 else w1.syncEndHeight.getD 0
      let numerator := add64 (sub64 height syncStartHeight) 1
      let denominator := sub64 syncEndHeight syncStartHeight
      let toListener :=
        if w1.listener then
          [SyncEvent.onSyncProgress false height syncStartHeight syncEndHeight numerator
            denominator]
        else []
      let toSyncListener :=
        if w1.syncListener then
          [SyncEvent.onSyncProgress true height syncStartHeight syncEndHeight numerator
            denominator]
        else []
      { w1 with
        syncEndHeight := some syncEndHeight
        log := w1.log ++ toListener ++ toSyncListener }
    else w1

/-- The substrate reports the blocks it processes: `updateListening` registers the
listener object as callback of `wallet2` only while a wallet listener or a listener of
the call is set, so `on_new_block` runs for each block only then. -/
def notifyBlocks (w : SyncWallet) (blocks : List Nat) : SyncWallet :=
  if w.listener || w.syncListener then blocks.foldl on_new_block w else w

/-- The function `MoneroWallet::syncAux`. -/
def syncAux (w : SyncWallet) (e : SyncSubstrate) (startHeight : Option Nat) (listener : Bool) :
    SyncStep MoneroSyncResult :=
  -- determine sync start height
  let syncStartHeight :=
    match startHeight with
    | none => max w.height w.restoreHeight
    | some s => s
  let w1 := if syncStartHeight < w.restoreHeight then { w with restoreHeight := syncStartHeight } else w
  -- sync wallet and return result
  match onSyncStart w1 e syncStartHeight listener with
  | .error err => .error err
  | .ok (_, w2) =>
    let run := e.refresh syncStartHeight
    let w3 := notifyBlocks { w2 with log := w2.log ++ [SyncEvent.refresh syncStartHeight] }
      run.blocks
    let w4 := { w3 with height := run.heightAfter }
    match run.failure with
    | some msg => .error (msg, w4)
    | none => .ok (run.result, onSyncEnd { w4 with isSynced := true })

/-- The body of the loop of `lockAndSync`, one sync cycle: skipped when the daemon is not
connected or not synced. `result` is the result so far. At the end the rescan flag is set
if another thread requested a rescan during the cycle. -/
def syncCycle (w : SyncWallet) (e : SyncSubstrate) (rescan : Bool) (startHeight : Option Nat)
    (listener : Bool) (result : MoneroSyncResult) : SyncStep MoneroSyncResult :=
  let finish := fun (r : MoneroSyncResult) (s : SyncWallet) =>
    (r, { s with rescanOnSync := s.rescanOnSync || e.rescanRequested })
  if !w.isConnected then .ok (finish result w)
  else
    match getIsDaemonSynced w.isConnected e with
    | .error msg => .error (msg, w)
    | .ok false => .ok (finish result w)
    | .ok true =>
      -- rescan blockchain if requested
      let rescanned : SyncStep Unit :=
        if rescan then
          let w1 := notifyBlocks { w with log := w.log ++ [SyncEvent.rescanBlockchain] }
            e.rescanBlocks
          let w2 := { w1 with height := e.rescanHeightAfter }
          match e.rescanFailure with
          | some msg => .error (msg, w2)
          | none => .ok ((), w2)
        else .ok ((), w)
      match rescanned with
      | .error err => .error err
      | .ok (_, w1) =>
        -- sync wallet
        match syncAux w1 e startHeight listener with
        | .error err => .error err
        | .ok (r, w2) =>
          -- find and save rings
          let w3 := { w2 with log := w2.log ++ [SyncEvent.findAndSaveRings] }
          match e.ringsFailure with
          | some msg => .error (msg, w3)
          | none => .ok (finish r w3)

/-- The function `MoneroWallet::lockAndSync`; `env k` are the answers of the substrate
during cycle `k`. The flag `rescanOnSync` is exchanged with false at entry and, when the
first cycle was not a rescan, at the end of that cycle. -/
def lockAndSync (w : SyncWallet) (env : Nat → SyncSubstrate) (startHeight : Option Nat)
    (listener : Bool) : SyncStep MoneroSyncResult :=
  let rescan := w.rescanOnSync
  match syncCycle { w with rescanOnSync := false } (env 0) rescan startHeight listener {} with
  | .error err => .error err
  | .ok (result, w1) =>
    -- repeat if not rescanned and rescan was requested
    if rescan then .ok (result, w1)
    else if w1.rescanOnSync then
      syncCycle { w1 with rescanOnSync := false } (env 1) true startHeight listener result
    else .ok (result, w1)

/-- The four overloads of `MoneroWallet::sync`; the start height and the listener of the
call are optional. -/
def sync (w : SyncWallet) (env : Nat → SyncSubstrate) (startHeight : Option Nat)
    (listener : Bool) : SyncStep MoneroSyncResult :=
  if !w.isConnected then .error ("No connection to daemon", w)
  else lockAndSync w env startHeight listener

/-- The function `MoneroWallet::rescanBlockchain`. -/
def rescanBlockchain (w : SyncWallet) (env : Nat → SyncSubstrate) : SyncStep Unit :=
  if !w.isConnected then .error ("No connection to daemon", w)
  else
    match lockAndSync { w with rescanOnSync := true } env none false with
    | .error err => .error err
    | .ok (_, w1) => .ok ((), w1)

/-- The state in which a step of a sync ends, returning or throwing. -/
def stateAfter {α : Type} : SyncStep α → SyncWallet
  | .ok (_, w) => w
  | .error (_, w) => w

/-- The start heights of the calls of the substrate refresh in a log, in order. -/
def refreshHeights (log : List SyncEvent) : List Nat :=
  log.filterMap fun ev =>
    match ev with
    | SyncEvent.refresh startHeight => some startHeight
    | _ => none

/-- The outcome of an `Except` computation when it succeeds. -/
def okValue {ε α : Type} : Except ε α → Option α
  | .ok a => some a
  | .error _ => none

/-- The tx with exactly those of its transfers that meet the criteria `meets`: its
outgoing transfer when that meets them, and of its sorted incoming transfers those that
meet them. -/
def withTransfersMeeting (S : StdLibrary) (meets : MoneroTxWallet → MoneroTransfer → Bool)
    (tx : MoneroTxWallet) : MoneroTxWallet :=
  { tx with
    outgoingTransfer := tx.outgoingTransfer.filter fun o => meets tx (.outgoing o)
    incomingTransfers :=
      (S.sort (fun a b => incomingTransferBefore tx a tx b) tx.incomingTransfers).filter
        fun t => meets tx (.incoming t) }

/-- The tx with exactly those of its sorted outputs that meet the criteria `meets`. -/
def withVoutsMeeting (S : StdLibrary) (meets : MoneroTxWallet → MoneroOutputWallet → Bool)
    (tx : MoneroTxWallet) : MoneroTxWallet :=
  { tx with
    vouts := (S.sort (fun a b => voutBefore tx a tx b) tx.vouts).filter fun o => meets tx o }

/-- A transfer test that reads the tx owning the transfer only outside its transfers. -/
def TransferTestLocal (meets : MoneroTxWallet → MoneroTransfer → Bool) : Prop :=
  ∀ (tx : MoneroTxWallet) (l : List MoneroIncomingTransfer) (o : Option MoneroOutgoingTransfer)
    (t : MoneroTransfer),
    meets { tx with incomingTransfers := l, outgoingTransfer := o } t = meets tx t

/-- An output test that reads the tx owning the output only outside its outputs. -/
def OutputTestLocal (meets : MoneroTxWallet → MoneroOutputWallet → Bool) : Prop :=
  ∀ (tx : MoneroTxWallet) (l : List MoneroOutputWallet) (o : MoneroOutputWallet),
    meets { tx with vouts := l } o = meets tx o

/-- The wallet of the scenario: the substrate yields one confirmed incoming payment of
5000000 in tx "aa11" at height 100, and one output of that tx with global index 3. -/
def scenarioWallet : Wallet2 :=
  { get_tx_note := fun _ => ""
    get_subaddress_as_str := fun _ => "subaddress"
    get_last_block_reward := 1000000
    is_transfer_unlocked := fun _ => true
    height := 110
    get_payments := fun _ _ _ _ =>
      [("0000000000000000000000000000000000000000000000000000000000000000",
        { m_tx_hash := "aa11", m_amount := 5000000, m_block_height := 100 })]
    get_payments_out := fun _ _ _ _ => []
    get_unconfirmed_payments_out := fun _ _ => []
    get_unconfirmed_payments := fun _ _ => []
    get_transfers :=
      [{ m_txid := "aa11", m_block_height := 100, amount := 5000000, m_global_output_index := 3 }] }

/-- A tx index in which every tx is stored under its own id. -/
def WellKeyed (txMap : List (String × MoneroTxWallet)) : Prop :=
  ∀ k v, mapFind k txMap = some v → v.id = some k

/-- The id under which a collected tx pointer is looked up. -/
def TxRef.key : TxRef → Option String
  | .indexed id => some id
  | .detached tx => tx.id

/-- The answers of the two queries in which the first two attempts see tx "aa11" marked
confirmed without a block, and every later attempt sees it with its block. -/
def twiceInconsistentCalls (attempt : Nat) : QueryCalls :=
  let tx : MoneroTxWallet :=
    { id := some "aa11", isConfirmed := some true,
      block := if attempt < 2 then none else some { height := some 100, txs := ["aa11"] },
      incomingTransfers := [{ amount := some 5000000 }] }
  { getTransfers := fun _ => .ok [(tx, .incoming { amount := some 5000000 })]
    getOutputs := fun _ => .ok [] }

/-- An engine that accepts every candidate under the tx request `request` and under the
transfer and output requests that `getTxs` derives from it: what the criteria methods do
when `request` constrains nothing. -/
def AcceptsAll (E : CriteriaEngine) (request : MoneroTxRequest) : Prop :=
  (∀ tx, E.meetsTx (normalizeTxRequest request) tx = true) ∧
  (∀ tx t, E.meetsTransfer
    (normalizeTransferRequest
      { txRequest := some { (normalizeTxRequest request) with transferRequest := none } })
    tx t = true) ∧
  (∀ tx o, E.meetsOutput
    (normalizeOutputRequest
      { txRequest := some { (normalizeTxRequest request) with transferRequest := none } })
    tx o = true)

/-- The sort key that `txHeightLessThan` compares, as a pair in lexicographic order: txs
with a block come first, by ascending height (a block without height first), and txs
without a block last. -/
def heightKey (tx : MoneroTxWallet) : Nat × Nat :=
  match tx.block with
  | none => (1, 0)
  | some b =>
    match b.height with
    | none => (0, 0)
    | some h => (0, h + 1)

/-- The loop of `lockAndSync` as it is written,
`do { cycle } while (!rescan && (rescan = rescanOnSync.exchange(false)))`, run from cycle
`k` on for at most `fuel` cycles (`none` when the fuel runs out). Besides the outcome it
returns the value that `rescan` has in each cycle it runs. An exception ends the loop. -/
def syncLoop (env : Nat → SyncSubstrate) (startHeight : Option Nat) (listener : Bool) :
    Nat → Nat → SyncWallet → Bool → MoneroSyncResult →
    Option (SyncStep MoneroSyncResult × List Bool)
  | 0, _, _, _, _ => none
  | fuel + 1, k, w, rescan, result =>
    match syncCycle w (env k) rescan startHeight listener result with
    | .error err => some (.error err, [rescan])
    | .ok (r, w1) =>
      -- the flag is exchanged only when `!rescan` holds
      if !rescan && w1.rescanOnSync then
        match syncLoop env startHeight listener fuel (k + 1) { w1 with rescanOnSync := false }
            true r with
        | none => none
        | some (outcome, cycles) => some (outcome, rescan :: cycles)
      else some (.ok (r, w1), [rescan])

/-- The number of calls of `wallet2->rescan_blockchain` in a log. -/
def rescanCount (log : List SyncEvent) : Nat :=
  log.count SyncEvent.rescanBlockchain

/-! ## Double precision

The progress of a sync is reported as a `double`. The values of IEEE 754 binary64 are
rationals; a conversion or a division gives the double nearest to the exact result, a tie
going to the even significand. -/

/-- Rounding of a rational to the nearest integer, a tie to the even one. -/
def roundHalfEven (q : ℚ) : ℤ :=
  if q - ⌊q⌋ < 1 / 2 then ⌊q⌋
  else if 1 / 2 < q - ⌊q⌋ then ⌊q⌋ + 1
  else if ⌊q⌋ % 2 = 0 then ⌊q⌋ else ⌊q⌋ + 1

/-- The `double` nearest to a positive rational `x`: with `2 ^ e ≤ x < 2 ^ (e + 1)` the
significand `x / 2 ^ (e - 52)` is rounded to an integer of 53 bits. The bounds of the
exponent are left out (the values that occur here lie between `2 ^ -64` and `2 ^ 64`),
and so are zero and negative values, which give 0. -/
def roundToDouble (x : ℚ) : ℚ :=
  if x ≤ 0 then 0
  else (roundHalfEven (x / (2 : ℚ) ^ (Int.log 2 x - 52)) : ℚ) * (2 : ℚ) ^ (Int.log 2 x - 52)

/-- The conversion `(double) n` of an unsigned 64-bit integer. -/
def toDouble (n : Nat) : ℚ := roundToDouble n

/-- The quotient `a / b` of two doubles, for `b` other than zero. -/
def doubleDiv (a b : ℚ) : ℚ := roundToDouble (a / b)

/-- The `percentDone` that a progress notification reports, the quotient
`(double) numerator / (double) denominator` of line 707; with a zero denominator the
quotient is not a number. -/
def SyncEvent.percentDone : SyncEvent → Option ℚ
  | .onSyncProgress _ _ _ _ numerator denominator =>
    if denominator = 0 then none
    else some (doubleDiv (toDouble numerator) (toDouble denominator))
  | _ => none

/-- A fragment as `getOutputs` yields it: tx "aa11" in a block at height 100. -/
def outputFragment : MoneroTxWallet :=
  { id := some "aa11", block := some { height := some 100, txs := ["aa11"] } }

/-- Indexes that hold one tx, "bb22", and its block at height 100. -/
def indexesAtHeight100 : Indexes :=
  { txMap := [("bb22", { id := some "bb22", block := some { height := some 100, txs := ["bb22"] } })]
    blockMap := [(100, { height := some 100, txs := ["bb22"] })] }

/-- The ways to unset one field of a tx request. -/
def MoneroTxRequest.unsettings : List (MoneroTxRequest → MoneroTxRequest) :=
  [fun r => { r with isConfirmed := none }, fun r => { r with inTxPool := none },
   fun r => { r with isFailed := none }, fun r => { r with isRelayed := none },
   fun r => { r with height := none }, fun r => { r with minHeight := none },
   fun r => { r with maxHeight := none }, fun r => { r with includeOutputs := none },
   fun r => { r with transferRequest := none }, fun r => { r with outputRequest := none }]

/-- The ways to unset one field of the transfer criteria. -/
def MoneroTransferCriteria.unsettings :
    List (MoneroTransferCriteria → MoneroTransferCriteria) :=
  [fun r => { r with isIncoming := none }, fun r => { r with isOutgoing := none },
   fun r => { r with hasDestinations := none }, fun r => { r with accountIndex := none }]

/-- The five stream selectors `isIn`, `isOut`, `isPending`, `isPool` and `isFailed` of
`getTransfers`, in this order. -/
def streamSelectors (req : MoneroTransferCriteria) (txReq : MoneroTxRequest) : List Bool :=
  [canBeIncoming req && canBeConfirmed txReq, canBeOutgoing req && canBeConfirmed txReq,
   canBeOutgoing req && canBeInTxPool txReq, canBeIncoming req && canBeInTxPool txReq,
   canBeFailed txReq]

/-- Each flag field that the tx criteria set (`isConfirmed`, `inTxPool`, `isFailed`,
`isRelayed`) equals the flag of the tx. -/
def MoneroTxRequest.flagsAllow (txReq : MoneroTxRequest) (tx : MoneroTxWallet) : Prop :=
  (txReq.isConfirmed = none ∨ txReq.isConfirmed = tx.isConfirmed) ∧
  (txReq.inTxPool = none ∨ txReq.inTxPool = tx.inTxPool) ∧
  (txReq.isFailed = none ∨ txReq.isFailed = tx.isFailed) ∧
  (txReq.isRelayed = none ∨ txReq.isRelayed = tx.isRelayed)

/-- Four txs in index order: "aa11" in a block at height 5, "bb22" in a block at height
3, and "cc33" and "dd44" without a block. -/
def fourTxs : List MoneroTxWallet :=
  [{ id := some "aa11", block := some { height := some 5 } },
   { id := some "cc33" },
   { id := some "bb22", block := some { height := some 3 } },
   { id := some "dd44" }]

/-! ## Theorems -/

/-! ### Ordered maps and the merge helpers -/

theorem mapFind_mapSet_same {κ β : Type} [DecidableEq κ] [LT κ]
    [DecidableRel (fun a b : κ => a < b)] (k : κ) (v : β) (m : List (κ × β)) :
    mapFind k (mapSet k v m) = some v := by
  induction m with
  | nil => simp [mapSet, mapFind]
  | cons p rest ih =>
    obtain ⟨k', v'⟩ := p
    by_cases h : k = k'
    · simp [mapSet, mapFind, h]
    · by_cases hlt : k < k'
      · simp [mapSet, mapFind, h, hlt]
      · simp [mapSet, mapFind, h, hlt, ih]

theorem mapFind_mapSet_ne {κ β : Type} [DecidableEq κ] [LT κ]
    [DecidableRel (fun a b : κ => a < b)] (k j : κ) (v : β) (m : List (κ × β))
    (hj : j ≠ k) : mapFind j (mapSet k v m) = mapFind j m := by
  induction m with
  | nil => simp [mapSet, mapFind, hj]
  | cons p rest ih =>
    obtain ⟨k', v'⟩ := p
    by_cases h : k = k'
    · subst h; simp [mapSet, mapFind, hj]
    · by_cases hlt : k < k'
      · simp [mapSet, mapFind, h, hlt, hj]
      · simp [mapSet, mapFind, h, hlt, ih]

theorem mapSet_mapSet {κ β : Type} [DecidableEq κ] [LT κ]
    [DecidableRel (fun a b : κ => a < b)] (k : κ) (v w : β) (m : List (κ × β)) :
    mapSet k w (mapSet k v m) = mapSet k w m := by
  induction m with
  | nil => simp [mapSet]
  | cons p rest ih =>
    obtain ⟨k', v'⟩ := p
    by_cases h : k = k'
    · simp [mapSet, h]
    · by_cases hlt : k < k'
      · simp [mapSet, h, hlt]
      · simp [mapSet, h, hlt, ih]

theorem lexLess_irrefl (a : List Nat) : lexLess a a = false := by
  induction a with
  | nil => rfl
  | cons x xs ih => simp [lexLess, ih]

theorem lexLess_asymm (a b : List Nat) (h : lexLess a b = true) : lexLess b a = false := by
  induction a generalizing b with
  | nil => cases b <;> simp_all [lexLess]
  | cons x xs ih =>
    cases b with
    | nil => simp [lexLess] at h
    | cons y ys =>
      simp only [lexLess, Bool.or_eq_true, Bool.and_eq_true, decide_eq_true_eq] at h
      simp only [lexLess, Bool.or_eq_false_iff, Bool.and_eq_false_imp, decide_eq_false_iff_not,
        decide_eq_true_eq]
      rcases h with h | ⟨h1, h2⟩
      · exact ⟨by omega, fun hxy => by omega⟩
      · exact ⟨by omega, fun _ => ih ys h2⟩

theorem lexLess_total (a b : List Nat) (h1 : lexLess a b = false) (h2 : lexLess b a = false) :
    a = b := by
  induction a generalizing b with
  | nil => cases b <;> simp_all [lexLess]
  | cons x xs ih =>
    cases b with
    | nil => simp [lexLess] at h2
    | cons y ys =>
      simp only [lexLess, Bool.or_eq_false_iff, Bool.and_eq_false_imp, decide_eq_false_iff_not,
        decide_eq_true_eq] at h1 h2
      have hxy : x = y := by omega
      rw [hxy, ih ys (h1.2 hxy) (h2.2 hxy.symm)]

theorem lexLess_trans (a b c : List Nat) (h1 : lexLess a b = true) (h2 : lexLess b c = true) :
    lexLess a c = true := by
  induction a generalizing b c with
  | nil =>
    cases c with
    | nil => cases b <;> simp_all [lexLess]
    | cons z zs => rfl
  | cons x xs ih =>
    cases b with
    | nil => simp [lexLess] at h1
    | cons y ys =>
      cases c with
      | nil => simp [lexLess] at h2
      | cons z zs =>
        simp only [lexLess, Bool.or_eq_true, Bool.and_eq_true, decide_eq_true_eq] at h1 h2 ⊢
        rcases h1 with h1 | ⟨h1, h1r⟩ <;> rcases h2 with h2 | ⟨h2, h2r⟩
        · exact Or.inl (by omega)
        · exact Or.inl (by omega)
        · exact Or.inl (by omega)
        · exact Or.inr ⟨by omega, ih ys zs h1r h2r⟩

/-- A choice of the greater of two values in a strict total order is idempotent,
commutative and associative. -/
theorem greater_laws {α : Type} (less : α → α → Bool)
    (hasymm : ∀ a b, less a b = true → less b a = false)
    (htotal : ∀ a b, less a b = false → less b a = false → a = b)
    (htrans : ∀ a b c, less a b = true → less b c = true → less a c = true) :
    (∀ a, (if less a a then a else a) = a) ∧
    (∀ a b, (if less a b then b else a) = (if less b a then a else b)) ∧
    (∀ a b c, (if less (if less a b then b else a) c then c else (if less a b then b else a)) =
      (if less a (if less b c then c else b) then (if less b c then c else b) else a)) := by
  refine ⟨fun a => by simp, ?_, ?_⟩
  · intro a b
    cases hab : less a b <;> cases hba : less b a
    · simp [htotal a b hab hba]
    · simp
    · simp
    · rw [hasymm a b hab] at hba
      cases hba
  · intro a b c
    have hneg : less a b = false → less b c = false → less a c = false := by
      intro hab hbc
      cases hac : less a c with
      | false => rfl
      | true =>
        cases hba : less b a with
        | false =>
          rw [htotal a b hab hba, hbc] at hac
          cases hac
        | true =>
          rw [htrans b a c hba hac] at hbc
          cases hbc
    cases hab : less a b <;> cases hbc : less b c <;> cases hac : less a c
    · simp [hab, hbc, hac]
    · rw [hneg hab hbc] at hac
      cases hac
    · simp [hab, hbc, hac]
    · simp [hab, hbc, hac]
    · simp [hab, hbc, hac]
    · simp [hab, hbc, hac]
    · rw [htrans a b c hab hbc] at hac
      cases hac
    · simp [hab, hbc, hac]

theorem stringKey_injective (a b : String)
    (h : a.data.map Char.toNat = b.data.map Char.toNat) : a = b := by
  have hdata : a.data = b.data := by
    refine List.map_injective_iff.mpr ?_ h
    intro c d hcd
    rw [← Char.ofNat_toNat c, ← Char.ofNat_toNat d, hcd]
  cases a
  cases b
  simp only at hdata
  rw [hdata]

theorem greaterString_laws :
    (∀ a, greaterString a a = a) ∧
    (∀ a b, greaterString a b = greaterString b a) ∧
    (∀ a b c, greaterString (greaterString a b) c = greaterString a (greaterString b c)) :=
  greater_laws (fun a b : String => lexLess (a.data.map Char.toNat) (b.data.map Char.toNat))
    (fun _ _ => lexLess_asymm _ _)
    (fun a b h1 h2 => stringKey_injective a b (lexLess_total _ _ h1 h2))
    (fun _ _ _ => lexLess_trans _ _ _)

theorem mergeField_self {α : Type} (pick : α → α → α) (hself : ∀ x, pick x x = x)
    (a : Option α) : mergeField pick a a = a := by
  cases a <;> simp [mergeField, hself]

theorem mergeField_assoc {α : Type} (pick : α → α → α)
    (hassoc : ∀ x y z, pick (pick x y) z = pick x (pick y z)) (a b c : Option α) :
    mergeField pick (mergeField pick a b) c = mergeField pick a (mergeField pick b c) := by
  cases a <;> cases b <;> cases c <;> simp [mergeField, hassoc]

theorem mergeField_absorb {α : Type} (pick : α → α → α) (hself : ∀ x, pick x x = x)
    (hassoc : ∀ x y z, pick (pick x y) z = pick x (pick y z)) (a b : Option α) :
    mergeField pick (mergeField pick a b) b = mergeField pick a b := by
  rw [mergeField_assoc pick hassoc, mergeField_self pick hself]

theorem mergeField_max_self {α : Type} [LinearOrder α] (a : Option α) :
    mergeField max a a = a :=
  mergeField_self max max_self a

theorem mergeField_max_absorb {α : Type} [LinearOrder α] (a b : Option α) :
    mergeField max (mergeField max a b) b = mergeField max a b :=
  mergeField_absorb max max_self max_assoc a b

theorem mergeField_or_self (a : Option Bool) : mergeField or a a = a :=
  mergeField_self or Bool.or_self a

theorem mergeField_or_absorb (a b : Option Bool) :
    mergeField or (mergeField or a b) b = mergeField or a b :=
  mergeField_absorb or Bool.or_self Bool.or_assoc a b

theorem mergeField_string_self (a : Option String) : mergeField greaterString a a = a :=
  mergeField_self greaterString greaterString_laws.1 a

theorem mergeField_string_absorb (a b : Option String) :
    mergeField greaterString (mergeField greaterString a b) b = mergeField greaterString a b :=
  mergeField_absorb greaterString greaterString_laws.1 greaterString_laws.2.2 a b

theorem unionInto_of_subset {α : Type} [DecidableEq α] (xs ys : List α)
    (h : ∀ y ∈ ys, y ∈ xs) : unionInto xs ys = xs := by
  induction ys generalizing xs with
  | nil => rfl
  | cons y rest ih =>
    have hy : y ∈ xs := h y (List.mem_cons_self _ _)
    simp only [unionInto, hy, if_true]
    exact ih xs (fun z hz => h z (List.mem_cons_of_mem _ hz))
theorem unionInto_eq_append {α : Type} [DecidableEq α] (xs ys : List α) :
    ∃ A, unionInto xs ys = xs ++ A ∧ A.Nodup ∧ ∀ a, a ∈ A ↔ (a ∈ ys ∧ a ∉ xs) := by
  induction ys generalizing xs with
  | nil => exact ⟨[], by simp [unionInto]⟩
  | cons y rest ih =>
    by_cases hy : y ∈ xs
    · obtain ⟨A, hA, hnd, hmem⟩ := ih xs
      refine ⟨A, by simp [unionInto, hy, hA], hnd, ?_⟩
      intro a
      rw [hmem a]
      constructor
      · rintro ⟨h1, h2⟩; exact ⟨List.mem_cons_of_mem _ h1, h2⟩
      · rintro ⟨h1, h2⟩
        rcases List.mem_cons.mp h1 with h | h
        · subst h; exact absurd hy h2
        · exact ⟨h, h2⟩
    · obtain ⟨A, hA, hnd, hmem⟩ := ih (xs ++ [y])
      refine ⟨y :: A, by simp [unionInto, hy, hA], ?_, ?_⟩
      · refine List.nodup_cons.mpr ⟨?_, hnd⟩
        intro hyA
        have := ((hmem y).mp hyA).2
        simp at this
      · intro a
        simp only [List.mem_cons, hmem a, List.mem_append, List.mem_singleton, not_or,
          List.not_mem_nil, or_false]
        constructor
        · rintro (h | ⟨h1, h2, _⟩)
          · subst h; exact ⟨Or.inl rfl, hy⟩
          · exact ⟨Or.inr h1, h2⟩
        · rintro ⟨h1 | h1, h2⟩
          · exact Or.inl h1
          · by_cases hay : a = y
            · exact Or.inl hay
            · exact Or.inr ⟨h1, h2, hay⟩

theorem unionInto_self {α : Type} [DecidableEq α] (xs : List α) : unionInto xs xs = xs :=
  unionInto_of_subset xs xs (fun _ h => h)

theorem unionInto_unionInto {α : Type} [DecidableEq α] (xs ys : List α) :
    unionInto (unionInto xs ys) ys = unionInto xs ys := by
  apply unionInto_of_subset
  intro y hy
  obtain ⟨A, hA, _, hmem⟩ := unionInto_eq_append xs ys
  rw [hA]
  by_cases hx : y ∈ xs
  · exact List.mem_append_left _ hx
  · exact List.mem_append_right _ ((hmem y).mpr ⟨hy, hx⟩)

theorem block_merge_self (b : MoneroBlock) : b.merge b = b := by
  simp [MoneroBlock.merge, mergeField_max_self, unionInto_self]

theorem block_merge_merge (a b : MoneroBlock) : (a.merge b).merge b = a.merge b := by
  simp [MoneroBlock.merge, mergeField_max_absorb, unionInto_unionInto]

theorem outgoing_merge_self (t : MoneroOutgoingTransfer) : t.merge t = t := by
  simp [MoneroOutgoingTransfer.merge, mergeField_max_self, unionInto_self]

theorem outgoing_merge_merge (a t : MoneroOutgoingTransfer) :
    (a.merge t).merge t = a.merge t := by
  simp [MoneroOutgoingTransfer.merge, mergeField_max_absorb, unionInto_unionInto]

theorem mergeField_merge_absorb {α : Type} (pick : α → α → α) (hself : ∀ x, pick x x = x)
    (habsorb : ∀ x y, pick (pick x y) y = pick x y) (a b : Option α) :
    mergeField pick (mergeField pick a b) b = mergeField pick a b := by
  cases a <;> cases b <;> simp [mergeField, hself, habsorb]

theorem tx_merge_self (t : MoneroTxWallet) : t.merge t = t := by
  simp [MoneroTxWallet.merge, mergeField_max_self, mergeField_or_self, mergeField_string_self,
    unionInto_self,
    mergeField_self _ block_merge_self, mergeField_self _ outgoing_merge_self]

theorem tx_merge_merge (a t : MoneroTxWallet) :
    (a.merge t).merge t = a.merge t := by
  simp [MoneroTxWallet.merge, mergeField_max_absorb, mergeField_or_absorb,
    mergeField_string_absorb,
    unionInto_unionInto, mergeField_merge_absorb _ block_merge_self block_merge_merge,
    mergeField_merge_absorb _ outgoing_merge_self outgoing_merge_merge]

theorem mergeTx_ok (S : Indexes) (f : MoneroTxWallet) (skipIfAbsent : Bool) (id : String)
    (hid : f.id = some id) :
    mergeTx f S skipIfAbsent = .ok
      { txMap :=
          match mapFind id S.txMap with
          | none => if !skipIfAbsent then mapSet id f S.txMap else S.txMap
          | some aTx => mapSet id (aTx.merge f) S.txMap
        blockMap :=
          match f.getHeight, f.block with
          | some h, some b =>
            match mapFind h S.blockMap with
            | none => mapSet h b S.blockMap
            | some aBlock => mapSet h (aBlock.merge b) S.blockMap
          | _, _ => S.blockMap } := by
  simp [mergeTx, hid]

/-- C1: merging is idempotent. For every index state and every fragment with a set tx
id, `mergeTx` succeeds, and applying it a second time with the same fragment leaves the
tx index and the block index exactly as the first application left them, for either
value of `skipIfAbsent`. -/
theorem mergeTx_idempotent (S : Indexes) (f : MoneroTxWallet) (skipIfAbsent : Bool)
    (hid : f.id ≠ none) :
    ∃ S1, mergeTx f S skipIfAbsent = .ok S1 ∧ mergeTx f S1 skipIfAbsent = .ok S1 := by
  obtain ⟨id, hid⟩ := Option.ne_none_iff_exists'.mp hid
  refine ⟨_, mergeTx_ok S f skipIfAbsent id hid, ?_⟩
  rw [mergeTx_ok _ f skipIfAbsent id hid]
  congr 2
  · cases hfind : mapFind id S.txMap with
    | none =>
      cases skipIfAbsent with
      | true => simp [hfind]
      | false =>
        simp [hfind, mapFind_mapSet_same, tx_merge_self, mapSet_mapSet]
    | some aTx =>
      simp [hfind, mapFind_mapSet_same, tx_merge_merge, mapSet_mapSet]
  · cases hh : f.getHeight with
    | none => simp
    | some h =>
      cases hb : f.block with
      | none => simp
      | some b =>
        cases hfind : mapFind h S.blockMap with
        | none => simp [hfind, mapFind_mapSet_same, block_merge_self, mapSet_mapSet]
        | some aBlock =>
          simp [hfind, mapFind_mapSet_same, block_merge_merge, mapSet_mapSet]

theorem mergeTx_idempotent_witness :
    ∃ S1, mergeTx { id := some "aa11", fee := some 7 } {} false = .ok S1 ∧
      mergeTx { id := some "aa11", fee := some 7 } S1 false = .ok S1 :=
  mergeTx_idempotent {} { id := some "aa11", fee := some 7 } false (by decide)

/-- C3: for every fragment whose tx id is set and absent from the tx index, `mergeTx`
succeeds; with `skipIfAbsent` false the tx index then maps the id to the tx of the
fragment and every other id is looked up as before; with `skipIfAbsent` true the tx
index is exactly what it was. -/
theorem mergeTx_absent (S : Indexes) (f : MoneroTxWallet) (skipIfAbsent : Bool) (id : String)
    (hid : f.id = some id) (habs : mapFind id S.txMap = none) :
    ∃ S1, mergeTx f S skipIfAbsent = .ok S1 ∧
      (skipIfAbsent = false →
        mapFind id S1.txMap = some f ∧ ∀ j, j ≠ id → mapFind j S1.txMap = mapFind j S.txMap) ∧
      (skipIfAbsent = true → S1.txMap = S.txMap) := by
  refine ⟨_, mergeTx_ok S f skipIfAbsent id hid, ?_, ?_⟩
  · intro hs
    subst hs
    simp only [habs, Bool.not_false, if_true]
    exact ⟨mapFind_mapSet_same _ _ _, fun j hj => mapFind_mapSet_ne _ _ _ _ hj⟩
  · intro hs
    subst hs
    simp [habs]

theorem mergeTx_absent_witness :
    ∃ S1, mergeTx { id := some "aa11" } { txMap := [("bb22", { id := some "bb22" })] } false
        = .ok S1 ∧
      (false = false →
        mapFind "aa11" S1.txMap = some { id := some "aa11" } ∧
        ∀ j, j ≠ "aa11" →
          mapFind j S1.txMap = mapFind j [("bb22", ({ id := some "bb22" } : MoneroTxWallet))]) ∧
      (false = true → S1.txMap = [("bb22", { id := some "bb22" })]) :=
  mergeTx_absent { txMap := [("bb22", { id := some "bb22" })] } { id := some "aa11" } false
    "aa11" rfl (by decide)

/-- C4: for every fragment whose tx id is unset, `mergeTx` throws "Tx id is not
initialized", and at the throw the tx index and the block index are what they were. -/
theorem mergeTx_unset_id (S : Indexes) (f : MoneroTxWallet) (skipIfAbsent : Bool)
    (hid : f.id = none) :
    mergeTx f S skipIfAbsent = .error ("Tx id is not initialized", S) := by
  simp [mergeTx, hid]

theorem mergeTx_unset_id_witness :
    mergeTx { fee := some 3 } { txMap := [("bb22", { id := some "bb22" })] } true
      = .error ("Tx id is not initialized", { txMap := [("bb22", { id := some "bb22" })] }) :=
  mergeTx_unset_id { txMap := [("bb22", { id := some "bb22" })] } { fee := some 3 } true rfl

/-- The block index after `mergeTx`, told by the block height of the fragment: without a
block height it is unchanged; with block `b` at height `h` it maps `h` to `b` when `h`
was absent and to the merge of the existing block with `b` when it was present, and
every other height is looked up as before. -/
theorem mergeTx_block_by_height (S : Indexes) (f : MoneroTxWallet) (skipIfAbsent : Bool)
    (id : String) (hid : f.id = some id) :
    ∃ S1, mergeTx f S skipIfAbsent = .ok S1 ∧
      (f.getHeight = none → S1.blockMap = S.blockMap) ∧
      (∀ h b, f.getHeight = some h → f.block = some b →
        (mapFind h S.blockMap = none → mapFind h S1.blockMap = some b) ∧
        (∀ aBlock, mapFind h S.blockMap = some aBlock →
          mapFind h S1.blockMap = some (aBlock.merge b)) ∧
        (∀ j, j ≠ h → mapFind j S1.blockMap = mapFind j S.blockMap)) := by
  refine ⟨_, mergeTx_ok S f skipIfAbsent id hid, ?_, ?_⟩
  · intro hh
    simp [hh]
  · intro h b hh hb
    simp only [hh, hb]
    refine ⟨?_, ?_, ?_⟩
    · intro hfind
      simp only [hfind]
      exact mapFind_mapSet_same _ _ _
    · intro aBlock hfind
      simp only [hfind]
      exact mapFind_mapSet_same _ _ _
    · intro j hj
      cases hfind : mapFind h S.blockMap with
      | none => exact mapFind_mapSet_ne _ _ _ _ hj
      | some aBlock => exact mapFind_mapSet_ne _ _ _ _ hj

theorem merge_confirmed_iff_height (a b : MoneroTxWallet)
    (ha : a.isConfirmed = some true ↔ a.getHeight ≠ none)
    (hb : b.isConfirmed = some true ↔ b.getHeight ≠ none) :
    (a.merge b).isConfirmed = some true ↔ (a.merge b).getHeight ≠ none := by
  have h1 : (a.merge b).isConfirmed = some true ↔
      (a.isConfirmed = some true ∨ b.isConfirmed = some true) := by
    simp only [MoneroTxWallet.merge]
    cases a.isConfirmed <;> cases b.isConfirmed <;> simp [mergeField]
  have h2 : (a.merge b).getHeight ≠ none ↔ (a.getHeight ≠ none ∨ b.getHeight ≠ none) := by
    simp only [MoneroTxWallet.merge, MoneroTxWallet.getHeight]
    cases a.block with
    | none => cases b.block <;> simp [mergeField]
    | some x =>
      cases b.block with
      | none => simp [mergeField]
      | some y =>
        simp only [mergeField, MoneroBlock.merge]
        cases x.height <;> cases y.height <;> simp
  rw [h1, h2, ha, hb]

/-- C5: `mergeTx` modifies the block index only when the tx of the fragment is confirmed.
The txs that reach `mergeTx` come from the builders, which mark a tx confirmed exactly
when they give it a block with a height (second part), or are merges of such txs, which
are again marked confirmed exactly when they have a block with a height (third part).
For every such tx with a set id: when it is not marked confirmed the block index is
unchanged; when it is marked confirmed it carries a block `b` with a height `h`, and the
block index afterwards maps `h` to `b` when `h` was absent and to the merge of the
existing block with `b` when it was present, every other height being looked up as
before. -/
theorem mergeTx_block_index (S : Indexes) (f : MoneroTxWallet) (skipIfAbsent : Bool)
    (id : String) (wallet2 : Wallet2) (height : Nat) (payment_id txid : String)
    (pd : payment_details) (cpd : confirmed_transfer_details) (ppd : pool_payment_details)
    (upd : unconfirmed_transfer_details) (td : transfer_details) :
    (f.id = some id → (f.isConfirmed = some true ↔ f.getHeight ≠ none) →
      ∃ S1, mergeTx f S skipIfAbsent = .ok S1 ∧
        (f.isConfirmed ≠ some true → S1.blockMap = S.blockMap) ∧
        (f.isConfirmed = some true →
          ∃ h b, f.getHeight = some h ∧ f.block = some b ∧
            (mapFind h S.blockMap = none → mapFind h S1.blockMap = some b) ∧
            (∀ aBlock, mapFind h S.blockMap = some aBlock →
              mapFind h S1.blockMap = some (aBlock.merge b)) ∧
            (∀ j, j ≠ h → mapFind j S1.blockMap = mapFind j S.blockMap))) ∧
    (∀ tx ∈ [buildTxWithIncomingTransfer wallet2 height payment_id pd,
        buildTxWithOutgoingTransfer wallet2 height txid cpd,
        buildTxWithIncomingTransferUnconfirmed wallet2 payment_id ppd,
        buildTxWithOutgoingTransferUnconfirmed wallet2 txid upd,
        buildTxWithVout wallet2 td],
      tx.id ≠ none ∧ (tx.isConfirmed = some true ↔ tx.getHeight ≠ none)) ∧
    (∀ a b : MoneroTxWallet, (a.isConfirmed = some true ↔ a.getHeight ≠ none) →
      (b.isConfirmed = some true ↔ b.getHeight ≠ none) →
      ((a.merge b).isConfirmed = some true ↔ (a.merge b).getHeight ≠ none)) := by
  refine ⟨?_, ?_, merge_confirmed_iff_height⟩
  · intro hid hflag
    obtain ⟨S1, hS1, hnone, hsome⟩ := mergeTx_block_by_height S f skipIfAbsent id hid
    refine ⟨S1, hS1, ?_, ?_⟩
    · intro hnot
      apply hnone
      by_contra hh
      exact hnot (hflag.mpr hh)
    · intro hconf
      have hh := hflag.mp hconf
      cases hheight : f.getHeight with
      | none => exact absurd hheight hh
      | some h =>
        cases hblock : f.block with
        | none => simp [MoneroTxWallet.getHeight, hblock] at hheight
        | some b => exact ⟨h, b, rfl, rfl, hsome h b hheight hblock⟩
  · intro tx htx
    simp only [List.mem_cons, List.mem_singleton, List.not_mem_nil, or_false] at htx
    rcases htx with h | h | h | h | h <;> subst h <;>
      simp [buildTxWithIncomingTransfer, buildTxWithOutgoingTransfer,
        buildTxWithIncomingTransferUnconfirmed, buildTxWithOutgoingTransferUnconfirmed,
        buildTxWithVout, MoneroTxWallet.getHeight]

/-- C5: the statement at the confirmed incoming fragment of the scenario (a block at
height 100, inserted into an empty block index) and at a pool fragment (no block, the
block index stays empty). -/
theorem mergeTx_block_index_witness :
    (∃ S1, mergeTx (buildTxWithIncomingTransfer scenarioWallet 110 ""
        { m_tx_hash := "aa11", m_block_height := 100 }) {} false = .ok S1 ∧
      mapFind 100 S1.blockMap = some { height := some 100, timestamp := some 0, txs := ["aa11"] }) ∧
    (∃ S1, mergeTx (buildTxWithIncomingTransferUnconfirmed scenarioWallet ""
        { m_pd := { m_tx_hash := "bb22" } }) {} false = .ok S1 ∧ S1.blockMap = []) := by
  constructor
  · obtain ⟨S1, h1, _, h3⟩ := (mergeTx_block_index {}
      (buildTxWithIncomingTransfer scenarioWallet 110 ""
        { m_tx_hash := "aa11", m_block_height := 100 }) false "aa11" scenarioWallet 110 "" "" {} {} {} {} {}).1 rfl
      (by decide)
    obtain ⟨h, b, hh, hb, hins, _, _⟩ := h3 rfl
    have hh' : h = 100 := by
      have : (some 100 : Option Nat) = some h := hh
      exact (Option.some.inj this).symm
    subst hh'
    have hb' : b = { height := some 100, timestamp := some 0, txs := ["aa11"] } := by
      have : (some { height := some 100, timestamp := some 0, txs := ["aa11"] }
          : Option MoneroBlock) = some b := hb
      exact (Option.some.inj this).symm
    subst hb'
    exact ⟨S1, h1, hins rfl⟩
  · obtain ⟨S1, h1, h2, _⟩ := (mergeTx_block_index {}
      (buildTxWithIncomingTransferUnconfirmed scenarioWallet ""
        { m_pd := { m_tx_hash := "bb22" } }) false "bb22" scenarioWallet 110 "" "" {} {} {} {}
      {}).1 rfl (by decide)
    exact ⟨S1, h1, h2 (by decide)⟩

/-! ### Sorting -/

theorem txHeightLessThan_iff (a b : MoneroTxWallet) :
    txHeightLessThan a b = true ↔
      (heightKey a).1 < (heightKey b).1 ∨
        ((heightKey a).1 = (heightKey b).1 ∧ (heightKey a).2 < (heightKey b).2) := by
  simp only [txHeightLessThan, heightKey, MoneroTxWallet.getHeight]
  generalize a.block = ab
  generalize b.block = bb
  rcases ab with _ | ⟨ha, ta, txa⟩ <;> rcases bb with _ | ⟨hb, tb, txb⟩
  · simp
  · cases hb <;> simp
  · cases ha <;> simp
  · cases ha <;> cases hb <;> simp [optionalLess]

theorem txHeightLessThan_false_iff (a b : MoneroTxWallet) :
    txHeightLessThan a b = false ↔
      ¬ ((heightKey a).1 < (heightKey b).1 ∨
        ((heightKey a).1 = (heightKey b).1 ∧ (heightKey a).2 < (heightKey b).2)) := by
  rw [← txHeightLessThan_iff]
  cases txHeightLessThan a b <;> simp

theorem mem_sortedInsert {α : Type} (less : α → α → Bool) (x z : α) (l : List α) :
    z ∈ sortedInsert less x l ↔ z = x ∨ z ∈ l := by
  induction l with
  | nil => simp [sortedInsert]
  | cons y rest ih =>
    simp only [sortedInsert]
    split
    · simp
    · simp only [List.mem_cons, ih]
      tauto

theorem sortedInsert_sorted {α : Type} (less : α → α → Bool)
    (hasymm : ∀ a b, less a b = true → less b a = false)
    (htrans : ∀ a b c, less b a = false → less c b = false → less c a = false)
    (x : α) (l : List α) (hl : l.Pairwise fun a b => less b a = false) :
    (sortedInsert less x l).Pairwise fun a b => less b a = false := by
  induction l with
  | nil => simp [sortedInsert]
  | cons y rest ih =>
    obtain ⟨hy, hrest⟩ := List.pairwise_cons.mp hl
    simp only [sortedInsert]
    split
    · rename_i hxy
      refine List.pairwise_cons.mpr ⟨?_, hl⟩
      intro z hz
      rcases List.mem_cons.mp hz with h | h
      · subst h; exact hasymm x z hxy
      · exact htrans x y z (hasymm x y hxy) (hy z h)
    · rename_i hxy
      refine List.pairwise_cons.mpr ⟨?_, ih hrest⟩
      intro z hz
      rcases (mem_sortedInsert less x z rest).mp hz with h | h
      · subst h; simpa using hxy
      · exact hy z h

theorem foldl_sortedInsert_sorted {α : Type} (less : α → α → Bool)
    (hasymm : ∀ a b, less a b = true → less b a = false)
    (htrans : ∀ a b c, less b a = false → less c b = false → less c a = false)
    (l acc : List α) (hacc : acc.Pairwise fun a b => less b a = false) :
    (l.foldl (fun sorted x => sortedInsert less x sorted) acc).Pairwise
      fun a b => less b a = false := by
  induction l generalizing acc with
  | nil => simpa using hacc
  | cons x rest ih =>
    simp only [List.foldl_cons]
    exact ih _ (sortedInsert_sorted less hasymm htrans x acc hacc)

theorem sortedInsert_append {α : Type} (less : α → α → Bool) (x : α) (l : List α)
    (h : ∀ y ∈ l, less x y = false) : sortedInsert less x l = l ++ [x] := by
  induction l with
  | nil => rfl
  | cons y rest ih =>
    simp only [sortedInsert, h y (List.mem_cons_self _ _), Bool.false_eq_true, if_false,
      List.cons_append]
    rw [ih (fun z hz => h z (List.mem_cons_of_mem _ hz))]

theorem foldl_sortedInsert_fixed {α : Type} (less : α → α → Bool) (l acc : List α)
    (h : (acc ++ l).Pairwise fun a b => less b a = false) :
    l.foldl (fun sorted x => sortedInsert less x sorted) acc = acc ++ l := by
  induction l generalizing acc with
  | nil => simp
  | cons x rest ih =>
    simp only [List.foldl_cons]
    have hx : ∀ y ∈ acc, less x y = false := by
      intro y hy
      exact (List.pairwise_append.mp h).2.2 y hy x (List.mem_cons_self _ _)
    rw [sortedInsert_append less x acc hx, ih (acc ++ [x]) (by simpa using h)]
    simp

theorem insertionSort_idem {α : Type} (less : α → α → Bool)
    (hasymm : ∀ a b, less a b = true → less b a = false)
    (htrans : ∀ a b c, less b a = false → less c b = false → less c a = false)
    (l : List α) : insertionSort less (insertionSort less l) = insertionSort less l := by
  have hs : (insertionSort less l).Pairwise fun a b => less b a = false :=
    foldl_sortedInsert_sorted less hasymm htrans l [] List.Pairwise.nil
  have := foldl_sortedInsert_fixed less (insertionSort less l) [] (by simpa using hs)
  simpa [insertionSort] using this

theorem sortedInsert_perm {α : Type} (less : α → α → Bool) (x : α) (l : List α) :
    (sortedInsert less x l).Perm (x :: l) := by
  induction l with
  | nil => exact List.Perm.refl _
  | cons y rest ih =>
    simp only [sortedInsert]
    split
    · exact List.Perm.refl _
    · exact ((List.Perm.cons y ih).trans (List.Perm.swap x y rest))

theorem foldl_sortedInsert_perm {α : Type} (less : α → α → Bool) (l acc : List α) :
    (l.foldl (fun sorted x => sortedInsert less x sorted) acc).Perm (acc ++ l) := by
  induction l generalizing acc with
  | nil => simp
  | cons x rest ih =>
    simp only [List.foldl_cons]
    refine (ih _).trans ?_
    refine ((sortedInsert_perm less x acc).append_right rest).trans ?_
    simpa using (List.perm_middle : (acc ++ x :: rest).Perm (x :: (acc ++ rest))).symm

theorem sorted_keys_unique (l1 l2 : List MoneroTxWallet) (hperm : l1.Perm l2)
    (h1 : l1.Pairwise fun a b => txHeightLessThan b a = false)
    (h2 : l2.Pairwise fun a b => txHeightLessThan b a = false) :
    l1.map heightKey = l2.map heightKey := by
  let r : Nat × Nat → Nat × Nat → Prop := fun p q => p.1 < q.1 ∨ (p.1 = q.1 ∧ p.2 ≤ q.2)
  haveI : IsAntisymm (Nat × Nat) r := ⟨by
    intro p q hpq hqp
    simp only [r] at hpq hqp
    exact Prod.ext (by omega) (by omega)⟩
  have hr : ∀ a b : MoneroTxWallet, txHeightLessThan b a = false → r (heightKey a) (heightKey b) := by
    intro a b h
    rw [txHeightLessThan_false_iff] at h
    simp only [r]
    omega
  have s1 : (l1.map heightKey).Sorted r := List.pairwise_map.mpr (h1.imp (hr _ _))
  have s2 : (l2.map heightKey).Sorted r := List.pairwise_map.mpr (h2.imp (hr _ _))
  exact List.eq_of_perm_of_sorted (hperm.map heightKey) s1 s2

/-- Insertion sort returns a rearrangement of its input. -/
theorem insertionSort_perm {α : Type} (less : α → α → Bool) (l : List α) :
    (insertionSort less l).Perm l := by
  simpa [insertionSort] using foldl_sortedInsert_perm less l []

/-- Insertion sort by a strict weak ordering returns a sorted list. -/
theorem insertionSort_sorted {α : Type} (less : α → α → Bool) (h : StrictWeakOrder less)
    (l : List α) : (insertionSort less l).Pairwise fun a b => less b a = false :=
  foldl_sortedInsert_sorted less h.1 h.2 l [] List.Pairwise.nil

theorem stableLibrary_conforms : stableLibrary.Conforms :=
  fun less l => ⟨insertionSort_perm less l, fun h => insertionSort_sorted less h l⟩

theorem reversingLibrary_conforms : reversingLibrary.Conforms :=
  fun less l => ⟨(insertionSort_perm less l.reverse).trans (List.reverse_perm l),
    fun h => insertionSort_sorted less h l.reverse⟩

/-- Sorting a list of one element returns it. -/
theorem sort_singleton (S : StdLibrary) (hS : S.Conforms) {α : Type} (less : α → α → Bool)
    (x : α) : S.sort less [x] = [x] :=
  List.perm_singleton.mp (hS less [x]).1

/-- The comparison `txHeightLessThan` is a strict weak ordering. -/
theorem txHeightLessThan_swo : StrictWeakOrder txHeightLessThan := by
  constructor
  · intro a b h
    rw [txHeightLessThan_iff] at h
    rw [txHeightLessThan_false_iff]
    omega
  · intro a b c h1 h2
    rw [txHeightLessThan_false_iff] at h1 h2 ⊢
    omega

/-! ### The filters of `getTransfers` and `getOutputs` -/

theorem filterIncoming_eq_filter (meets : MoneroTxWallet → MoneroTransfer → Bool)
    (hlocal : TransferTestLocal meets) (tx : MoneroTxWallet)
    (kept l : List MoneroIncomingTransfer) :
    filterIncoming meets tx kept l = kept ++ l.filter fun t => meets tx (.incoming t) := by
  induction l generalizing kept with
  | nil => simp [filterIncoming]
  | cons t rest ih =>
    have h := hlocal tx (kept ++ t :: rest) tx.outgoingTransfer (.incoming t)
    simp only [filterIncoming]
    rw [h]
    by_cases hm : meets tx (.incoming t) = true
    · simp [hm, ih]
    · simp [hm, ih]

theorem filterTxTransfers_eq (S : StdLibrary)
    (meets : MoneroTxWallet → MoneroTransfer → Bool)
    (hlocal : TransferTestLocal meets) (tx : MoneroTxWallet) :
    filterTxTransfers S meets tx = withTransfersMeeting S meets tx := by
  have hl : ∀ (l : List MoneroIncomingTransfer) (o : Option MoneroOutgoingTransfer)
      (t : MoneroTransfer),
      meets { tx with incomingTransfers := l, outgoingTransfer := o } t = meets tx t :=
    hlocal tx
  cases hout : tx.outgoingTransfer with
  | none =>
    simp only [filterTxTransfers, withTransfersMeeting, hout,
      filterIncoming_eq_filter meets hlocal, hl]
    simp [Option.filter, hl]
  | some o =>
    by_cases hm : meets tx (.outgoing o) = true
    · simp only [filterTxTransfers, withTransfersMeeting, hout, hl, hm, if_true,
        filterIncoming_eq_filter meets hlocal]
      simp [Option.filter, hm, hl]
    · simp only [filterTxTransfers, withTransfersMeeting, hout, hl, hm,
        filterIncoming_eq_filter meets hlocal]
      simp [Option.filter, hm, hl]

theorem filterVouts_eq_filter (meets : MoneroTxWallet → MoneroOutputWallet → Bool)
    (hlocal : OutputTestLocal meets) (tx : MoneroTxWallet) (kept l : List MoneroOutputWallet) :
    filterVouts meets tx kept l = kept ++ l.filter fun o => meets tx o := by
  induction l generalizing kept with
  | nil => simp [filterVouts]
  | cons o rest ih =>
    have h := hlocal tx (kept ++ o :: rest) o
    simp only [filterVouts]
    rw [h]
    by_cases hm : meets tx o = true
    · simp [hm, ih]
    · simp [hm, ih]

theorem filterTxVouts_eq (S : StdLibrary)
    (meets : MoneroTxWallet → MoneroOutputWallet → Bool)
    (hlocal : OutputTestLocal meets) (tx : MoneroTxWallet) :
    filterTxVouts S meets tx = withVoutsMeeting S meets tx := by
  have h1 : ∀ o, meets { tx with vouts := S.sort (fun a b => voutBefore tx a tx b) tx.vouts } o
      = meets tx o := fun o => hlocal tx _ o
  simp only [filterTxVouts, withVoutsMeeting]
  rw [filterVouts_eq_filter meets hlocal]
  simp [h1]

theorem normalizedPaymentId_spec (hex : String) (hlen : hex.length = 64) :
    ((∀ c ∈ hex.data.drop 16, c = '0') →
      ((∀ c ∈ hex.data, c = '0') → normalizedPaymentId hex = none) ∧
      (¬ (∀ c ∈ hex.data, c = '0') →
        normalizedPaymentId hex = some (String.mk (hex.data.take 16)))) ∧
    (¬ (∀ c ∈ hex.data.drop 16, c = '0') → normalizedPaymentId hex = some hex) := by
  have hdata : hex.data.length = 64 := hlen
  have htake : (hex.data.take 16).length = 16 := by
    rw [List.length_take, hdata]; rfl
  constructor
  · intro hz
    have hall : (hex.data.drop 16).all (fun c => c == '0') = true := by
      simpa [List.all_eq_true] using hz
    constructor
    · intro hzero
      have h16 : hex.data.take 16 = List.replicate 16 '0' := by
        apply List.eq_replicate_iff.mpr
        exact ⟨htake, fun c hc => hzero c (List.mem_of_mem_take hc)⟩
      simp only [normalizedPaymentId, hall, if_true, h16]
      decide
    · intro hnz
      have hne : String.mk (hex.data.take 16) ≠ DEFAULT_PAYMENT_ID := by
        intro heq
        apply hnz
        have h16 : hex.data.take 16 = DEFAULT_PAYMENT_ID.data := by rw [← heq]
        intro c hc
        rw [← List.take_append_drop 16 hex.data] at hc
        rcases List.mem_append.mp hc with h | h
        · rw [h16] at h
          simp [DEFAULT_PAYMENT_ID] at h
          exact h
        · exact hz c h
      simp [normalizedPaymentId, hall, hne]
  · intro hnz
    have hall : (hex.data.drop 16).all (fun c => c == '0') = false := by
      cases h : (hex.data.drop 16).all (fun c => c == '0') with
      | false => rfl
      | true => exact absurd (by simpa [List.all_eq_true] using h) hnz
    have hne : hex ≠ DEFAULT_PAYMENT_ID := by
      intro heq
      rw [heq] at hlen
      revert hlen
      decide
    simp [normalizedPaymentId, hall, hne]

/-- C10: payment id normalisation in the record builders. For every payment id whose hex
form has 64 characters, the tx built by each of the four transfer builders has: when the
last 48 characters are all '0', no payment id if the whole id is zero and otherwise the
first 16 characters as payment id; and in every other case the 64 characters unchanged. -/
theorem builders_normalize_paymentId (wallet2 : Wallet2) (height : Nat) (txid hex : String)
    (pd : payment_details) (cpd : confirmed_transfer_details) (ppd : pool_payment_details)
    (upd : unconfirmed_transfer_details) (hlen : hex.length = 64) :
    ∀ p ∈ [(buildTxWithIncomingTransfer wallet2 height hex pd).paymentId,
        (buildTxWithOutgoingTransfer wallet2 height txid { cpd with m_payment_id := hex }).paymentId,
        (buildTxWithIncomingTransferUnconfirmed wallet2 hex ppd).paymentId,
        (buildTxWithOutgoingTransferUnconfirmed wallet2 txid
          { upd with m_payment_id := hex }).paymentId],
      ((∀ c ∈ hex.data.drop 16, c = '0') →
        ((∀ c ∈ hex.data, c = '0') → p = none) ∧
        (¬ (∀ c ∈ hex.data, c = '0') → p = some (String.mk (hex.data.take 16)))) ∧
      (¬ (∀ c ∈ hex.data.drop 16, c = '0') → p = some hex) := by
  intro p hp
  have hp1 : p = normalizedPaymentId hex := by
    simp only [List.mem_cons, List.mem_singleton, List.not_mem_nil, or_false] at hp
    rcases hp with h | h | h | h <;> rw [h] <;> rfl
  rw [hp1]
  exact normalizedPaymentId_spec hex hlen

theorem builders_normalize_paymentId_witness :
    String.length "abcdef0123456789000000000000000000000000000000000000000000000000" = 64 ∧
    ∀ p ∈ [(buildTxWithIncomingTransfer scenarioWallet 110
          "abcdef0123456789000000000000000000000000000000000000000000000000" {}).paymentId,
        (buildTxWithOutgoingTransfer scenarioWallet 110 "aa11"
          { ({} : confirmed_transfer_details) with
            m_payment_id :=
              "abcdef0123456789000000000000000000000000000000000000000000000000" }).paymentId,
        (buildTxWithIncomingTransferUnconfirmed scenarioWallet
          "abcdef0123456789000000000000000000000000000000000000000000000000" {}).paymentId,
        (buildTxWithOutgoingTransferUnconfirmed scenarioWallet "aa11"
          { ({} : unconfirmed_transfer_details) with
            m_payment_id :=
              "abcdef0123456789000000000000000000000000000000000000000000000000" }).paymentId],
      ((∀ c ∈ String.data "abcdef0123456789000000000000000000000000000000000000000000000000"
            |>.drop 16, c = '0') →
        ((∀ c ∈ String.data "abcdef0123456789000000000000000000000000000000000000000000000000",
            c = '0') → p = none) ∧
        (¬ (∀ c ∈ String.data "abcdef0123456789000000000000000000000000000000000000000000000000",
            c = '0') →
          p = some (String.mk (String.data
            "abcdef0123456789000000000000000000000000000000000000000000000000" |>.take 16)))) ∧
      (¬ (∀ c ∈ String.data "abcdef0123456789000000000000000000000000000000000000000000000000"
            |>.drop 16, c = '0') →
        p = some "abcdef0123456789000000000000000000000000000000000000000000000000") :=
  ⟨by decide, builders_normalize_paymentId scenarioWallet 110 "aa11"
    "abcdef0123456789000000000000000000000000000000000000000000000000" {} {} {} {} (by decide)⟩


/-! ### The query `getTxs` -/

theorem normalizeTxRequest_idem (request : MoneroTxRequest) :
    normalizeTxRequest (normalizeTxRequest request) = normalizeTxRequest request := by
  simp [normalizeTxRequest]

theorem getTxsAttempt_normalize (E : CriteriaEngine) (calls : QueryCalls)
    (request : MoneroTxRequest) :
    getTxsAttempt E calls (normalizeTxRequest request) = getTxsAttempt E calls request := by
  have h : txsRequested E calls (normalizeTxRequest request) = txsRequested E calls request := by
    simp only [txsRequested, normalizeTxRequest_idem]
  simp only [getTxsAttempt, h]
  rfl

theorem getTxsWith_normalize (E : CriteriaEngine) (calls : Nat → QueryCalls)
    (fuel attempt : Nat) (request : MoneroTxRequest) :
    getTxsWith E calls fuel attempt (normalizeTxRequest request)
      = getTxsWith E calls fuel attempt request := by
  cases fuel with
  | zero => rfl
  | succ n =>
    simp only [getTxsWith, getTxsAttempt_normalize, normalizeTxRequest_idem]

theorem getTxsWith_refetch (E : CriteriaEngine) (calls : Nat → QueryCalls)
    (request : MoneroTxRequest) (n : Nat) :
    ∀ (fuel attempt : Nat),
      (∀ k, k < n → getTxsAttempt E (calls (attempt + k)) request = .ok none) →
      getTxsWith E calls (n + fuel) attempt request
        = getTxsWith E calls fuel (attempt + n) request := by
  induction n with
  | zero => intro fuel attempt _; simp
  | succ m ih =>
    intro fuel attempt h
    have h0 : getTxsAttempt E (calls attempt) request = .ok none := by
      simpa using h 0 (Nat.succ_pos m)
    have hstep : m + 1 + fuel = (m + fuel) + 1 := by omega
    rw [hstep]
    simp only [getTxsWith, h0, getTxsWith_normalize]
    rw [ih fuel (attempt + 1) (fun k hk => by
      have := h (k + 1) (Nat.succ_lt_succ hk)
      rwa [show attempt + (k + 1) = attempt + 1 + k by omega] at this)]
    congr 1
    omega
theorem txsRequested_inv (E : CriteriaEngine) (calls : QueryCalls) (request : MoneroTxRequest)
    (r : TxsResult) (st : Indexes) (hreq : txsRequested E calls request = .ok (r, st)) :
    ∃ (l : List MoneroTxWallet) (st1 : Indexes) (refs : List TxRef),
      indexTxs l {} = .ok (st1, refs) ∧
      (st = st1 ∨ ∃ l2, mergeTxs l2 st1 true = .ok st) ∧
      r = filterTxs (E.meetsTx (normalizeTxRequest request))
        (refs.map (TxRef.resolve st.txMap)) st.blockMap := by
  simp only [txsRequested] at hreq
  split at hreq
  · cases hreq
  · rename_i transfers htr
    split at hreq
    · cases hreq
    · rename_i st1 refs hidx
      split at hreq
      · cases hreq
      · rename_i st2 hst2
        simp only [Except.ok.injEq, Prod.mk.injEq] at hreq
        obtain ⟨hr, hs⟩ := hreq
        subst hs
        refine ⟨_, st1, refs, hidx, ?_, hr.symm⟩
        simp only [mergeOutputTxs] at hst2
        split at hst2
        · split at hst2
          · cases hst2
          · exact Or.inr ⟨_, hst2⟩
        · simp only [Except.ok.injEq] at hst2
          exact Or.inl hst2.symm
theorem mergeTx_ok_inv (tx : MoneroTxWallet) (st st1 : Indexes) (skipIfAbsent : Bool)
    (h : mergeTx tx st skipIfAbsent = .ok st1) :
    ∃ id, tx.id = some id ∧
      st1.txMap =
        match mapFind id st.txMap with
        | none => if !skipIfAbsent then mapSet id tx st.txMap else st.txMap
        | some aTx => mapSet id (aTx.merge tx) st.txMap := by
  cases hid : tx.id with
  | none => simp [mergeTx, hid] at h
  | some id =>
    rw [mergeTx_ok st tx skipIfAbsent id hid] at h
    simp only [Except.ok.injEq] at h
    exact ⟨id, rfl, by rw [← h]⟩

theorem mergeTx_wellKeyed (tx : MoneroTxWallet) (st st1 : Indexes) (skipIfAbsent : Bool)
    (h : mergeTx tx st skipIfAbsent = .ok st1) (hw : WellKeyed st.txMap) :
    WellKeyed st1.txMap := by
  obtain ⟨id, hid, hmap⟩ := mergeTx_ok_inv tx st st1 skipIfAbsent h
  rw [hmap]
  intro k v hkv
  cases hfind : mapFind id st.txMap with
  | none =>
    simp only [hfind] at hkv
    cases skipIfAbsent with
    | true => exact hw k v (by simpa using hkv)
    | false =>
      simp only [Bool.not_false, if_true] at hkv
      by_cases hk : k = id
      · subst hk
        rw [mapFind_mapSet_same] at hkv
        cases hkv
        exact hid
      · rw [mapFind_mapSet_ne _ _ _ _ hk] at hkv
        exact hw k v hkv
  | some aTx =>
    simp only [hfind] at hkv
    by_cases hk : k = id
    · subst hk
      rw [mapFind_mapSet_same] at hkv
      cases hkv
      simp [MoneroTxWallet.merge, hw k aTx hfind, hid, mergeField, greaterString_laws.1]
    · rw [mapFind_mapSet_ne _ _ _ _ hk] at hkv
      exact hw k v hkv

theorem mergeTx_keeps_keys (tx : MoneroTxWallet) (st st1 : Indexes) (skipIfAbsent : Bool)
    (h : mergeTx tx st skipIfAbsent = .ok st1) (k : String)
    (hk : mapFind k st.txMap ≠ none) : mapFind k st1.txMap ≠ none := by
  obtain ⟨id, hid, hmap⟩ := mergeTx_ok_inv tx st st1 skipIfAbsent h
  rw [hmap]
  by_cases hkid : k = id
  · subst hkid
    cases hfind : mapFind k st.txMap with
    | none => exact absurd hfind hk
    | some aTx => simp [mapFind_mapSet_same]
  · cases hfind : mapFind id st.txMap with
    | none =>
      cases skipIfAbsent with
      | true => simpa using hk
      | false => simpa [mapFind_mapSet_ne _ _ _ _ hkid] using hk
    | some aTx => simpa [mapFind_mapSet_ne _ _ _ _ hkid] using hk

theorem mergeTxs_invariants (l : List MoneroTxWallet) (st st1 : Indexes) (skipIfAbsent : Bool)
    (h : mergeTxs l st skipIfAbsent = .ok st1) :
    (WellKeyed st.txMap → WellKeyed st1.txMap) ∧
    (∀ k, mapFind k st.txMap ≠ none → mapFind k st1.txMap ≠ none) := by
  induction l generalizing st with
  | nil =>
    simp only [mergeTxs, Except.ok.injEq] at h
    subst h
    exact ⟨id, fun _ hk => hk⟩
  | cons tx rest ih =>
    simp only [mergeTxs] at h
    split at h
    · cases h
    · rename_i sA hA
      obtain ⟨h1, h2⟩ := ih sA h
      exact ⟨fun hw => h1 (mergeTx_wellKeyed tx st sA skipIfAbsent hA hw),
        fun k hk => h2 k (mergeTx_keeps_keys tx st sA skipIfAbsent hA k hk)⟩

theorem indexTxs_invariants (l : List MoneroTxWallet) (st st1 : Indexes) (refs : List TxRef)
    (h : indexTxs l st = .ok (st1, refs)) :
    (WellKeyed st.txMap → WellKeyed st1.txMap) ∧
    (∀ k, mapFind k st.txMap ≠ none → mapFind k st1.txMap ≠ none) ∧
    (∀ ref ∈ refs, ∃ id, ref.key = some id ∧ mapFind id st1.txMap ≠ none) := by
  induction l generalizing st refs with
  | nil =>
    simp only [indexTxs, Except.ok.injEq, Prod.mk.injEq] at h
    obtain ⟨hs, hr⟩ := h
    subst hs; subst hr
    exact ⟨id, fun _ hk => hk, by simp⟩
  | cons tx rest ih =>
    simp only [indexTxs] at h
    split at h
    · cases h
    · rename_i sA hA
      split at h
      · cases h
      · rename_i sB refsB hB
        simp only [Except.ok.injEq, Prod.mk.injEq] at h
        obtain ⟨hs, hr⟩ := h
        subst hs; subst hr
        obtain ⟨h1, h2, h3⟩ := ih sA refsB hB
        refine ⟨fun hw => h1 (mergeTx_wellKeyed tx st sA false hA hw),
          fun k hk => h2 k (mergeTx_keeps_keys tx st sA false hA k hk), ?_⟩
        intro ref href
        rcases List.mem_cons.mp href with heq | hmem
        · obtain ⟨id, hid, hmap⟩ := mergeTx_ok_inv tx st sA false hA
          refine ⟨id, ?_, h2 id ?_⟩
          · rw [heq]
            simp only [hid]
            split <;> simp [TxRef.key, hid]
          · rw [hmap]
            cases hfind : mapFind id st.txMap with
            | none => simp [mapFind_mapSet_same]
            | some aTx => simp [mapFind_mapSet_same]
        · exact h3 ref hmem

theorem resolve_id (txMap : List (String × MoneroTxWallet)) (hw : WellKeyed txMap)
    (ref : TxRef) (id : String) (hkey : ref.key = some id) (hfind : mapFind id txMap ≠ none) :
    (ref.resolve txMap).id = some id := by
  cases ref with
  | indexed i =>
    simp only [TxRef.key, Option.some.injEq] at hkey
    subst hkey
    obtain ⟨v, hv⟩ := Option.ne_none_iff_exists'.mp hfind
    simp [TxRef.resolve, hv, hw i v hv]
  | detached tx => simpa [TxRef.key, TxRef.resolve] using hkey

theorem filterTxs_subset (meets : MoneroTxWallet → Bool) (l : List MoneroTxWallet)
    (blockMap : List (Nat × MoneroBlock)) (tx : MoneroTxWallet)
    (h : tx ∈ (filterTxs meets l blockMap).txs) : tx ∈ l := by
  induction l generalizing blockMap with
  | nil => simp [filterTxs] at h
  | cons t rest ih =>
    simp only [filterTxs] at h
    split at h
    · simp only [List.mem_cons] at h ⊢
      rcases h with h | h
      · exact Or.inl h
      · exact Or.inr (ih _ h)
    · exact List.mem_cons_of_mem _ (ih _ h)

theorem txsRequested_indexed (E : CriteriaEngine) (calls : QueryCalls)
    (request : MoneroTxRequest) (r : TxsResult) (st : Indexes)
    (hreq : txsRequested E calls request = .ok (r, st)) :
    WellKeyed st.txMap ∧ ∀ tx ∈ r.txs, ∃ id, tx.id = some id ∧ mapFind id st.txMap ≠ none := by
  obtain ⟨l, st1, refs, hidx, hst, hr⟩ := txsRequested_inv E calls request r st hreq
  obtain ⟨h1, h2, h3⟩ := indexTxs_invariants l {} st1 refs hidx
  have hw1 : WellKeyed st1.txMap := h1 (by intro k v hkv; simp [mapFind] at hkv)
  have hw : WellKeyed st.txMap := by
    rcases hst with h | ⟨l2, h⟩
    · rw [h]; exact hw1
    · exact (mergeTxs_invariants l2 st1 st true h).1 hw1
  have hkeep : ∀ k, mapFind k st1.txMap ≠ none → mapFind k st.txMap ≠ none := by
    rcases hst with h | ⟨l2, h⟩
    · rw [h]; exact fun _ hk => hk
    · exact (mergeTxs_invariants l2 st1 st true h).2
  refine ⟨hw, ?_⟩
  intro tx htx
  rw [hr] at htx
  have hmem := filterTxs_subset _ _ _ tx htx
  obtain ⟨ref, href, hres⟩ := List.mem_map.mp hmem
  obtain ⟨id, hkey, hfind⟩ := h3 ref href
  exact ⟨id, by rw [← hres]; exact resolve_id _ hw ref id hkey (hkeep id hfind), hkeep id hfind⟩

theorem firstMissingId_none (txIds : List String) (txs : List MoneroTxWallet) :
    firstMissingId txIds txs = none ↔ ∀ txId ∈ txIds, ∃ tx ∈ txs, tx.id = some txId := by
  simp [firstMissingId, List.find?_eq_none]

theorem firstMissingId_some (txIds : List String) (txs : List MoneroTxWallet) (txId : String)
    (h : firstMissingId txIds txs = some txId) :
    txId ∈ txIds ∧ ∀ tx ∈ txs, tx.id ≠ some txId := by
  refine ⟨List.mem_of_find?_eq_some h, ?_⟩
  have := List.find?_some h
  simpa using this

theorem orderByIds_ok (txIds : List String) (txMap : List (String × MoneroTxWallet))
    (hw : WellKeyed txMap) (hall : ∀ txId ∈ txIds, mapFind txId txMap ≠ none) :
    ∃ ordered, orderByIds txIds txMap = .ok ordered ∧
      ordered.map (fun tx => tx.id) = txIds.map some := by
  induction txIds with
  | nil => exact ⟨[], rfl, rfl⟩
  | cons txId rest ih =>
    obtain ⟨v, hv⟩ := Option.ne_none_iff_exists'.mp (hall txId (List.mem_cons_self _ _))
    obtain ⟨ordered, ho, hm⟩ := ih (fun t ht => hall t (List.mem_cons_of_mem _ ht))
    exact ⟨v :: ordered, by simp [orderByIds, hv, ho], by simp [hm, hw txId v hv]⟩

theorem getTxsAttempt_ok_ids (E : CriteriaEngine) (calls : QueryCalls)
    (request : MoneroTxRequest) (hids : request.txIds ≠ []) (res : TxsResult)
    (h : getTxsAttempt E calls request = .ok (some res)) :
    res.txs.map (fun tx => tx.id) = request.txIds.map some := by
  cases hreq : txsRequested E calls request with
  | error msg => simp [getTxsAttempt, hreq] at h
  | ok p =>
    obtain ⟨r, st⟩ := p
    obtain ⟨hw, hidx⟩ := txsRequested_indexed E calls request r st hreq
    cases hfm : firstMissingId request.txIds r.txs with
    | some t => simp [getTxsAttempt, hreq, hfm] at h
    | none =>
      have hall := (firstMissingId_none _ _).mp hfm
      have hfound : ∀ txId ∈ request.txIds, mapFind txId st.txMap ≠ none := by
        intro txId hmem
        obtain ⟨tx, htx, hid⟩ := hall txId hmem
        obtain ⟨id, hid2, hfind⟩ := hidx tx htx
        rw [hid] at hid2
        cases hid2
        exact hfind
      obtain ⟨ordered, ho, hm⟩ := orderByIds_ok request.txIds st.txMap hw hfound
      simp only [getTxsAttempt, hreq, hfm, ho, hids, ne_eq, not_false_eq_true, if_true] at h
      split at h
      · cases h
      · simp only [Except.ok.injEq, Option.some.injEq] at h
        rw [← h]
        exact hm

theorem getTxsWith_ok_ids (E : CriteriaEngine) (calls : Nat → QueryCalls)
    (request : MoneroTxRequest) (hids : request.txIds ≠ []) (fuel : Nat) :
    ∀ (attempt : Nat) (res : TxsResult),
      getTxsWith E calls fuel attempt request = some (.ok res) →
      res.txs.map (fun tx => tx.id) = request.txIds.map some := by
  induction fuel with
  | zero => intro attempt res h; simp [getTxsWith] at h
  | succ n ih =>
    intro attempt res h
    simp only [getTxsWith, getTxsWith_normalize] at h
    split at h
    · cases h
    · rename_i r hr
      simp only [Option.some.injEq, Except.ok.injEq] at h
      subst h
      exact getTxsAttempt_ok_ids E (calls attempt) request hids r hr
    · exact ih (attempt + 1) res h

/-- C7: when the request names tx ids and the merges of an attempt of `getTxs` go through,
leaving the txs `r.txs` that pass the filter and the tx index `st.txMap`: if some
requested id is carried by none of these txs, `getTxs` throws "Tx not found in wallet"
for such an id, and the attempt throws that error only in this case; otherwise every
requested id is found in the tx index, and the attempt either re-fetches (a confirmed tx
without block) or returns txs whose ids, read in order, are exactly the requested ids.
Whenever `getTxs` returns, after any number of attempts, the ids of the returned txs are
exactly the requested ids in order. -/
theorem getTxs_requested_ids (E : CriteriaEngine) (calls : Nat → QueryCalls)
    (fuel attempt : Nat) (request : MoneroTxRequest) (r : TxsResult) (st : Indexes)
    (hids : request.txIds ≠ [])
    (hreq : txsRequested E (calls attempt) request = .ok (r, st)) :
    ((∃ txId ∈ request.txIds, ∀ tx ∈ r.txs, tx.id ≠ some txId) →
      ∃ txId ∈ request.txIds, (∀ tx ∈ r.txs, tx.id ≠ some txId) ∧
        getTxsWith E calls (fuel + 1) attempt request
          = some (.error ("Tx not found in wallet: " ++ txId))) ∧
    ((∃ txId, getTxsAttempt E (calls attempt) request
        = .error ("Tx not found in wallet: " ++ txId)) →
      ∃ txId ∈ request.txIds, ∀ tx ∈ r.txs, tx.id ≠ some txId) ∧
    ((∀ txId ∈ request.txIds, ∃ tx ∈ r.txs, tx.id = some txId) →
      (∀ txId ∈ request.txIds, ∃ tx, mapFind txId st.txMap = some tx) ∧
      (hasInconsistency r.txs = true →
        getTxsWith E calls (fuel + 1) attempt request
          = getTxsWith E calls fuel (attempt + 1) request) ∧
      (hasInconsistency r.txs = false →
        ∃ res, getTxsWith E calls (fuel + 1) attempt request = some (.ok res) ∧
          res.txs.map (fun tx => tx.id) = request.txIds.map some)) ∧
    (∀ fuel1 attempt1 res, getTxsWith E calls fuel1 attempt1 request = some (.ok res) →
      res.txs.map (fun tx => tx.id) = request.txIds.map some) := by
  obtain ⟨hw, hidx⟩ := txsRequested_indexed E (calls attempt) request r st hreq
  have hfound : (∀ txId ∈ request.txIds, ∃ tx ∈ r.txs, tx.id = some txId) →
      ∀ txId ∈ request.txIds, mapFind txId st.txMap ≠ none := by
    intro hall txId hmem
    obtain ⟨tx, htx, hid⟩ := hall txId hmem
    obtain ⟨id, hid2, hfind⟩ := hidx tx htx
    rw [hid] at hid2
    cases hid2
    exact hfind
  refine ⟨?_, ?_, ?_, fun f a res h => getTxsWith_ok_ids E calls request hids f a res h⟩
  · rintro ⟨txId, hmem, hmiss⟩
    cases hfm : firstMissingId request.txIds r.txs with
    | none =>
      obtain ⟨tx, htx, hid⟩ := (firstMissingId_none _ _).mp hfm txId hmem
      exact absurd hid (hmiss tx htx)
    | some t =>
      obtain ⟨h1, h2⟩ := firstMissingId_some _ _ _ hfm
      exact ⟨t, h1, h2, by simp [getTxsWith, getTxsAttempt, hreq, hfm]⟩
  · rintro ⟨txId, herr⟩
    cases hfm : firstMissingId request.txIds r.txs with
    | some t =>
      obtain ⟨h1, h2⟩ := firstMissingId_some _ _ _ hfm
      exact ⟨t, h1, h2⟩
    | none =>
      exfalso
      obtain ⟨ordered, ho, _⟩ := orderByIds_ok request.txIds st.txMap hw
        (hfound ((firstMissingId_none _ _).mp hfm))
      simp only [getTxsAttempt, hreq, hfm, ho] at herr
      split at herr
      · cases herr
      · simp [hids] at herr
  · intro hall
    have hfm := (firstMissingId_none _ _).mpr hall
    obtain ⟨ordered, ho, hm⟩ := orderByIds_ok request.txIds st.txMap hw (hfound hall)
    refine ⟨fun txId hmem => Option.ne_none_iff_exists'.mp (hfound hall txId hmem), ?_, ?_⟩
    · intro hinc
      simp [getTxsWith, getTxsAttempt, hreq, hfm, hinc, getTxsWith_normalize]
    · intro hinc
      exact ⟨{ r with txs := ordered },
        by simp [getTxsWith, getTxsAttempt, hreq, hfm, hinc, hids, ho], hm⟩

/-- C8 (as stated, refuted): when the first two attempts both see tx "aa11" marked
confirmed without a block, `getTxs` raises no inconsistency error: it has not returned
within two attempts, it re-fetches a second time, and it returns the txs of the third
attempt. -/
theorem getTxs_refetches_a_second_time :
    (getTxsWith matchAll twiceInconsistentCalls 2 0 {}).map okValue = none ∧
    (getTxsWith matchAll twiceInconsistentCalls 3 0 {}).map okValue
      = some (some
          { txs := [{ id := some "aa11", isConfirmed := some true,
                      block := some { height := some 100, txs := ["aa11"] },
                      incomingTransfers := [{ amount := some 5000000 }] }],
            blockMap := [(100, { height := some 100, txs := ["aa11"] })] }) := by
  decide

/-- C8 (amended): the consistency repair is not bounded. Whenever the first `n` attempts
of `getTxs` each find a tx marked confirmed that carries no block, the call has not
returned within `n` attempts and runs attempt `n`: it throws what that attempt throws,
returns what it returns, or re-fetches again if that attempt finds such a tx too. No
inconsistency error is raised. -/
theorem getTxs_refetches_until_consistent (E : CriteriaEngine) (calls : Nat → QueryCalls)
    (request : MoneroTxRequest) (n : Nat)
    (hre : ∀ k, k < n → getTxsAttempt E (calls k) request = .ok none) :
    (∀ fuel, fuel ≤ n → getTxsWith E calls fuel 0 request = none) ∧
    (∀ fuel, getTxsWith E calls (n + (fuel + 1)) 0 request =
      match getTxsAttempt E (calls n) request with
      | .error msg => some (.error msg)
      | .ok (some r) => some (.ok r)
      | .ok none => getTxsWith E calls fuel (n + 1) request) := by
  constructor
  · intro fuel hfuel
    have h := getTxsWith_refetch E calls request fuel 0 0
      (fun k hk => by simpa using hre k (Nat.lt_of_lt_of_le hk hfuel))
    simpa [getTxsWith] using h
  · intro fuel
    rw [getTxsWith_refetch E calls request n (fuel + 1) 0 (fun k hk => by simpa using hre k hk)]
    simp only [Nat.zero_add, getTxsWith, getTxsWith_normalize]

theorem getTxs_refetches_until_consistent_witness :
    (∀ k, k < 2 → getTxsAttempt matchAll (twiceInconsistentCalls k) {} = .ok none) ∧
    (∀ fuel, fuel ≤ 2 → getTxsWith matchAll twiceInconsistentCalls fuel 0 {} = none) ∧
    (∀ fuel, getTxsWith matchAll twiceInconsistentCalls (2 + (fuel + 1)) 0 {} =
      match getTxsAttempt matchAll (twiceInconsistentCalls 2) {} with
      | .error msg => some (.error msg)
      | .ok (some r) => some (.ok r)
      | .ok none => getTxsWith matchAll twiceInconsistentCalls fuel (2 + 1) {}) :=
  have hre : ∀ k, k < 2 → getTxsAttempt matchAll (twiceInconsistentCalls k) {} = .ok none := by
    intro k hk
    interval_cases k <;> rfl
  ⟨hre, getTxs_refetches_until_consistent matchAll twiceInconsistentCalls {} 2 hre⟩

theorem reconcileTransfers_scenario (w : Wallet2) (request : MoneroTransferRequest)
    (payment_id : String) (pd : payment_details)
    (hreq : canBeIncoming (normalizeTransferRequest request).toMoneroTransferCriteria = true ∧
      canBeConfirmed ((normalizeTransferRequest request).txRequest.getD {}) = true)
    (hin : ∀ a b c d, w.get_payments a b c d = [(payment_id, pd)])
    (hout : ∀ a b c d, w.get_payments_out a b c d = [])
    (hpend : ∀ c d, w.get_unconfirmed_payments_out c d = [])
    (hpool : ∀ c d, w.get_unconfirmed_payments c d = []) :
    reconcileTransfers w request = .ok
      { txMap := [(pd.m_tx_hash, buildTxWithIncomingTransfer w w.height payment_id pd)]
        blockMap := [(pd.m_block_height,
          { height := some pd.m_block_height, timestamp := some pd.m_timestamp,
            txs := [pd.m_tx_hash] })] } := by
  have hm : mergeTxs [buildTxWithIncomingTransfer w w.height payment_id pd] {} false = .ok
      { txMap := [(pd.m_tx_hash, buildTxWithIncomingTransfer w w.height payment_id pd)]
        blockMap := [(pd.m_block_height,
          { height := some pd.m_block_height, timestamp := some pd.m_timestamp,
            txs := [pd.m_tx_hash] })] } := by
    simp only [mergeTxs,
      mergeTx_ok {} (buildTxWithIncomingTransfer w w.height payment_id pd) false pd.m_tx_hash rfl]
    simp [mapFind, mapSet, buildTxWithIncomingTransfer, MoneroTxWallet.getHeight]
  simp only [reconcileTransfers, hreq.1, hreq.2, hin, hout, hpend, hpool, Bool.and_self,
    if_true, List.map_cons, List.map_nil, List.filter_nil, ite_self, hm, bind, Except.bind,
    mergeTxs]

theorem filterTransfers_single (S : StdLibrary) (hS : S.Conforms)
    (meets : MoneroTxWallet → MoneroTransfer → Bool)
    (hall : ∀ tx t, meets tx t = true) (tx : MoneroTxWallet) (t : MoneroIncomingTransfer)
    (blockMap : List (Nat × MoneroBlock)) (hin : tx.incomingTransfers = [t])
    (hout : tx.outgoingTransfer = none) :
    filterTransfers S meets [tx] blockMap
      = { transfers := [(tx, .incoming t)], txs := [tx], blockMap := blockMap } := by
  have htx : filterTxTransfers S meets tx = tx := by
    rw [filterTxTransfers_eq S meets (fun _ _ _ _ => by rw [hall, hall])]
    cases tx
    simp only at hin hout
    subst hin; subst hout
    simp [withTransfersMeeting, hall, sort_singleton S hS, Option.filter]
  simp [filterTransfers, htx, hin, hout, MoneroTxWallet.transfers]

theorem filterOutputs_single (S : StdLibrary) (hS : S.Conforms)
    (meets : MoneroTxWallet → MoneroOutputWallet → Bool)
    (hall : ∀ tx o, meets tx o = true) (tx : MoneroTxWallet) (o : MoneroOutputWallet)
    (blockMap : List (Nat × MoneroBlock)) (hv : tx.vouts = [o]) :
    filterOutputs S meets [tx] blockMap
      = { vouts := [(tx, o)], txs := [tx], blockMap := blockMap } := by
  have htx : filterTxVouts S meets tx = tx := by
    rw [filterTxVouts_eq S meets (fun _ _ _ => by rw [hall, hall])]
    cases tx
    simp only at hv
    subst hv
    simp [withVoutsMeeting, hall, sort_singleton S hS]
  simp [filterOutputs, htx, hv]

theorem getOutputs_scenario (S : StdLibrary) (hS : S.Conforms) (E : CriteriaEngine) (w : Wallet2) (request : MoneroOutputRequest)
    (td : transfer_details) (hlink : request.badLink = false)
    (hall : ∀ tx o, E.meetsOutput (normalizeOutputRequest request) tx o = true)
    (hvout : w.get_transfers = [td]) :
    ∃ r, getOutputs S E w request = .ok r ∧ r.vouts.map (fun o => o.1) = [buildTxWithVout w td] := by
  have hm : mergeTxs [buildTxWithVout w td] {} false = .ok
      { txMap := [(td.m_txid, buildTxWithVout w td)]
        blockMap := [(td.m_block_height,
          { height := some td.m_block_height, txs := [td.m_txid] })] } := by
    simp only [mergeTxs, mergeTx_ok {} (buildTxWithVout w td) false td.m_txid rfl]
    simp [mapFind, mapSet, buildTxWithVout, MoneroTxWallet.getHeight]
  simp only [getOutputs, hlink, hvout, List.map_cons, List.map_nil, hm, sortedTxs,
    sort_singleton S hS]
  rw [filterOutputs_single S hS _ hall _ _ _ rfl]
  exact ⟨_, rfl, rfl⟩

theorem getTransfers_scenario (S : StdLibrary) (hS : S.Conforms) (E : CriteriaEngine) (w : Wallet2)
    (request : MoneroTransferRequest) (payment_id : String) (pd : payment_details)
    (hreq : canBeIncoming (normalizeTransferRequest request).toMoneroTransferCriteria = true ∧
      canBeConfirmed ((normalizeTransferRequest request).txRequest.getD {}) = true)
    (hlink : request.badLink = false)
    (hall : ∀ tx t, E.meetsTransfer (normalizeTransferRequest request) tx t = true)
    (hin : ∀ a b c d, w.get_payments a b c d = [(payment_id, pd)])
    (hout : ∀ a b c d, w.get_payments_out a b c d = [])
    (hpend : ∀ c d, w.get_unconfirmed_payments_out c d = [])
    (hpool : ∀ c d, w.get_unconfirmed_payments c d = []) :
    ∃ r, getTransfers S E w request = .ok r ∧
      r.transfers.map (fun t => t.1) = [buildTxWithIncomingTransfer w w.height payment_id pd] := by
  simp only [getTransfers, hlink,
    reconcileTransfers_scenario w request payment_id pd hreq hin hout hpend hpool, sortedTxs,
    List.map_cons, List.map_nil, sort_singleton S hS]
  rw [filterTransfers_single S hS _ hall _ _ _ rfl rfl]
  exact ⟨_, rfl, rfl⟩
theorem txsRequested_scenario (S : StdLibrary) (hS : S.Conforms) (E : CriteriaEngine) (w : Wallet2) (request : MoneroTxRequest)
    (payment_id : String) (pd : payment_details) (td : transfer_details)
    (hflags : request.isConfirmed = none ∧ request.inTxPool = none ∧ request.isFailed = none ∧
      request.isRelayed = none ∧ request.outputRequest = none)
    (hE : AcceptsAll E request)
    (hin : ∀ a b c d, w.get_payments a b c d = [(payment_id, pd)])
    (hout : ∀ a b c d, w.get_payments_out a b c d = [])
    (hpend : ∀ c d, w.get_unconfirmed_payments_out c d = [])
    (hpool : ∀ c d, w.get_unconfirmed_payments c d = [])
    (hvout : w.get_transfers = [td]) (hid : td.m_txid = pd.m_tx_hash) :
    ∃ r st, txsRequested E (walletCalls S E w) request = .ok (r, st) ∧
      r.txs = [if request.includeOutputs = some true then
          (buildTxWithIncomingTransfer w w.height payment_id pd).merge (buildTxWithVout w td)
        else buildTxWithIncomingTransfer w w.height payment_id pd] := by
  obtain ⟨h1, h2, h3, h4, h5⟩ := hflags
  obtain ⟨hTx, hT, hO⟩ := hE
  obtain ⟨rt, hrt, htxs⟩ := getTransfers_scenario S hS E w
    { txRequest := some { (normalizeTxRequest request) with transferRequest := none } }
    payment_id pd
    (by simp [normalizeTransferRequest, normalizeTxRequest, canBeIncoming, canBeConfirmed,
      boolEquals, h1, h2, h3, h4])
    (by simp [MoneroTransferRequest.badLink])
    hT hin hout hpend hpool
  have hidx : indexTxs [buildTxWithIncomingTransfer w w.height payment_id pd] {} = .ok
      ({ txMap := [(pd.m_tx_hash, buildTxWithIncomingTransfer w w.height payment_id pd)]
         blockMap := [(pd.m_block_height,
          { height := some pd.m_block_height, timestamp := some pd.m_timestamp,
            txs := [pd.m_tx_hash] })] }, [TxRef.indexed pd.m_tx_hash]) := by
    simp only [indexTxs,
      mergeTx_ok {} (buildTxWithIncomingTransfer w w.height payment_id pd) false pd.m_tx_hash rfl]
    simp [mapFind, mapSet, buildTxWithIncomingTransfer, MoneroTxWallet.getHeight]
  have huniq : ∀ tx : MoneroTxWallet, uniqueInOrder [tx] = [tx] := by
    intro tx; simp [uniqueInOrder]
  simp only [txsRequested, hrt, walletCalls, Except.map, htxs, huniq, hidx]
  by_cases hinc : request.includeOutputs = some true
  · obtain ⟨ro, hro, hvtxs⟩ := getOutputs_scenario S hS E w
      { txRequest := some { (normalizeTxRequest request) with transferRequest := none } }
      td (by simp [MoneroOutputRequest.badLink, normalizeTxRequest, h5]) hO hvout
    have hinc2 : (normalizeTxRequest request).includeOutputs = some true := hinc
    unfold mergeOutputTxs
    rw [if_pos hinc2]
    simp only [hro, hvtxs, huniq, hinc, mergeTxs, if_true,
      mergeTx_ok _ (buildTxWithVout w td) true pd.m_tx_hash (by simp [buildTxWithVout, hid])]
    refine ⟨_, _, rfl, ?_⟩
    simp [mapFind, mapSet, TxRef.resolve, filterTxs, hTx]
  · have hinc2 : ¬ (normalizeTxRequest request).includeOutputs = some true := hinc
    unfold mergeOutputTxs
    rw [if_neg hinc2]
    simp only [hinc, if_false]
    refine ⟨_, _, rfl, ?_⟩
    simp [mapFind, TxRef.resolve, filterTxs, hTx]

/-- C6 (as stated, refuted): on the wallet of the scenario, `getTxs` with default
criteria returns one tx "aa11" that owns the incoming transfer of 5000000 but no output:
outputs are fetched only when the request sets `includeOutputs`. -/
theorem getTxs_default_leaves_outputs_out :
    (getTxs stableLibrary matchAll (fun _ => scenarioWallet) 1 {}).map
        (fun res => (okValue res).map fun r =>
          r.txs.map fun tx => (tx.id, tx.incomingTransfers.map (fun t => t.amount), tx.vouts))
      = some (some [(some "aa11", [some 5000000], [])]) := by
  rfl

/-- C6 (amended): for every wallet whose substrate yields one confirmed incoming payment
and one output that carry the same tx id, and nothing else, and every criteria engine
that accepts every candidate under the requests used: `getTxs` with `includeOutputs` set
and otherwise default criteria returns exactly one tx, with that id, which owns the
incoming transfer and the output; `getTxs` with default criteria returns exactly one tx,
with that id, which owns the incoming transfer and no output. -/
theorem getTxs_scenario (S : StdLibrary) (hS : S.Conforms) (E : CriteriaEngine)
    (wallet2 : Nat → Wallet2) (fuel : Nat)
    (payment_id : String) (pd : payment_details) (td : transfer_details)
    (hE0 : AcceptsAll E {}) (hE1 : AcceptsAll E { includeOutputs := some true })
    (hin : ∀ a b c d, (wallet2 0).get_payments a b c d = [(payment_id, pd)])
    (hout : ∀ a b c d, (wallet2 0).get_payments_out a b c d = [])
    (hpend : ∀ c d, (wallet2 0).get_unconfirmed_payments_out c d = [])
    (hpool : ∀ c d, (wallet2 0).get_unconfirmed_payments c d = [])
    (hvout : (wallet2 0).get_transfers = [td]) (hid : td.m_txid = pd.m_tx_hash) :
    (∃ r tx, getTxs S E wallet2 (fuel + 1) { includeOutputs := some true } = some (.ok r) ∧
      r.txs = [tx] ∧ tx.id = some pd.m_tx_hash ∧
      tx.incomingTransfers =
        (buildTxWithIncomingTransfer (wallet2 0) (wallet2 0).height payment_id pd).incomingTransfers ∧
      tx.vouts = (buildTxWithVout (wallet2 0) td).vouts) ∧
    (∃ r tx, getTxs S E wallet2 (fuel + 1) {} = some (.ok r) ∧
      r.txs = [tx] ∧ tx.id = some pd.m_tx_hash ∧
      tx.incomingTransfers =
        (buildTxWithIncomingTransfer (wallet2 0) (wallet2 0).height payment_id pd).incomingTransfers ∧
      tx.vouts = []) := by
  constructor
  · obtain ⟨r, st, hreq, htxs⟩ := txsRequested_scenario S hS E (wallet2 0)
      { includeOutputs := some true } payment_id pd td ⟨rfl, rfl, rfl, rfl, rfl⟩ hE1 hin hout hpend
      hpool hvout hid
    simp only [if_true] at htxs
    refine ⟨r, _, ?_, htxs, ?_, ?_, ?_⟩
    · simp [getTxs, getTxsWith, getTxsAttempt, hreq, htxs, firstMissingId, hasInconsistency,
        MoneroTxWallet.merge, MoneroBlock.merge, buildTxWithIncomingTransfer, buildTxWithVout,
        mergeField, hid, greaterString_laws.1]
    · simp [MoneroTxWallet.merge, buildTxWithIncomingTransfer, buildTxWithVout, mergeField, hid,
        greaterString_laws.1]
    · simp [MoneroTxWallet.merge, buildTxWithIncomingTransfer, buildTxWithVout, unionInto]
    · simp [MoneroTxWallet.merge, buildTxWithIncomingTransfer, buildTxWithVout, unionInto]
  · obtain ⟨r, st, hreq, htxs⟩ := txsRequested_scenario S hS E (wallet2 0) {} payment_id pd td
      ⟨rfl, rfl, rfl, rfl, rfl⟩ hE0 hin hout hpend hpool hvout hid
    have hno : ¬ (({} : MoneroTxRequest).includeOutputs = some true) := by decide
    simp only [if_neg hno] at htxs
    refine ⟨r, _, ?_, htxs, rfl, rfl, rfl⟩
    simp [getTxs, getTxsWith, getTxsAttempt, hreq, htxs, firstMissingId, hasInconsistency,
      buildTxWithIncomingTransfer]

theorem getTxs_scenario_witness :
    (∃ r tx, getTxs stableLibrary matchAll (fun _ => scenarioWallet) 1 { includeOutputs := some true }
        = some (.ok r) ∧
      r.txs = [tx] ∧ tx.id = some "aa11" ∧
      tx.incomingTransfers =
        (buildTxWithIncomingTransfer scenarioWallet scenarioWallet.height
          "0000000000000000000000000000000000000000000000000000000000000000"
          { m_tx_hash := "aa11", m_amount := 5000000, m_block_height := 100 }).incomingTransfers ∧
      tx.vouts = (buildTxWithVout scenarioWallet
        { m_txid := "aa11", m_block_height := 100, amount := 5000000,
          m_global_output_index := 3 }).vouts) ∧
    (∃ r tx, getTxs stableLibrary matchAll (fun _ => scenarioWallet) 1 {} = some (.ok r) ∧
      r.txs = [tx] ∧ tx.id = some "aa11" ∧
      tx.incomingTransfers =
        (buildTxWithIncomingTransfer scenarioWallet scenarioWallet.height
          "0000000000000000000000000000000000000000000000000000000000000000"
          { m_tx_hash := "aa11", m_amount := 5000000, m_block_height := 100 }).incomingTransfers ∧
      tx.vouts = []) :=
  getTxs_scenario stableLibrary stableLibrary_conforms matchAll (fun _ => scenarioWallet) 0
    "0000000000000000000000000000000000000000000000000000000000000000"
    { m_tx_hash := "aa11", m_amount := 5000000, m_block_height := 100 }
    { m_txid := "aa11", m_block_height := 100, amount := 5000000, m_global_output_index := 3 }
    ⟨fun _ => rfl, fun _ _ => rfl, fun _ _ => rfl⟩
    ⟨fun _ => rfl, fun _ _ => rfl, fun _ _ => rfl⟩
    (fun _ _ _ _ => rfl) (fun _ _ _ _ => rfl) (fun _ _ => rfl) (fun _ _ => rfl) rfl rfl

theorem getTxs_requested_ids_witness :
    ∃ r st, ["aa11"] ≠ ([] : List String) ∧
      txsRequested matchAll (twiceInconsistentCalls 2) { txIds := ["aa11"] } = .ok (r, st) ∧
      ((∃ txId ∈ ["aa11"], ∀ tx ∈ r.txs, tx.id ≠ some txId) →
        ∃ txId ∈ ["aa11"], (∀ tx ∈ r.txs, tx.id ≠ some txId) ∧
          getTxsWith matchAll twiceInconsistentCalls (0 + 1) 2 { txIds := ["aa11"] }
            = some (.error ("Tx not found in wallet: " ++ txId))) ∧
      ((∃ txId, getTxsAttempt matchAll (twiceInconsistentCalls 2) { txIds := ["aa11"] }
          = .error ("Tx not found in wallet: " ++ txId)) →
        ∃ txId ∈ ["aa11"], ∀ tx ∈ r.txs, tx.id ≠ some txId) ∧
      ((∀ txId ∈ ["aa11"], ∃ tx ∈ r.txs, tx.id = some txId) →
        (∀ txId ∈ ["aa11"], ∃ tx, mapFind txId st.txMap = some tx) ∧
        (hasInconsistency r.txs = true →
          getTxsWith matchAll twiceInconsistentCalls (0 + 1) 2 { txIds := ["aa11"] }
            = getTxsWith matchAll twiceInconsistentCalls 0 (2 + 1) { txIds := ["aa11"] }) ∧
        (hasInconsistency r.txs = false →
          ∃ res, getTxsWith matchAll twiceInconsistentCalls (0 + 1) 2 { txIds := ["aa11"] }
              = some (.ok res) ∧
            res.txs.map (fun tx => tx.id) = ["aa11"].map some)) ∧
      (∀ fuel1 attempt1 res,
        getTxsWith matchAll twiceInconsistentCalls fuel1 attempt1 { txIds := ["aa11"] }
          = some (.ok res) →
        res.txs.map (fun tx => tx.id) = ["aa11"].map some) :=
  ⟨_, _, by decide, rfl,
    getTxs_requested_ids matchAll twiceInconsistentCalls 0 2 { txIds := ["aa11"] } _ _
      (by decide) rfl⟩


/-! ### Derived fields of the record builders -/

/-- C11: for every confirmed record with block height `h` and every wallet height `H`,
the two confirmed builders build a tx that is not pool-pending and set its
`numConfirmations` to 0 if `h >= H`, to 0 if `h = 0` (the tx not being pool-pending), and
to `H - h` otherwise. -/
theorem confirmed_builders_numConfirmations (wallet2 : Wallet2) (H : Nat)
    (payment_id txid : String) (pd : payment_details) (cpd : confirmed_transfer_details) :
    ((buildTxWithIncomingTransfer wallet2 H payment_id pd).inTxPool = some false ∧
      (pd.m_block_height ≥ H →
        (buildTxWithIncomingTransfer wallet2 H payment_id pd).numConfirmations = some 0) ∧
      (pd.m_block_height = 0 →
        (buildTxWithIncomingTransfer wallet2 H payment_id pd).inTxPool = some false →
        (buildTxWithIncomingTransfer wallet2 H payment_id pd).numConfirmations = some 0) ∧
      (pd.m_block_height < H → pd.m_block_height ≠ 0 →
        (buildTxWithIncomingTransfer wallet2 H payment_id pd).numConfirmations =
          some (H - pd.m_block_height))) ∧
    ((buildTxWithOutgoingTransfer wallet2 H txid cpd).inTxPool = some false ∧
      (cpd.m_block_height ≥ H →
        (buildTxWithOutgoingTransfer wallet2 H txid cpd).numConfirmations = some 0) ∧
      (cpd.m_block_height = 0 →
        (buildTxWithOutgoingTransfer wallet2 H txid cpd).inTxPool = some false →
        (buildTxWithOutgoingTransfer wallet2 H txid cpd).numConfirmations = some 0) ∧
      (cpd.m_block_height < H → cpd.m_block_height ≠ 0 →
        (buildTxWithOutgoingTransfer wallet2 H txid cpd).numConfirmations =
          some (H - cpd.m_block_height))) := by
  refine ⟨⟨rfl, ?_, ?_, ?_⟩, ⟨rfl, ?_, ?_, ?_⟩⟩
  · intro hge
    simp [buildTxWithIncomingTransfer, numConfirmationsAt, hge]
  · intro h0 _
    simp [buildTxWithIncomingTransfer, numConfirmationsAt, h0]
  · intro hlt hne
    simp [buildTxWithIncomingTransfer, numConfirmationsAt, hne]
    omega
  · intro hge
    simp [buildTxWithOutgoingTransfer, numConfirmationsAt, hge]
  · intro h0 _
    simp [buildTxWithOutgoingTransfer, numConfirmationsAt, h0]
  · intro hlt hne
    simp [buildTxWithOutgoingTransfer, numConfirmationsAt, hne]
    omega

/-- C11: at wallet height 10 an incoming record at block height 4 gets 6 confirmations,
and an outgoing record at block height 12 gets 0. -/
theorem confirmed_builders_numConfirmations_witness :
    (buildTxWithIncomingTransfer scenarioWallet 10 "" { m_block_height := 4 }).numConfirmations
      = some 6 ∧
    (buildTxWithOutgoingTransfer scenarioWallet 10 "aa11" { m_block_height := 12 }).numConfirmations
      = some 0 :=
  ⟨(confirmed_builders_numConfirmations scenarioWallet 10 "" "aa11" { m_block_height := 4 }
      { m_block_height := 12 }).1.2.2.2 (by decide) (by decide),
   (confirmed_builders_numConfirmations scenarioWallet 10 "" "aa11" { m_block_height := 4 }
      { m_block_height := 12 }).2.2.1 (by decide)⟩

/-- C12 (as stated, refuted): a confirmed record at block height 0 gets no confirmations
at wallet height 5, although `H - h` is 5. -/
theorem numConfirmations_at_height_zero :
    (buildTxWithIncomingTransfer scenarioWallet 5 "" { m_block_height := 0 }).numConfirmations
      = some 0 ∧
    (buildTxWithOutgoingTransfer scenarioWallet 5 "aa11" { m_block_height := 0 }).numConfirmations
      = some 0 ∧
    (some 0 : Option Nat) ≠ some (5 - 0) := by
  decide

/-- C12 (amended): confirmation count monotonicity. For every fixed tx block height `h`
and wallet heights `h <= H1 <= H2`, each confirmed builder gives `numConfirmations(H1) =
H1 - h` when `h` is not 0 and `numConfirmations(H1) = 0` when `h` is 0; in both cases the
count at `H1` is at most the count at `H2`, and the count at `H = h` is 0. -/
theorem numConfirmations_monotone (wallet2 : Wallet2) (payment_id txid : String)
    (pd : payment_details) (cpd : confirmed_transfer_details) (h H1 H2 : Nat)
    (hpd : pd.m_block_height = h) (hcpd : cpd.m_block_height = h)
    (h1 : h ≤ H1) (h2 : H1 ≤ H2) :
    ∀ conf ∈ [fun H => (buildTxWithIncomingTransfer wallet2 H payment_id pd).numConfirmations,
        fun H => (buildTxWithOutgoingTransfer wallet2 H txid cpd).numConfirmations],
      (h ≠ 0 → conf H1 = some (H1 - h)) ∧
      (h = 0 → conf H1 = some 0) ∧
      conf h = some 0 ∧
      ∃ c1 c2, conf H1 = some c1 ∧ conf H2 = some c2 ∧ c1 ≤ c2 := by
  intro conf hconf
  have key : ∀ H, conf H = some (numConfirmationsAt H h false) := by
    intro H
    simp only [List.mem_cons, List.mem_singleton, List.not_mem_nil, or_false] at hconf
    rcases hconf with hc | hc <;> subst hc
    · simp [buildTxWithIncomingTransfer, hpd]
    · simp [buildTxWithOutgoingTransfer, hcpd]
  refine ⟨?_, ?_, ?_, ⟨_, _, key H1, key H2, ?_⟩⟩
  · intro hne
    rw [key]
    simp only [numConfirmationsAt, hne, false_and, or_false]
    split
    · congr 1; omega
    · rfl
  · intro h0
    rw [key]
    simp [numConfirmationsAt, h0]
  · rw [key]
    simp [numConfirmationsAt]
  · simp only [numConfirmationsAt, Bool.not_false, and_true]
    split <;> split <;> omega

theorem numConfirmations_monotone_witness :
    (100 ≤ 110 ∧ 110 ≤ 120) ∧
    ∀ conf ∈ [fun H => (buildTxWithIncomingTransfer scenarioWallet H ""
          { m_block_height := 100 }).numConfirmations,
        fun H => (buildTxWithOutgoingTransfer scenarioWallet H "aa11"
          { m_block_height := 100 }).numConfirmations],
      (100 ≠ 0 → conf 110 = some (110 - 100)) ∧
      (100 = 0 → conf 110 = some 0) ∧
      conf 100 = some 0 ∧
      ∃ c1 c2, conf 110 = some c1 ∧ conf 120 = some c2 ∧ c1 ≤ c2 :=
  ⟨by decide, numConfirmations_monotone scenarioWallet "" "aa11" { m_block_height := 100 }
    { m_block_height := 100 } 100 110 120 rfl rfl (by decide) (by decide)⟩


theorem numSuggestedConfirmationsOf_no_overflow (amount blockReward : Nat)
    (hpos : 0 < blockReward) (hsum : amount + blockReward ≤ 2 ^ 64) :
    numSuggestedConfirmationsOf amount blockReward = (amount + blockReward - 1) / blockReward := by
  have hne : blockReward ≠ 0 := by omega
  have h : sub64 (add64 amount blockReward) 1 = amount + blockReward - 1 := by
    simp only [sub64, add64, U64] at *
    norm_num at *
    omega
  simp [numSuggestedConfirmationsOf, hne, h]

/-- C13 (the code at the failing input): with a transfer amount of `2 ^ 64 - 1` and a last
block reward of 2, the sum `amount + blockReward - 1` wraps around to 0 and the builders
set `numSuggestedConfirmations` to 0, while the ceiling of `amount / reward` is
`2 ^ 63`. -/
theorem numSuggestedConfirmations_overflow :
    (buildTxWithIncomingTransfer { scenarioWallet with get_last_block_reward := 2 } 110 ""
        { m_amount := 18446744073709551615 }).incomingTransfers.map
        (fun t => t.numSuggestedConfirmations) = [some 0] ∧
    (buildTxWithIncomingTransferUnconfirmed { scenarioWallet with get_last_block_reward := 2 } ""
        { m_pd := { m_amount := 18446744073709551615 } }).incomingTransfers.map
        (fun t => t.numSuggestedConfirmations) = [some 0] ∧
    (buildTxWithOutgoingTransfer { scenarioWallet with get_last_block_reward := 2 } 110 "aa11"
        { m_amount_in := 18446744073709551615,
          m_amount_out := 18446744073709551615 }).outgoingTransfer.map
        (fun t => (t.amount, t.numSuggestedConfirmations))
      = some (some 18446744073709551615, some 0) ∧
    (18446744073709551615 + 2 - 1) / 2 = 9223372036854775808 := by
  decide


theorem sub64_eq_int (a b : Nat) : ((sub64 a b : Nat) : ℤ) = ((a : ℤ) - (b : ℤ)) % (2 ^ 64 : ℤ) := by
  simp only [sub64, U64]
  norm_num
  omega

theorem destinationSum_eq (dests : List tx_destination_entry) (acc : Nat) :
    (destinationsOf dests).foldl (fun amount d => add64 amount (d.amount.getD 0)) acc
      = (acc + (dests.map fun d => d.amount).sum) % 2 ^ 64 ∨ dests = [] := by
  induction dests generalizing acc with
  | nil => exact Or.inr rfl
  | cons d rest ih =>
    left
    rcases ih (add64 acc d.amount) with h | h
    · simp only [destinationsOf, List.map_cons, List.foldl_cons, Option.getD_some, List.sum_cons]
        at h ⊢
      rw [h]
      simp only [add64, U64]
      omega
    · subst h
      simp [destinationsOf, add64, U64]

/-- C14: for every confirmed outgoing record, `buildTxWithOutgoingTransfer` sets the fee to
`amountIn - amountOut` and computes `amountIn - change - fee` in 64 bit arithmetic, a
change equal to the sentinel `2 ^ 64 - 1` counting as 0; the transfer amount is the sum
of the destination amounts (in 64 bit arithmetic) when that value is 0 and the
destination list is not empty, and that value in every other case. -/
theorem buildTxWithOutgoingTransfer_amount (wallet2 : Wallet2) (height : Nat) (txid : String)
    (pd : confirmed_transfer_details) :
    ∃ fee net t,
      ((fee : Nat) : ℤ) = ((pd.m_amount_in : ℤ) - pd.m_amount_out) % 2 ^ 64 ∧
      ((net : Nat) : ℤ) = ((pd.m_amount_in : ℤ)
        - ((if pd.m_change = 2 ^ 64 - 1 then 0 else pd.m_change : Nat) : ℤ) - fee) % 2 ^ 64 ∧
      (buildTxWithOutgoingTransfer wallet2 height txid pd).fee = some fee ∧
      (buildTxWithOutgoingTransfer wallet2 height txid pd).outgoingTransfer = some t ∧
      (net = 0 ∧ pd.m_dests ≠ [] →
        t.amount = some ((pd.m_dests.map fun d => d.amount).sum % 2 ^ 64)) ∧
      (¬ (net = 0 ∧ pd.m_dests ≠ []) → t.amount = some net) := by
  refine ⟨sub64 pd.m_amount_in pd.m_amount_out,
    sub64 (sub64 pd.m_amount_in (if pd.m_change = U64 - 1 then 0 else pd.m_change))
      (sub64 pd.m_amount_in pd.m_amount_out), _, sub64_eq_int _ _, ?_, rfl, rfl, ?_, ?_⟩
  · rw [sub64_eq_int, sub64_eq_int]
    have hU : U64 - 1 = 2 ^ 64 - 1 := rfl
    rw [hU]
    omega
  · rintro ⟨hnet, hd⟩
    have hne : destinationsOf pd.m_dests ≠ [] := by
      simpa [destinationsOf] using hd
    simp only [outgoingAmount, hnet, hne, ne_eq, not_false_eq_true, and_self, if_true,
      destinationSum]
    rcases destinationSum_eq pd.m_dests 0 with h | h
    · rw [h, Nat.zero_add]
    · exact absurd h hd
  · intro hnot
    have hnot2 : ¬ (sub64 (sub64 pd.m_amount_in (if pd.m_change = U64 - 1 then 0 else pd.m_change))
        (sub64 pd.m_amount_in pd.m_amount_out) = 0 ∧ destinationsOf pd.m_dests ≠ []) := by
      intro h
      exact hnot ⟨h.1, by simpa [destinationsOf] using h.2⟩
    simp only [outgoingAmount, if_neg hnot2]


/-- C15 (the code at the failing input): an outgoing record with `amountIn = 100`,
`amountOut = 90` and the change set to the sentinel `2 ^ 64 - 1`. The confirmed builder
counts the change as 0 and sets the amount to `100 - 0 - 10 = 90`; the unconfirmed
builder subtracts the sentinel itself and sets the amount to 91. -/
theorem unconfirmed_builder_subtracts_sentinel :
    (buildTxWithOutgoingTransfer scenarioWallet 110 "aa11"
        { m_amount_in := 100, m_amount_out := 90,
          m_change := 18446744073709551615 }).outgoingTransfer.map (fun t => t.amount)
      = some (some 90) ∧
    (buildTxWithOutgoingTransferUnconfirmed scenarioWallet "aa11"
        { m_amount_in := 100, m_amount_out := 90,
          m_change := 18446744073709551615 }).outgoingTransfer.map (fun t => t.amount)
      = some (some 91) := by
  decide

/-- C16: the state flags `(isConfirmed, inTxPool, isFailed, isRelayed)` set by the
builders. Confirmed incoming, confirmed outgoing and spendable output: `(true, false,
false, true)`. Pool-pending incoming: `(false, true, false, true)`. Pending or failed
outgoing: `isConfirmed = false`, `isFailed` tells whether the state of the record is
`failed`, and `inTxPool` and `isRelayed` are both the negation of `isFailed`. -/
theorem builders_state_flags (wallet2 : Wallet2) (height : Nat) (payment_id txid : String)
    (pd : payment_details) (cpd : confirmed_transfer_details) (ppd : pool_payment_details)
    (upd : unconfirmed_transfer_details) (td : transfer_details) :
    (∀ tx ∈ [buildTxWithIncomingTransfer wallet2 height payment_id pd,
        buildTxWithOutgoingTransfer wallet2 height txid cpd, buildTxWithVout wallet2 td],
      tx.isConfirmed = some true ∧ tx.inTxPool = some false ∧ tx.isFailed = some false ∧
        tx.isRelayed = some true) ∧
    ((buildTxWithIncomingTransferUnconfirmed wallet2 payment_id ppd).isConfirmed = some false ∧
      (buildTxWithIncomingTransferUnconfirmed wallet2 payment_id ppd).inTxPool = some true ∧
      (buildTxWithIncomingTransferUnconfirmed wallet2 payment_id ppd).isFailed = some false ∧
      (buildTxWithIncomingTransferUnconfirmed wallet2 payment_id ppd).isRelayed = some true) ∧
    ((buildTxWithOutgoingTransferUnconfirmed wallet2 txid upd).isConfirmed = some false ∧
      (buildTxWithOutgoingTransferUnconfirmed wallet2 txid upd).isFailed
        = some (decide (upd.m_state = transfer_state.failed)) ∧
      (buildTxWithOutgoingTransferUnconfirmed wallet2 txid upd).inTxPool
        = some (!decide (upd.m_state = transfer_state.failed)) ∧
      (buildTxWithOutgoingTransferUnconfirmed wallet2 txid upd).isRelayed
        = some (!decide (upd.m_state = transfer_state.failed))) := by
  refine ⟨?_, ⟨rfl, rfl, rfl, rfl⟩, ⟨rfl, rfl, rfl, rfl⟩⟩
  intro tx htx
  simp only [List.mem_cons, List.mem_singleton, List.not_mem_nil, or_false] at htx
  rcases htx with h | h | h <;> subst h <;> exact ⟨rfl, rfl, rfl, rfl⟩


/-! ### Orderings -/

/-- C17 (as stated, refuted): sorting twice need not give the same list. `std::sort` leaves
the order of equivalent elements open; a conforming sort that puts them in the reverse of
their original order turns two txs without a block, "aa11" then "bb22", into "bb22" then
"aa11", and sorting that result again gives "aa11" then "bb22". -/
theorem sorting_twice_reorders_equivalent_txs :
    reversingLibrary.Conforms ∧
    reversingLibrary.sort txHeightLessThan [{ id := some "aa11" }, { id := some "bb22" }] =
      [{ id := some "bb22" }, { id := some "aa11" }] ∧
    reversingLibrary.sort txHeightLessThan
        (reversingLibrary.sort txHeightLessThan [{ id := some "aa11" }, { id := some "bb22" }]) =
      [{ id := some "aa11" }, { id := some "bb22" }] ∧
    ([{ id := some "aa11" }, { id := some "bb22" }] : List MoneroTxWallet) ≠
      [{ id := some "bb22" }, { id := some "aa11" }] := by
  refine ⟨reversingLibrary_conforms, by decide, by decide, by decide⟩

/-- C17 (amended): `txHeightLessThan` is a strict weak ordering: it is irreflexive and
transitive, and being unordered by it is transitive. Every tx that has a block precedes
every tx without one, and txs with block heights are ordered by ascending height. Hence,
for every conforming `std::sort` and every list of txs, sorting the list gives a sorted
rearrangement of it in which no tx without a block stands before a tx with a block, and
sorting that result again gives a rearrangement of it with the same sequence of block
heights: the same list up to the order of the txs that `txHeightLessThan` leaves
unordered. -/
theorem txHeightLessThan_strict_weak_order :
    (∀ a, txHeightLessThan a a = false) ∧
    (∀ a b c, txHeightLessThan a b = true → txHeightLessThan b c = true →
      txHeightLessThan a c = true) ∧
    (∀ a b c, txHeightLessThan a b = false ∧ txHeightLessThan b a = false →
      txHeightLessThan b c = false ∧ txHeightLessThan c b = false →
      txHeightLessThan a c = false ∧ txHeightLessThan c a = false) ∧
    (∀ a b, a.block ≠ none → b.block = none →
      txHeightLessThan a b = true ∧ txHeightLessThan b a = false) ∧
    (∀ a b ha hb, a.getHeight = some ha → b.getHeight = some hb →
      (txHeightLessThan a b = true ↔ ha < hb)) ∧
    (∀ S : StdLibrary, S.Conforms → ∀ l : List MoneroTxWallet,
      (S.sort txHeightLessThan l).Perm l ∧
      (S.sort txHeightLessThan l).Pairwise (fun a b => txHeightLessThan b a = false) ∧
      (S.sort txHeightLessThan l).Pairwise (fun a b => a.block = none → b.block = none) ∧
      (S.sort txHeightLessThan (S.sort txHeightLessThan l)).Perm (S.sort txHeightLessThan l) ∧
      (S.sort txHeightLessThan (S.sort txHeightLessThan l)).map heightKey =
        (S.sort txHeightLessThan l).map heightKey ∧
      (S.sort txHeightLessThan (S.sort txHeightLessThan l)).map MoneroTxWallet.getHeight =
        (S.sort txHeightLessThan l).map MoneroTxWallet.getHeight) := by
  have hblock : ∀ a b, a.block ≠ none → b.block = none →
      txHeightLessThan a b = true ∧ txHeightLessThan b a = false := by
    intro a b ha hb
    simp [txHeightLessThan, ha, hb]
  have hkey : ∀ a : MoneroTxWallet, a.getHeight = (if (heightKey a).2 = 0 then none
      else some ((heightKey a).2 - 1)) := by
    intro a
    simp only [heightKey, MoneroTxWallet.getHeight]
    generalize a.block = ab
    rcases ab with _ | ⟨h, t, txs⟩
    · simp
    · cases h <;> simp
  refine ⟨?_, ?_, ?_, hblock, ?_, ?_⟩
  · intro a
    rw [txHeightLessThan_false_iff]
    omega
  · intro a b c h1 h2
    rw [txHeightLessThan_iff] at h1 h2 ⊢
    omega
  · intro a b c h1 h2
    rw [txHeightLessThan_false_iff, txHeightLessThan_false_iff] at h1 h2 ⊢
    omega
  · intro a b ha hb hha hhb
    cases hba : a.block with
    | none => simp [MoneroTxWallet.getHeight, hba] at hha
    | some ba =>
      cases hbb : b.block with
      | none => simp [MoneroTxWallet.getHeight, hbb] at hhb
      | some bb =>
        simp only [MoneroTxWallet.getHeight, hba, hbb] at hha hhb
        simp [txHeightLessThan, hba, hbb, MoneroTxWallet.getHeight, hha, hhb, optionalLess]
  · intro S hS l
    have h1 := hS txHeightLessThan l
    have h2 := hS txHeightLessThan (S.sort txHeightLessThan l)
    have hs1 := h1.2 txHeightLessThan_swo
    have hs2 := h2.2 txHeightLessThan_swo
    have hkeys := sorted_keys_unique _ _ h2.1 hs2 hs1
    refine ⟨h1.1, hs1, ?_, h2.1, hkeys, ?_⟩
    · refine hs1.imp ?_
      intro a b hba hnone
      by_contra hb
      have := (hblock b a hb hnone).1
      rw [hba] at this
      cases this
    · have hfun : MoneroTxWallet.getHeight = (fun k : Nat × Nat =>
          if k.2 = 0 then none else some (k.2 - 1)) ∘ heightKey := by
        funext a
        exact hkey a
      rw [hfun, ← List.map_map, ← List.map_map, hkeys]

/-- C17: the amended statement at a sort that reverses equivalent txs and four txs, two
of them without a block: sorting gives heights 3, 5 and then the two txs without a block,
and sorting again keeps the heights and swaps the two txs without a block. -/
theorem txHeightLessThan_strict_weak_order_witness :
    reversingLibrary.Conforms ∧
    ((reversingLibrary.sort txHeightLessThan fourTxs).Perm fourTxs ∧
      (reversingLibrary.sort txHeightLessThan fourTxs).Pairwise
        (fun a b => txHeightLessThan b a = false) ∧
      (reversingLibrary.sort txHeightLessThan fourTxs).Pairwise
        (fun a b => a.block = none → b.block = none) ∧
      (reversingLibrary.sort txHeightLessThan
        (reversingLibrary.sort txHeightLessThan fourTxs)).Perm
        (reversingLibrary.sort txHeightLessThan fourTxs) ∧
      (reversingLibrary.sort txHeightLessThan
        (reversingLibrary.sort txHeightLessThan fourTxs)).map heightKey =
        (reversingLibrary.sort txHeightLessThan fourTxs).map heightKey ∧
      (reversingLibrary.sort txHeightLessThan
        (reversingLibrary.sort txHeightLessThan fourTxs)).map MoneroTxWallet.getHeight =
        (reversingLibrary.sort txHeightLessThan fourTxs).map MoneroTxWallet.getHeight) ∧
    (reversingLibrary.sort txHeightLessThan fourTxs).map
        (fun tx => (tx.id, tx.getHeight)) =
      [(some "bb22", some 3), (some "aa11", some 5), (some "dd44", none), (some "cc33", none)] ∧
    (reversingLibrary.sort txHeightLessThan
        (reversingLibrary.sort txHeightLessThan fourTxs)).map
        (fun tx => (tx.id, tx.getHeight)) =
      [(some "bb22", some 3), (some "aa11", some 5), (some "cc33", none), (some "dd44", none)] :=
  ⟨reversingLibrary_conforms,
    txHeightLessThan_strict_weak_order.2.2.2.2.2 reversingLibrary reversingLibrary_conforms
      fourTxs,
    by decide, by decide⟩

/-- C19 (as stated, refuted): a connected wallet whose daemon is not synced (height 5,
target 10) gets a result from `sync` (0 blocks, no money) and the substrate refresh is
never invoked: the log stays empty. -/
theorem sync_returns_without_refresh :
    okValue (sync { isConnected := true } (fun _ => { daemonHeight := 5, daemonTargetHeight := 10 })
      none false) = some ({}, { isConnected := true }) := by
  decide

/-- C19 (amended): `sync` fails with "No connection to daemon" when the wallet is not
connected, and fails with the error of the daemon when the daemon height cannot be read;
when the wallet is connected and the daemon is not synced, it returns the initial result
(0 blocks fetched, no money received) and leaves the state and the log as they are, up to
the rescan flag: the substrate refresh is not invoked. -/
theorem sync_unavailable (w : SyncWallet) (env : Nat → SyncSubstrate) (startHeight : Option Nat)
    (listener : Bool) :
    (w.isConnected = false →
      sync w env startHeight listener = .error ("No connection to daemon", w)) ∧
    (∀ msg, w.isConnected = true → getIsDaemonSynced true (env 0) = .error msg →
      sync w env startHeight listener = .error (msg, { w with rescanOnSync := false })) ∧
    (w.isConnected = true → (∀ k, getIsDaemonSynced true (env k) = .ok false) →
      ∃ flag, sync w env startHeight listener = .ok ({}, { w with rescanOnSync := flag })) := by
  refine ⟨?_, ?_, ?_⟩
  · intro h
    simp [sync, h]
  · intro msg h he
    simp [sync, lockAndSync, syncCycle, h, he]
  · intro h hk
    have h0 := hk 0
    have h1 := hk 1
    by_cases hr : w.rescanOnSync = true
    · exact ⟨(env 0).rescanRequested, by simp [sync, lockAndSync, syncCycle, h, h0, hr]⟩
    · by_cases hq : (env 0).rescanRequested = true
      · exact ⟨(env 1).rescanRequested, by simp [sync, lockAndSync, syncCycle, h, h0, h1, hr, hq]⟩
      · exact ⟨false, by simp [sync, lockAndSync, syncCycle, h, h0, hr, hq]⟩

/-- C19: the amended statement at a connected wallet whose daemon is at height 5 with
target height 10. -/
theorem sync_unavailable_witness :
    ∃ flag, sync { isConnected := true } (fun _ => { daemonHeight := 5, daemonTargetHeight := 10 })
      none false = .ok ({}, { ({ isConnected := true } : SyncWallet) with rescanOnSync := flag }) :=
  (sync_unavailable { isConnected := true }
    (fun _ => { daemonHeight := 5, daemonTargetHeight := 10 }) none false).2.2 rfl (fun _ => rfl)
/-- A block notification logs no call of the substrate refresh. -/
theorem refreshHeights_on_new_block (w : SyncWallet) (height : Nat) :
    refreshHeights (on_new_block w height).log = refreshHeights w.log := by
  unfold on_new_block
  by_cases hl : w.listener = true <;> by_cases hs : w.syncListener = true <;>
    cases hst : w.syncStartHeight <;> simp [hl, hs, hst, refreshHeights, List.filterMap_append] <;>
    split <;> simp [List.filterMap_append]

/-- Block notifications log no call of the substrate refresh. -/
theorem refreshHeights_notifyBlocks (blocks : List Nat) (w : SyncWallet) :
    refreshHeights (notifyBlocks w blocks).log = refreshHeights w.log := by
  have hfold : ∀ (bs : List Nat) (v : SyncWallet),
      refreshHeights (bs.foldl on_new_block v).log = refreshHeights v.log := by
    intro bs
    induction bs with
    | nil => intro v; rfl
    | cons b bs ih =>
      intro v
      rw [List.foldl_cons, ih, refreshHeights_on_new_block]
  unfold notifyBlocks
  split
  · exact hfold blocks w
  · rfl

/-- C20 (as stated, refuted): with requested start height 5, wallet height 20 and restore
height 10, `syncAux` passes 5 to the substrate refresh, while max(5, 10) = 10. -/
theorem syncAux_passes_requested_height :
    (stateAfter (syncAux { isConnected := true, height := 20, restoreHeight := 10 } {} (some 5)
      false)).log = [SyncEvent.refresh 5] ∧ max 5 10 = 10 := by
  decide

/-- C20 (amended): the start height that `syncAux` passes to the substrate refresh is the
requested start height if one is given, and max(current wallet height, restore height)
otherwise. When no sync is in progress and the chain height can be read, `syncAux`
invokes the refresh exactly once, with that start height, whether the refresh returns or
fails; otherwise it throws before the refresh and logs nothing. -/
theorem syncAux_start_height (w : SyncWallet) (e : SyncSubstrate) (startHeight : Option Nat)
    (listener : Bool) :
    (w.syncStartHeight = none → w.syncEndHeight = none →
      (∃ chainHeight, getChainHeight w.isConnected e = .ok chainHeight) →
      refreshHeights (stateAfter (syncAux w e startHeight listener)).log =
        refreshHeights w.log ++
          [match startHeight with
           | some r => r
           | none => max w.height w.restoreHeight]) ∧
    (¬ (w.syncStartHeight = none ∧ w.syncEndHeight = none ∧
        ∃ chainHeight, getChainHeight w.isConnected e = .ok chainHeight) →
      okValue (syncAux w e startHeight listener) = none ∧
      (stateAfter (syncAux w e startHeight listener)).log = w.log) := by
  refine ⟨?_, ?_⟩
  · rintro hs he ⟨c, hc⟩
    cases hf : (e.refresh (match startHeight with
        | some r => r
        | none => max w.height w.restoreHeight)).failure <;>
      cases startHeight <;>
      simp only [syncAux, onSyncStart] <;>
      split_ifs <;>
      simp_all [stateAfter, onSyncEnd, refreshHeights_notifyBlocks] <;>
      simp [refreshHeights, List.filterMap_append]
  · intro h
    by_cases hs : w.syncStartHeight = none ∧ w.syncEndHeight = none
    · obtain ⟨h1, h2⟩ := hs
      cases hc : getChainHeight w.isConnected e with
      | ok c => exact absurd ⟨h1, h2, c, hc⟩ h
      | error msg =>
        simp only [syncAux, onSyncStart]
        split_ifs <;> simp_all [okValue, stateAfter]
    · have hs' : w.syncStartHeight ≠ none ∨ w.syncEndHeight ≠ none := by
        by_contra hc
        push_neg at hc
        exact hs hc
      simp only [syncAux, onSyncStart]
      split_ifs <;> simp_all [okValue, stateAfter]

/-- C20: the amended statement at wallet height 20 and restore height 10, with requested
start height 5 (the refresh starts at 5) and with none (it starts at 20). -/
theorem syncAux_start_height_witness :
    refreshHeights (stateAfter (syncAux { isConnected := true, height := 20, restoreHeight := 10 }
      {} (some 5) false)).log = [5] ∧
    refreshHeights (stateAfter (syncAux { isConnected := true, height := 20, restoreHeight := 10 }
      {} none false)).log = [20] :=
  ⟨(syncAux_start_height { isConnected := true, height := 20, restoreHeight := 10 } {} (some 5)
      false).1 rfl rfl ⟨0, rfl⟩,
   (syncAux_start_height { isConnected := true, height := 20, restoreHeight := 10 } {} none
      false).1 rfl rfl ⟨0, rfl⟩⟩

/-- A block notification leaves the restore height as it is. -/
theorem on_new_block_restoreHeight (w : SyncWallet) (height : Nat) :
    (on_new_block w height).restoreHeight = w.restoreHeight := by
  unfold on_new_block
  by_cases hl : w.listener = true <;> cases hst : w.syncStartHeight <;> simp [hl, hst] <;>
    split <;> rfl

/-- Block notifications leave the restore height as it is. -/
theorem notifyBlocks_restoreHeight (blocks : List Nat) (w : SyncWallet) :
    (notifyBlocks w blocks).restoreHeight = w.restoreHeight := by
  have hfold : ∀ (bs : List Nat) (v : SyncWallet),
      (bs.foldl on_new_block v).restoreHeight = v.restoreHeight := by
    intro bs
    induction bs with
    | nil => intro v; rfl
    | cons b bs ih =>
      intro v
      rw [List.foldl_cons, ih, on_new_block_restoreHeight]
  unfold notifyBlocks
  split
  · exact hfold blocks w
  · rfl

/-- C21: `syncAux` never raises the restore height. With `s` the start height it computes
(the requested one, or max(wallet height, restore height) when none is requested), the
restore height after `syncAux`, whether it returns or throws, is min(old restore height,
`s`): it is `s` when `s` is strictly earlier, the old one otherwise, and the old one
whenever no start height was requested. -/
theorem syncAux_restoreHeight (w : SyncWallet) (e : SyncSubstrate) (startHeight : Option Nat)
    (listener : Bool) :
    (stateAfter (syncAux w e startHeight listener)).restoreHeight =
      min w.restoreHeight (startHeight.getD (max w.height w.restoreHeight)) ∧
    (stateAfter (syncAux w e startHeight listener)).restoreHeight ≤ w.restoreHeight ∧
    (∀ s, startHeight = some s → s < w.restoreHeight →
      (stateAfter (syncAux w e startHeight listener)).restoreHeight = s) ∧
    (∀ s, startHeight = some s → w.restoreHeight ≤ s →
      (stateAfter (syncAux w e startHeight listener)).restoreHeight = w.restoreHeight) ∧
    (startHeight = none →
      (stateAfter (syncAux w e startHeight listener)).restoreHeight = w.restoreHeight) := by
  have key : (stateAfter (syncAux w e startHeight listener)).restoreHeight =
      min w.restoreHeight (startHeight.getD (max w.height w.restoreHeight)) := by
    cases hf : (e.refresh (match startHeight with
        | none => max w.height w.restoreHeight
        | some s => s)).failure <;>
      cases hc : getChainHeight w.isConnected e <;>
      cases startHeight <;>
      simp only [syncAux, onSyncStart] <;>
      split_ifs <;>
      simp_all [stateAfter, onSyncEnd, notifyBlocks_restoreHeight] <;>
      omega
  refine ⟨key, ?_, ?_, ?_, ?_⟩
  · rw [key]; exact Nat.min_le_left _ _
  · intro s hs hlt
    rw [key, hs]
    simp only [Option.getD_some]
    omega
  · intro s hs hle
    rw [key, hs]
    simp only [Option.getD_some]
    omega
  · intro hs
    rw [key, hs]
    simp only [Option.getD_none]
    omega

/-- A block notification only appends to the log. -/
theorem on_new_block_extends (w : SyncWallet) (height : Nat) :
    w.log <+: (on_new_block w height).log := by
  unfold on_new_block
  by_cases hl : w.listener = true <;> by_cases hs : w.syncListener = true <;>
    cases hst : w.syncStartHeight <;> simp [hl, hs, hst] <;>
    split <;> simp

/-- A block notification logs no rescan. -/
theorem on_new_block_rescanCount (w : SyncWallet) (height : Nat) :
    rescanCount (on_new_block w height).log = rescanCount w.log := by
  unfold on_new_block
  by_cases hl : w.listener = true <;> by_cases hs : w.syncListener = true <;>
    cases hst : w.syncStartHeight <;> simp [hl, hs, hst, rescanCount, List.count_append] <;>
    split <;> simp [List.count_append, List.count_cons]

/-- Block notifications only append to the log, and no rescan. -/
theorem notifyBlocks_log (blocks : List Nat) (w : SyncWallet) :
    w.log <+: (notifyBlocks w blocks).log ∧
      rescanCount (notifyBlocks w blocks).log = rescanCount w.log := by
  have hfold : ∀ (bs : List Nat) (v : SyncWallet),
      v.log <+: (bs.foldl on_new_block v).log ∧
        rescanCount (bs.foldl on_new_block v).log = rescanCount v.log := by
    intro bs
    induction bs with
    | nil => intro v; exact ⟨List.prefix_rfl, rfl⟩
    | cons b bs ih =>
      intro v
      rw [List.foldl_cons]
      exact ⟨(on_new_block_extends v b).trans (ih _).1,
        (ih _).2.trans (on_new_block_rescanCount v b)⟩
  unfold notifyBlocks
  split
  · exact hfold blocks w
  · exact ⟨List.prefix_rfl, rfl⟩

/-- The function `syncAux` only appends to the log, and no rescan, whether it returns or
throws. -/
theorem syncAux_log (w : SyncWallet) (e : SyncSubstrate) (startHeight : Option Nat)
    (listener : Bool) :
    w.log <+: (stateAfter (syncAux w e startHeight listener)).log ∧
      rescanCount (stateAfter (syncAux w e startHeight listener)).log = rescanCount w.log := by
  have step : ∀ (v : SyncWallet) (s : Nat) (bs : List Nat),
      v.log = w.log ++ [SyncEvent.refresh s] →
      w.log <+: (notifyBlocks v bs).log ∧
      rescanCount (notifyBlocks v bs).log = rescanCount w.log := by
    intro v s bs hv
    obtain ⟨hp, hc⟩ := notifyBlocks_log bs v
    refine ⟨List.IsPrefix.trans ?_ hp, hc.trans ?_⟩
    · simp [hv]
    · simp [hv, rescanCount, List.count_append]
  cases hf : (e.refresh (match startHeight with
      | none => max w.height w.restoreHeight
      | some s => s)).failure <;>
    cases hc : getChainHeight w.isConnected e <;>
    cases startHeight <;>
    simp only [syncAux, onSyncStart] <;>
    split_ifs <;>
    simp_all [stateAfter, onSyncEnd]

/-- One sync cycle only appends to the log. When it is a rescan cycle that is not skipped
(`rescan` holds, the wallet is connected and the daemon is synced) the first event it logs
is the rescan, and it logs no other rescan; any other cycle logs no rescan. -/
theorem syncCycle_log (w : SyncWallet) (e : SyncSubstrate) (rescan : Bool)
    (startHeight : Option Nat) (listener : Bool) (result : MoneroSyncResult) :
    (rescan = true ∧ w.isConnected = true ∧ getIsDaemonSynced w.isConnected e = .ok true ∧
      (w.log ++ [SyncEvent.rescanBlockchain]) <+:
        (stateAfter (syncCycle w e rescan startHeight listener result)).log ∧
      rescanCount (stateAfter (syncCycle w e rescan startHeight listener result)).log =
        rescanCount w.log + 1) ∨
    (¬ (rescan = true ∧ w.isConnected = true ∧ getIsDaemonSynced w.isConnected e = .ok true) ∧
      w.log <+: (stateAfter (syncCycle w e rescan startHeight listener result)).log ∧
      rescanCount (stateAfter (syncCycle w e rescan startHeight listener result)).log =
        rescanCount w.log) := by
  -- what `syncAux` and the ring search add after the state `v`
  have tail : ∀ (v : SyncWallet) (base : List SyncEvent) (n : Nat), base <+: v.log →
      rescanCount v.log = n →
      base <+: (stateAfter (match syncAux v e startHeight listener with
        | .error err => (.error err : SyncStep MoneroSyncResult)
        | .ok (r, w2) =>
          match e.ringsFailure with
          | some msg => .error (msg, { w2 with log := w2.log ++ [SyncEvent.findAndSaveRings] })
          | none =>
            .ok (r, { w2 with
              rescanOnSync := w2.rescanOnSync || e.rescanRequested
              log := w2.log ++ [SyncEvent.findAndSaveRings] }))).log ∧
      rescanCount (stateAfter (match syncAux v e startHeight listener with
        | .error err => (.error err : SyncStep MoneroSyncResult)
        | .ok (r, w2) =>
          match e.ringsFailure with
          | some msg => .error (msg, { w2 with log := w2.log ++ [SyncEvent.findAndSaveRings] })
          | none =>
            .ok (r, { w2 with
              rescanOnSync := w2.rescanOnSync || e.rescanRequested
              log := w2.log ++ [SyncEvent.findAndSaveRings] }))).log = n := by
    intro v base n hbase hn
    obtain ⟨hp, hc⟩ := syncAux_log v e startHeight listener
    cases hs : syncAux v e startHeight listener with
    | error err =>
      obtain ⟨msg, v1⟩ := err
      rw [hs] at hp hc
      simp only [stateAfter] at hp hc ⊢
      exact ⟨hbase.trans hp, hc.trans hn⟩
    | ok p =>
      obtain ⟨r, w2⟩ := p
      rw [hs] at hp hc
      simp only [stateAfter] at hp hc
      cases e.ringsFailure <;> simp only [stateAfter] <;>
        exact ⟨(hbase.trans hp).trans (List.prefix_append _ _),
          by simp [rescanCount, List.count_append] at hc hn ⊢; omega⟩
  obtain ⟨isConnected, isSynced, rescanOnSync, height, restoreHeight, wl, sl, ss, se, log⟩ := w
  unfold syncCycle
  cases isConnected
  · right
    simp [stateAfter]
  · dsimp only [Bool.not_true]
    cases hsync : getIsDaemonSynced true e with
    | error msg =>
      right
      simp [stateAfter]
    | ok b =>
      cases b
      · right
        simp [stateAfter]
      · cases rescan
        · right
          simp only [Bool.false_eq_true, if_false, false_and, not_false_eq_true, true_and]
          exact tail _ log _ List.prefix_rfl rfl
        · left
          refine ⟨rfl, rfl, rfl, ?_⟩
          simp only [Bool.false_eq_true, if_false, if_true]
          obtain ⟨hp, hc⟩ := notifyBlocks_log e.rescanBlocks
            { isConnected := true, isSynced := isSynced, rescanOnSync := rescanOnSync,
              height := height, restoreHeight := restoreHeight, listener := wl,
              syncListener := sl, syncStartHeight := ss, syncEndHeight := se,
              log := log ++ [SyncEvent.rescanBlockchain] }
          cases e.rescanFailure with
          | some msg =>
            simp only [stateAfter]
            exact ⟨hp, by simp [rescanCount, List.count_append] at hc ⊢; omega⟩
          | none =>
            simp only []
            refine tail _ _ _ hp ?_
            simp [rescanCount, List.count_append] at hc ⊢
            omega

/-- C22: no double rescan. The loop of `lockAndSync`, given any bound of at least two
cycles, ends with the outcome of `lockAndSync` after at most two cycles, of which at most
one has `rescan` set; it runs a second cycle exactly when the first cycle was not a
rescan cycle (the flag was clear at entry) and the flag is set at the end of that cycle;
and the whole call logs at most one blockchain rescan. The flag at the end of the first
cycle is whatever the substrate state `env 0` makes it. -/
theorem lockAndSync_cycles (w : SyncWallet) (env : Nat → SyncSubstrate)
    (startHeight : Option Nat) (listener : Bool) (fuel : Nat) :
    ∃ cycles,
      syncLoop env startHeight listener (fuel + 2) 0 { w with rescanOnSync := false }
        w.rescanOnSync {} = some (lockAndSync w env startHeight listener, cycles) ∧
      cycles.length ≤ 2 ∧ cycles.count true ≤ 1 ∧
      (cycles.length = 2 ↔
        (w.rescanOnSync = false ∧
          ∃ r w1, syncCycle { w with rescanOnSync := false } (env 0) false startHeight listener {}
            = .ok (r, w1) ∧ w1.rescanOnSync = true)) ∧
      rescanCount (stateAfter (lockAndSync w env startHeight listener)).log ≤
        rescanCount w.log + 1 := by
  have hc0 := syncCycle_log { w with rescanOnSync := false } (env 0) w.rescanOnSync startHeight
    listener {}
  cases hr : w.rescanOnSync
  · -- the first cycle is not a rescan cycle
    rw [hr] at hc0
    cases h0 : syncCycle { w with rescanOnSync := false } (env 0) false startHeight listener {} with
    | error err =>
      refine ⟨[false], ?_, by simp, by simp, ?_, ?_⟩
      · simp [syncLoop, lockAndSync, hr, h0]
      · constructor
        · intro h
          exact absurd h (by decide)
        · rintro ⟨_, r, w1, h, _⟩
          exact absurd h (by simp)
      · rw [h0] at hc0
        rcases hc0 with ⟨h, _⟩ | ⟨_, _, hcount⟩
        · exact absurd h (by simp)
        · simp only [lockAndSync, hr, h0]
          obtain ⟨msg, v⟩ := err
          simp only [stateAfter] at hcount ⊢
          omega
    | ok p =>
      obtain ⟨r, w1⟩ := p
      rw [h0] at hc0
      have hcount0 : rescanCount w1.log = rescanCount w.log := by
        rcases hc0 with ⟨h, _⟩ | ⟨_, _, hcount⟩
        · exact absurd h (by simp)
        · simpa [stateAfter] using hcount
      cases hflag : w1.rescanOnSync
      · refine ⟨[false], ?_, by simp, by simp, ?_, ?_⟩
        · simp [syncLoop, lockAndSync, hr, h0, hflag]
        · constructor
          · intro h
            exact absurd h (by decide)
          · rintro ⟨_, r2, w2, h, hset⟩
            simp only [Except.ok.injEq, Prod.mk.injEq] at h
            rw [← h.2, hflag] at hset
            exact absurd hset (by decide)
        · simp only [lockAndSync, hr, h0, hflag]
          simp only [Bool.false_eq_true, if_false, stateAfter]
          omega
      · have hc1 := syncCycle_log { w1 with rescanOnSync := false } (env 1) true startHeight
          listener r
        refine ⟨[false, true], ?_, by simp, by simp, ?_, ?_⟩
        · simp only [syncLoop, lockAndSync, hr, h0, hflag]
          cases syncCycle { w1 with rescanOnSync := false } (env 1) true startHeight listener r
            <;> simp
        · exact ⟨fun _ => ⟨rfl, r, w1, rfl, hflag⟩, fun _ => rfl⟩
        · simp only [lockAndSync, hr, h0, hflag]
          simp only [Bool.false_eq_true, if_false, if_true]
          rcases hc1 with ⟨_, _, _, _, hcount⟩ | ⟨_, _, hcount⟩ <;>
            simp only [] at hcount <;> omega
  · -- the first cycle is a rescan cycle: the loop ends after it
    rw [hr] at hc0
    have hcount0 : rescanCount (stateAfter (syncCycle { w with rescanOnSync := false } (env 0)
        true startHeight listener {})).log ≤ rescanCount w.log + 1 := by
      rcases hc0 with ⟨_, _, _, _, hcount⟩ | ⟨_, _, hcount⟩ <;>
        simp only [] at hcount <;> omega
    cases h0 : syncCycle { w with rescanOnSync := false } (env 0) true startHeight listener {} with
    | error err =>
      refine ⟨[true], ?_, by simp, by simp, ?_, ?_⟩
      · simp [syncLoop, lockAndSync, hr, h0]
      · simp
      · rw [h0] at hcount0
        simpa [lockAndSync, hr, h0] using hcount0
    | ok p =>
      obtain ⟨r, w1⟩ := p
      refine ⟨[true], ?_, by simp, by simp, ?_, ?_⟩
      · simp [syncLoop, lockAndSync, hr, h0]
      · simp
      · rw [h0] at hcount0
        simpa [lockAndSync, hr, h0] using hcount0

/-- C23 (as stated, refuted): a connected wallet with the rescan flag set, whose daemon is
not synced (height 5, target 10): `lockAndSync` clears the flag and returns, and so does
`rescanBlockchain`, with no blockchain rescan in the log. -/
theorem lockAndSync_drops_rescan_request :
    okValue (lockAndSync { isConnected := true, rescanOnSync := true }
      (fun _ => { daemonHeight := 5, daemonTargetHeight := 10 }) none false)
      = some ({}, { isConnected := true, rescanOnSync := false, log := [] }) ∧
    okValue (rescanBlockchain { isConnected := true }
      (fun _ => { daemonHeight := 5, daemonTargetHeight := 10 }))
      = some ((), { isConnected := true, rescanOnSync := false, log := [] }) := by
  decide

/-- C23 (amended): a rescan request is honored when the cycle that follows is not
skipped. When `lockAndSync` clears a set flag at entry, or at the end of a first cycle
that returns, and in the cycle that follows the wallet is connected and the daemon is
synced, the first thing that cycle does is the blockchain rescan, and it is the only
rescan of the call. When the flag is cleared at entry and the cycle is skipped (wallet
not connected or daemon not synced), the call returns with the flag cleared and nothing
logged. -/
theorem lockAndSync_honors_rescan (w : SyncWallet) (env : Nat → SyncSubstrate)
    (startHeight : Option Nat) (listener : Bool) :
    (w.rescanOnSync = true → w.isConnected = true →
      getIsDaemonSynced w.isConnected (env 0) = .ok true →
      (w.log ++ [SyncEvent.rescanBlockchain]) <+:
        (stateAfter (lockAndSync w env startHeight listener)).log ∧
      rescanCount (stateAfter (lockAndSync w env startHeight listener)).log =
        rescanCount w.log + 1) ∧
    (∀ r w1, w.rescanOnSync = false →
      syncCycle { w with rescanOnSync := false } (env 0) false startHeight listener {}
        = .ok (r, w1) →
      w1.rescanOnSync = true → w1.isConnected = true →
      getIsDaemonSynced w1.isConnected (env 1) = .ok true →
      (w1.log ++ [SyncEvent.rescanBlockchain]) <+:
        (stateAfter (lockAndSync w env startHeight listener)).log ∧
      rescanCount (stateAfter (lockAndSync w env startHeight listener)).log =
        rescanCount w.log + 1) ∧
    (w.rescanOnSync = true →
      (w.isConnected = false ∨ getIsDaemonSynced w.isConnected (env 0) = .ok false) →
      lockAndSync w env startHeight listener =
        .ok ({}, { w with rescanOnSync := (env 0).rescanRequested })) := by
  refine ⟨?_, ?_, ?_⟩
  · intro hr hcon hsync
    have hrun : lockAndSync w env startHeight listener =
        syncCycle { w with rescanOnSync := false } (env 0) true startHeight listener {} := by
      simp only [lockAndSync, hr]
      cases syncCycle { w with rescanOnSync := false } (env 0) true startHeight listener {} <;>
        simp
    rw [hrun]
    rcases syncCycle_log { w with rescanOnSync := false } (env 0) true startHeight listener {}
      with ⟨_, _, _, hp, hc⟩ | ⟨hnot, _⟩
    · exact ⟨hp, hc⟩
    · exact absurd ⟨rfl, hcon, hsync⟩ hnot
  · intro r w1 hr h0 hflag hcon hsync
    have hrun : lockAndSync w env startHeight listener =
        syncCycle { w1 with rescanOnSync := false } (env 1) true startHeight listener r := by
      simp only [lockAndSync, hr, h0, hflag]
      simp
    have hcount0 : rescanCount w1.log = rescanCount w.log := by
      rcases syncCycle_log { w with rescanOnSync := false } (env 0) false startHeight listener {}
        with ⟨h, _⟩ | ⟨_, _, hcount⟩
      · exact absurd h (by decide)
      · rw [h0] at hcount
        exact hcount
    rw [hrun]
    rcases syncCycle_log { w1 with rescanOnSync := false } (env 1) true startHeight listener r
      with ⟨_, _, _, hp, hc⟩ | ⟨hnot, _⟩
    · exact ⟨hp, hc.trans (by rw [← hcount0])⟩
    · exact absurd ⟨rfl, hcon, hsync⟩ hnot
  · intro hr hskip
    rcases hskip with hcon | hsync
    · simp [lockAndSync, syncCycle, hr, hcon]
    · by_cases hcon : w.isConnected = true
      · rw [hcon] at hsync
        simp [lockAndSync, syncCycle, hr, hcon, hsync]
      · simp [lockAndSync, syncCycle, hr, hcon]

/-- C23: the amended statement at a connected wallet with the rescan flag set whose daemon
is synced (height 10, target 10): the rescan is the first event of the call. -/
theorem lockAndSync_honors_rescan_witness :
    ([] ++ [SyncEvent.rescanBlockchain]) <+:
      (stateAfter (lockAndSync { isConnected := true, rescanOnSync := true }
        (fun _ => { daemonHeight := 10, daemonTargetHeight := 10 }) none false)).log ∧
    rescanCount (stateAfter (lockAndSync { isConnected := true, rescanOnSync := true }
        (fun _ => { daemonHeight := 10, daemonTargetHeight := 10 }) none false)).log = 0 + 1 :=
  (lockAndSync_honors_rescan { isConnected := true, rescanOnSync := true }
    (fun _ => { daemonHeight := 10, daemonTargetHeight := 10 }) none false).1 rfl rfl rfl

/-- A 64-bit sum that fits is the sum. -/
theorem add64_of_lt (a b : Nat) (h : a + b < 2 ^ 64) : add64 a b = a + b := by
  simp only [add64, U64]
  exact Nat.mod_eq_of_lt h

/-- A 64-bit difference of 64-bit values that does not go below 0 is the difference. -/
theorem sub64_of_le (a b : Nat) (hba : b ≤ a) (ha : a < 2 ^ 64) : sub64 a b = a - b := by
  simp only [sub64, U64]
  norm_num
  omega

/-- The 64-bit arithmetic of a progress notification when nothing wraps: the extended end
height, the numerator and the denominator. -/
theorem progress_arith (h s e : Nat) (hge : s ≤ h) (hrep : h + 1 < 2 ^ 64) (he64 : e < 2 ^ 64) :
    (if h ≥ e then add64 h 1 else e) = max e (h + 1) ∧
    add64 (sub64 h s) 1 = h - s + 1 ∧
    sub64 (max e (h + 1)) s = max e (h + 1) - s := by
  refine ⟨?_, ?_, ?_⟩
  · rw [add64_of_lt h 1 hrep]
    split <;> omega
  · rw [sub64_of_le h s hge (by omega), add64_of_lt _ _ (by omega)]
  · apply sub64_of_le
    · omega
    · omega

/-! ### Double precision -/

theorem roundHalfEven_bounds (q : ℚ) : ⌊q⌋ ≤ roundHalfEven q ∧ roundHalfEven q ≤ ⌊q⌋ + 1 := by
  unfold roundHalfEven
  split_ifs <;> omega

theorem roundHalfEven_intCast (k : ℤ) : roundHalfEven (k : ℚ) = k := by
  unfold roundHalfEven
  simp

theorem roundHalfEven_mono {q1 q2 : ℚ} (h : q1 ≤ q2) : roundHalfEven q1 ≤ roundHalfEven q2 := by
  have hf : ⌊q1⌋ ≤ ⌊q2⌋ := Int.floor_mono h
  rcases lt_or_eq_of_le hf with hlt | heq
  · have h1 := (roundHalfEven_bounds q1).2
    have h2 := (roundHalfEven_bounds q2).1
    omega
  · unfold roundHalfEven
    rw [heq] at *
    split_ifs <;> first | omega | (exfalso; linarith)

/-- For a positive `x` the significand lies between `2 ^ 52` and `2 ^ 53`. -/
theorem significand_bounds {x : ℚ} (hx : 0 < x) :
    (2 : ℚ) ^ (52 : ℤ) ≤ x / (2 : ℚ) ^ (Int.log 2 x - 52) ∧
      x / (2 : ℚ) ^ (Int.log 2 x - 52) < (2 : ℚ) ^ (53 : ℤ) := by
  have h2 : (0 : ℚ) < 2 := by norm_num
  have hu : (0 : ℚ) < (2 : ℚ) ^ (Int.log 2 x - 52) := zpow_pos h2 _
  have hlo : ((2 : ℕ) : ℚ) ^ Int.log 2 x ≤ x := Int.zpow_log_le_self (by norm_num) hx
  have hhi : x < ((2 : ℕ) : ℚ) ^ (Int.log 2 x + 1) := Int.lt_zpow_succ_log_self (by norm_num) x
  simp only [Nat.cast_ofNat] at hlo hhi
  constructor
  · rw [le_div_iff₀ hu, ← zpow_add₀ (by norm_num : (2 : ℚ) ≠ 0)]
    have : (52 : ℤ) + (Int.log 2 x - 52) = Int.log 2 x := by ring
    rw [this]
    exact hlo
  · rw [div_lt_iff₀ hu, ← zpow_add₀ (by norm_num : (2 : ℚ) ≠ 0)]
    have : (53 : ℤ) + (Int.log 2 x - 52) = Int.log 2 x + 1 := by ring
    rw [this]
    exact hhi

/-- The rounded significand lies between `2 ^ 52` and `2 ^ 53`. -/
theorem roundedSignificand_bounds {x : ℚ} (hx : 0 < x) :
    (2 : ℚ) ^ (52 : ℤ) ≤ (roundHalfEven (x / (2 : ℚ) ^ (Int.log 2 x - 52)) : ℚ) ∧
      (roundHalfEven (x / (2 : ℚ) ^ (Int.log 2 x - 52)) : ℚ) ≤ (2 : ℚ) ^ (53 : ℤ) := by
  obtain ⟨hlo, hhi⟩ := significand_bounds hx
  have e52 : (2 : ℚ) ^ (52 : ℤ) = ((2 ^ 52 : ℤ) : ℚ) := by norm_num
  have e53 : (2 : ℚ) ^ (53 : ℤ) = ((2 ^ 53 : ℤ) : ℚ) := by norm_num
  constructor
  · rw [e52] at hlo ⊢
    have := roundHalfEven_mono hlo
    rw [roundHalfEven_intCast] at this
    exact_mod_cast this
  · rw [e53] at hhi ⊢
    have := roundHalfEven_mono hhi.le
    rw [roundHalfEven_intCast] at this
    exact_mod_cast this

/-- A positive value rounds into its binade, `2 ^ e ≤ roundToDouble x ≤ 2 ^ (e + 1)`. -/
theorem roundToDouble_bounds {x : ℚ} (hx : 0 < x) :
    (2 : ℚ) ^ Int.log 2 x ≤ roundToDouble x ∧ roundToDouble x ≤ (2 : ℚ) ^ (Int.log 2 x + 1) := by
  have h2 : (0 : ℚ) < 2 := by norm_num
  have hu : (0 : ℚ) < (2 : ℚ) ^ (Int.log 2 x - 52) := zpow_pos h2 _
  obtain ⟨hlo, hhi⟩ := roundedSignificand_bounds hx
  unfold roundToDouble
  rw [if_neg (not_le.mpr hx)]
  constructor
  · have : (2 : ℚ) ^ Int.log 2 x = (2 : ℚ) ^ (52 : ℤ) * (2 : ℚ) ^ (Int.log 2 x - 52) := by
      rw [← zpow_add₀ (by norm_num : (2 : ℚ) ≠ 0)]
      congr 1
      ring
    rw [this]
    exact mul_le_mul_of_nonneg_right hlo hu.le
  · have : (2 : ℚ) ^ (Int.log 2 x + 1) = (2 : ℚ) ^ (53 : ℤ) * (2 : ℚ) ^ (Int.log 2 x - 52) := by
      rw [← zpow_add₀ (by norm_num : (2 : ℚ) ≠ 0)]
      congr 1
      ring
    rw [this]
    exact mul_le_mul_of_nonneg_right hhi hu.le

theorem roundToDouble_pos {x : ℚ} (hx : 0 < x) : 0 < roundToDouble x :=
  lt_of_lt_of_le (zpow_pos (by norm_num) _) (roundToDouble_bounds hx).1

/-- Rounding to a double keeps the order. -/
theorem roundToDouble_mono {x y : ℚ} (hx : 0 < x) (hxy : x ≤ y) :
    roundToDouble x ≤ roundToDouble y := by
  have hy : 0 < y := lt_of_lt_of_le hx hxy
  have hlog : Int.log 2 x ≤ Int.log 2 y := Int.log_mono_right hx hxy
  rcases lt_or_eq_of_le hlog with hlt | heq
  · have h1 := (roundToDouble_bounds hx).2
    have h2 := (roundToDouble_bounds hy).1
    have h3 : (2 : ℚ) ^ (Int.log 2 x + 1) ≤ (2 : ℚ) ^ Int.log 2 y :=
      zpow_le_zpow_right₀ (by norm_num) (by omega)
    linarith
  · have hu : (0 : ℚ) < (2 : ℚ) ^ (Int.log 2 y - 52) := zpow_pos (by norm_num) _
    unfold roundToDouble
    rw [if_neg (not_le.mpr hx), if_neg (not_le.mpr hy), heq]
    apply mul_le_mul_of_nonneg_right _ hu.le
    have : x / (2 : ℚ) ^ (Int.log 2 y - 52) ≤ y / (2 : ℚ) ^ (Int.log 2 y - 52) :=
      div_le_div_of_nonneg_right hxy hu.le
    exact_mod_cast roundHalfEven_mono this

/-- A positive integer below `2 ^ 53` is a double. -/
theorem toDouble_exact (n : Nat) (hn : n < 2 ^ 53) : toDouble n = n := by
  unfold toDouble
  rcases Nat.eq_zero_or_pos n with h0 | hpos
  · subst h0
    simp [roundToDouble]
  · have hx : (0 : ℚ) < (n : ℚ) := by exact_mod_cast hpos
    have hlog : Int.log 2 (n : ℚ) = (Nat.log 2 n : ℤ) := Int.log_natCast 2 n
    have hle : Nat.log 2 n ≤ 52 := by
      have : Nat.log 2 n < 53 := Nat.log_lt_of_lt_pow (by omega) hn
      omega
    obtain ⟨k, hk⟩ : ∃ k : ℕ, Nat.log 2 n + k = 52 := ⟨52 - Nat.log 2 n, by omega⟩
    have hexp : (Nat.log 2 n : ℤ) - 52 = -(k : ℤ) := by omega
    unfold roundToDouble
    rw [if_neg (not_le.mpr hx), hlog, hexp, zpow_neg, zpow_natCast, div_inv_eq_mul]
    have hint : (n : ℚ) * (2 : ℚ) ^ k = (((n * 2 ^ k : ℕ) : ℤ) : ℚ) := by push_cast; ring
    rw [hint, roundHalfEven_intCast]
    push_cast
    field_simp

/-- The double quotient of two counts `0 < n ≤ d` lies in `(0, 1]`. -/
theorem doubleDiv_in_range (n d : Nat) (hn : 0 < n) (hnd : n ≤ d) :
    0 < doubleDiv (toDouble n) (toDouble d) ∧ doubleDiv (toDouble n) (toDouble d) ≤ 1 := by
  have hxn : (0 : ℚ) < (n : ℚ) := by exact_mod_cast hn
  have hxd : (n : ℚ) ≤ (d : ℚ) := by exact_mod_cast hnd
  have ha : 0 < toDouble n := roundToDouble_pos hxn
  have hab : toDouble n ≤ toDouble d := roundToDouble_mono hxn hxd
  have hb : 0 < toDouble d := lt_of_lt_of_le ha hab
  have hq : 0 < toDouble n / toDouble d := div_pos ha hb
  have hq1 : toDouble n / toDouble d ≤ 1 := (div_le_one hb).mpr hab
  have hone : roundToDouble 1 = 1 := by
    have := toDouble_exact 1 (by norm_num)
    simpa [toDouble] using this
  refine ⟨roundToDouble_pos hq, ?_⟩
  have := roundToDouble_mono hq hq1
  rw [hone] at this
  exact this

/-- The double nearest to 1 / 3. -/
theorem roundToDouble_one_third :
    roundToDouble (1 / 3) = 6004799503160661 / 18014398509481984 := by
  have hlog : Int.log 2 (1 / 3 : ℚ) = -2 := by
    apply le_antisymm
    · have : Int.log 2 (1 / 3 : ℚ) < -1 := by
        rw [← Int.lt_zpow_iff_log_lt (by norm_num) (by norm_num)]
        norm_num
      omega
    · rw [← Int.zpow_le_iff_le_log (by norm_num) (by norm_num)]
      norm_num
  have hfloor : ⌊(18014398509481984 / 3 : ℚ)⌋ = 6004799503160661 := by
    rw [Int.floor_eq_iff]
    constructor <;> norm_num
  have hsig : (1 / 3 : ℚ) / (2 : ℚ) ^ ((-2 : ℤ) - 52) = 18014398509481984 / 3 := by
    norm_num
  have hround : roundHalfEven (18014398509481984 / 3 : ℚ) = 6004799503160661 := by
    unfold roundHalfEven
    rw [hfloor]
    norm_num
  unfold roundToDouble
  rw [if_neg (by norm_num), hlog, hsig, hround]
  norm_num

/-! ### Progress notifications -/

/-- C24 (as stated, refuted): the first block of a sync from 0 to 3 with a wallet listener.
The listener is given height 0, start 0, end 3 and, as `percentDone`, the double quotient
of 1 and 3, which is 6004799503160661 / 2 ^ 54 and not the exact ratio 1 / 3. (And at the
last 64-bit height, `2 ^ 64 - 1`, which no chain reaches, `h + 1` wraps: the end height
becomes 0 and not `max(e, h + 1)`; this is why the amended statement takes `h + 1`
representable.) -/
theorem on_new_block_reports_a_double :
    (on_new_block { listener := true, syncStartHeight := some 0, syncEndHeight := some 3 } 0).log =
      [SyncEvent.onNewBlock 0, SyncEvent.onSyncProgress false 0 0 3 1 3] ∧
    (SyncEvent.onSyncProgress false 0 0 3 1 3).percentDone =
      some (6004799503160661 / 18014398509481984) ∧
    (6004799503160661 / 18014398509481984 : ℚ) ≠ 1 / 3 ∧
    (on_new_block { listener := true, syncStartHeight := some 0, syncEndHeight := some 10 }
      18446744073709551615).syncEndHeight = some 0 ∧
    max 10 (18446744073709551615 + 1) ≠ 0 := by
  refine ⟨by decide, ?_, by norm_num, by decide, by decide⟩
  have h1 : toDouble 1 = 1 := by simpa using toDouble_exact 1 (by norm_num)
  have h3 : toDouble 3 = 3 := by simpa using toDouble_exact 3 (by norm_num)
  simp only [SyncEvent.percentDone, doubleDiv, h1, h3]
  rw [if_neg (by norm_num), roundToDouble_one_third]

/-- C24 (amended): for a block of height `h` observed while the start height is `s` and
the end height is `e` (64-bit values), with `h >= s` and `h + 1` representable in 64 bits,
the listener sets the end height to `e' = max(e, h + 1)` and reports as `percentDone` the
double quotient `(double) (h - s + 1) / (double) (e' - s)`, with the same height, start,
end and `percentDone` to the wallet listener (after its `onNewBlock`) and to the listener
of the call, each when it is set. When `h + 1` and `e` are below `2 ^ 53` the two counts
are doubles, and `percentDone` is the double nearest to the exact ratio. -/
theorem on_new_block_progress (w : SyncWallet) (h s e : Nat)
    (hs : w.syncStartHeight = some s) (he : w.syncEndHeight = some e)
    (hge : s ≤ h) (hrep : h + 1 < 2 ^ 64) (he64 : e < 2 ^ 64) :
    (on_new_block w h).syncEndHeight = some (max e (h + 1)) ∧
    (on_new_block w h).log =
      w.log ++
        (if w.listener then
          [SyncEvent.onNewBlock h,
           SyncEvent.onSyncProgress false h s (max e (h + 1)) (h - s + 1) (max e (h + 1) - s)]
         else []) ++
        (if w.syncListener then
          [SyncEvent.onSyncProgress true h s (max e (h + 1)) (h - s + 1) (max e (h + 1) - s)]
         else []) ∧
    (∀ toSync,
      (SyncEvent.onSyncProgress toSync h s (max e (h + 1)) (h - s + 1)
        (max e (h + 1) - s)).percentDone =
        some (doubleDiv (toDouble (h - s + 1)) (toDouble (max e (h + 1) - s)))) ∧
    (h + 1 < 2 ^ 53 → e < 2 ^ 53 →
      doubleDiv (toDouble (h - s + 1)) (toDouble (max e (h + 1) - s)) =
        roundToDouble (((h - s + 1 : ℕ) : ℚ) / ((max e (h + 1) - s : ℕ) : ℚ))) := by
  obtain ⟨hend, hnum, hden⟩ := progress_arith h s e hge hrep he64
  refine ⟨?_, ?_, ?_, ?_⟩
  · unfold on_new_block
    cases hl : w.listener <;> cases hsl : w.syncListener <;>
      simp [hs, he, hge, hend, hnum, hden, hl, hsl]
  · unfold on_new_block
    cases hl : w.listener <;> cases hsl : w.syncListener <;>
      simp [hs, he, hge, hend, hnum, hden, hl, hsl]
  · intro toSync
    have hd : max e (h + 1) - s ≠ 0 := by omega
    simp only [SyncEvent.percentDone, hd, if_false]
  · intro h53 e53
    rw [doubleDiv, toDouble_exact _ (by omega), toDouble_exact _ (by omega)]

/-- C24: the amended statement for block 7 of a sync from 5 to 10 with both listeners
set. -/
theorem on_new_block_progress_witness :
    (on_new_block
      { listener := true, syncListener := true, syncStartHeight := some 5, syncEndHeight := some 10 }
      7).syncEndHeight = some 10 ∧
    (on_new_block
      { listener := true, syncListener := true, syncStartHeight := some 5, syncEndHeight := some 10 }
      7).log =
      [] ++ [SyncEvent.onNewBlock 7, SyncEvent.onSyncProgress false 7 5 10 3 5] ++
        [SyncEvent.onSyncProgress true 7 5 10 3 5] ∧
    (∀ toSync, (SyncEvent.onSyncProgress toSync 7 5 10 3 5).percentDone =
      some (doubleDiv (toDouble 3) (toDouble 5))) ∧
    doubleDiv (toDouble 3) (toDouble 5) = roundToDouble (((3 : ℕ) : ℚ) / ((5 : ℕ) : ℚ)) :=
  have key := on_new_block_progress
    { listener := true, syncListener := true, syncStartHeight := some 5, syncEndHeight := some 10 }
    7 5 10 rfl rfl (by decide) (by decide) (by decide)
  ⟨key.1, key.2.1, key.2.2.1, key.2.2.2 (by decide) (by decide)⟩

/-- C29: progress reporting never divides by zero and stays in range. For a block of
height `h >= s` with `h + 1` representable, whatever the end height `e` is (also
`e <= s`), the end height after the notification exceeds both `s` and `h`, and every
event the notification logs that reports a `percentDone` has that end height, a
denominator of at least 1 and `0 < percentDone <= 1`, `percentDone` being the double
quotient that the code computes. For a block of height `h < s` no event with a
`percentDone` is logged and the end height stays as it is. -/
theorem on_new_block_percentDone_in_range (w : SyncWallet) (h s e : Nat)
    (hs : w.syncStartHeight = some s) (he : w.syncEndHeight = some e)
    (hrep : h + 1 < 2 ^ 64) (he64 : e < 2 ^ 64) :
    (s ≤ h →
      ∃ e' evs, (on_new_block w h).syncEndHeight = some e' ∧ s < e' ∧ h < e' ∧
        (on_new_block w h).log = w.log ++ evs ∧
        ∀ ev ∈ evs, ∀ toSync h' s' end' numerator denominator,
          ev = SyncEvent.onSyncProgress toSync h' s' end' numerator denominator →
          end' = e' ∧ denominator = e' - s ∧ 1 ≤ denominator ∧
          ∃ p : ℚ, ev.percentDone = some p ∧ 0 < p ∧ p ≤ 1) ∧
    (h < s →
      (on_new_block w h).syncEndHeight = some e ∧
      ∃ evs, (on_new_block w h).log = w.log ++ evs ∧ ∀ ev ∈ evs, ev.percentDone = none) := by
  constructor
  · intro hge
    obtain ⟨hend, hnum, hden⟩ := progress_arith h s e hge hrep he64
    have hstate : (on_new_block w h).syncEndHeight = some (max e (h + 1)) ∧
        (on_new_block w h).log = w.log ++
          ((if w.listener then
            [SyncEvent.onNewBlock h,
             SyncEvent.onSyncProgress false h s (max e (h + 1)) (h - s + 1) (max e (h + 1) - s)]
           else []) ++
          (if w.syncListener then
            [SyncEvent.onSyncProgress true h s (max e (h + 1)) (h - s + 1) (max e (h + 1) - s)]
           else [])) := by
      unfold on_new_block
      cases hl : w.listener <;> cases hsl : w.syncListener <;>
        simp [hs, he, hge, hend, hnum, hden, hl, hsl]
    refine ⟨max e (h + 1), _, hstate.1, by omega, by omega, hstate.2, ?_⟩
    · intro ev hev toSync h' s' end' numerator denominator heq
      have hform : ev = SyncEvent.onSyncProgress false h s (max e (h + 1)) (h - s + 1)
            (max e (h + 1) - s) ∨
          ev = SyncEvent.onSyncProgress true h s (max e (h + 1)) (h - s + 1)
            (max e (h + 1) - s) := by
        rcases List.mem_append.mp hev with hmem | hmem
        · split at hmem
          · simp only [List.mem_cons, List.mem_singleton, List.not_mem_nil, or_false] at hmem
            rcases hmem with hmem | hmem
            · rw [hmem] at heq
              exact absurd heq (by simp)
            · exact Or.inl hmem
          · exact absurd hmem (List.not_mem_nil _)
        · split at hmem
          · exact Or.inr (List.mem_singleton.mp hmem)
          · exact absurd hmem (List.not_mem_nil _)
      have hfields : end' = max e (h + 1) ∧ numerator = h - s + 1 ∧
          denominator = max e (h + 1) - s := by
        rcases hform with hf | hf <;> rw [hf] at heq <;>
          simp only [SyncEvent.onSyncProgress.injEq] at heq <;>
          exact ⟨heq.2.2.2.1.symm, heq.2.2.2.2.1.symm, heq.2.2.2.2.2.symm⟩
      obtain ⟨h1, h2, h3⟩ := hfields
      have hrange := doubleDiv_in_range numerator denominator (by omega) (by omega)
      refine ⟨h1, h3, by omega, doubleDiv (toDouble numerator) (toDouble denominator), ?_,
        hrange.1, hrange.2⟩
      rw [heq]
      have hd : denominator ≠ 0 := by omega
      simp only [SyncEvent.percentDone, hd, if_false]
  · intro hlt
    have hnot : ¬ h ≥ s := by omega
    unfold on_new_block
    cases hl : w.listener
    · simp only [Bool.false_eq_true, if_false, hs, hnot]
      exact ⟨he, [], by simp, by simp⟩
    · simp only [if_true, hs, hnot, if_false]
      exact ⟨he, [SyncEvent.onNewBlock h], rfl, by simp [SyncEvent.percentDone]⟩

/-- C29: the statement at block 7 of a sync that starts at 5 while the end height is 3
(below the start): the end height becomes 8 and the reported `percentDone` is 3 / 3 in
doubles. -/
theorem on_new_block_percentDone_in_range_witness :
    ∃ e' evs,
      (on_new_block { syncListener := true, syncStartHeight := some 5, syncEndHeight := some 3 }
        7).syncEndHeight = some e' ∧ 5 < e' ∧ 7 < e' ∧
      (on_new_block { syncListener := true, syncStartHeight := some 5, syncEndHeight := some 3 }
        7).log = [] ++ evs ∧
      ∀ ev ∈ evs, ∀ toSync h' s' end' numerator denominator,
        ev = SyncEvent.onSyncProgress toSync h' s' end' numerator denominator →
        end' = e' ∧ denominator = e' - 5 ∧ 1 ≤ denominator ∧
        ∃ p : ℚ, ev.percentDone = some p ∧ 0 < p ∧ p ≤ 1 :=
  (on_new_block_percentDone_in_range
    { syncListener := true, syncStartHeight := some 5, syncEndHeight := some 3 } 7 5 3 rfl rfl
    (by decide) (by decide)).1 (by decide)

/-- C30 (the code at the failing input): a sync whose substrate refresh throws. `syncAux`
throws with both sync heights still set (no `onSyncEnd`), and the `syncAux` of the next
sync throws "Sync start or end height should not already be allocated, is previous sync
in progress?" before any refresh. Also, when the chain height cannot be read,
`onSyncStart` throws with the start height set and the end height unset. -/
theorem syncAux_refresh_failure_leaves_heights_set :
    (stateAfter (syncAux { isConnected := true }
      { daemonHeight := 10, refresh := fun _ => { failure := some "refresh failed" } }
      none false)).syncStartHeight = some 0 ∧
    (stateAfter (syncAux { isConnected := true }
      { daemonHeight := 10, refresh := fun _ => { failure := some "refresh failed" } }
      none false)).syncEndHeight = some 10 ∧
    syncAux
      (stateAfter (syncAux { isConnected := true }
        { daemonHeight := 10, refresh := fun _ => { failure := some "refresh failed" } }
        none false))
      { daemonHeight := 10 } none false =
      .error (SYNC_IN_PROGRESS_ERROR,
        stateAfter (syncAux { isConnected := true }
          { daemonHeight := 10, refresh := fun _ => { failure := some "refresh failed" } }
          none false)) ∧
    (stateAfter (onSyncStart { isConnected := true } { daemonHeightErr := "no daemon" } 5
      false)).syncStartHeight = some 5 ∧
    (stateAfter (onSyncStart { isConnected := true } { daemonHeightErr := "no daemon" } 5
      false)).syncEndHeight = none := by
  refine ⟨by decide, by decide, rfl, by decide, by decide⟩

/-! ### The merge step with `skipIfAbsent` -/

/-- C27 (the code at the failing input): the fragment "aa11" in a block at height 100,
whose id is absent from the tx index, merged with `skipIfAbsent` set. The tx index stays
as it is, but the block of the dropped tx is inserted into an empty block index, and it
is merged into the block that the index already holds at height 100, which then lists
the dropped tx. -/
theorem mergeTx_skipped_tx_block_still_merged :
    (okValue (mergeTx outputFragment {} true)).map (fun st => (st.txMap, st.blockMap)) =
      some ([], [(100, { height := some 100, txs := ["aa11"] })]) ∧
    (okValue (mergeTx outputFragment indexesAtHeight100 true)).map
        (fun st => (decide (st.txMap = indexesAtHeight100.txMap), st.blockMap)) =
      some (true, [(100, { height := some 100, txs := ["bb22", "aa11"] })]) := by
  decide

/-! ### Stream classification in `getTransfers` -/

/-- C26: three-state logic of the classification predicates of `getTransfers`. With the
flag and height fields of the tx criteria and the direction fields of the transfer
criteria unset, all four predicates, the failed selector and so all five stream selectors
are true; and for every request, unsetting one field never turns a predicate or a stream
selector from true to false. -/
theorem classification_three_state (txReq : MoneroTxRequest) (req : MoneroTransferCriteria) :
    (canBeConfirmed {} = true ∧ canBeInTxPool {} = true ∧ canBeIncoming {} = true ∧
      canBeOutgoing {} = true ∧ canBeFailed {} = true ∧
      streamSelectors {} {} = [true, true, true, true, true]) ∧
    (∀ u ∈ MoneroTxRequest.unsettings,
      (canBeConfirmed txReq = true → canBeConfirmed (u txReq) = true) ∧
      (canBeInTxPool txReq = true → canBeInTxPool (u txReq) = true) ∧
      (canBeFailed txReq = true → canBeFailed (u txReq) = true)) ∧
    (∀ u ∈ MoneroTransferCriteria.unsettings,
      (canBeIncoming req = true → canBeIncoming (u req) = true) ∧
      (canBeOutgoing req = true → canBeOutgoing (u req) = true)) ∧
    (∀ u ∈ MoneroTxRequest.unsettings, ∀ v ∈ MoneroTransferCriteria.unsettings,
      ∀ i, i < 5 → (streamSelectors req txReq).get? i = some true →
        (streamSelectors req (u txReq)).get? i = some true ∧
        (streamSelectors (v req) txReq).get? i = some true) := by
  have htx : ∀ u ∈ MoneroTxRequest.unsettings,
      (canBeConfirmed txReq = true → canBeConfirmed (u txReq) = true) ∧
      (canBeInTxPool txReq = true → canBeInTxPool (u txReq) = true) ∧
      (canBeFailed txReq = true → canBeFailed (u txReq) = true) := by
    intro u hu
    simp only [MoneroTxRequest.unsettings, List.mem_cons, List.mem_singleton, List.not_mem_nil,
      or_false] at hu
    rcases hu with h | h | h | h | h | h | h | h | h | h <;> subst h <;>
      simp only [canBeConfirmed, canBeInTxPool, canBeFailed, boolEquals, Bool.and_eq_true] <;>
      refine ⟨?_, ?_, ?_⟩ <;> intro hyp <;> simp_all
  have htr : ∀ u ∈ MoneroTransferCriteria.unsettings,
      (canBeIncoming req = true → canBeIncoming (u req) = true) ∧
      (canBeOutgoing req = true → canBeOutgoing (u req) = true) := by
    intro u hu
    simp only [MoneroTransferCriteria.unsettings, List.mem_cons, List.mem_singleton,
      List.not_mem_nil, or_false] at hu
    rcases hu with h | h | h | h <;> subst h <;>
      simp only [canBeIncoming, canBeOutgoing, boolEquals, Bool.and_eq_true] <;>
      refine ⟨?_, ?_⟩ <;> intro hyp <;> simp_all
  refine ⟨by decide, htx, htr, ?_⟩
  intro u hu v hv i hi hsel
  obtain ⟨hc, hp, hf⟩ := htx u hu
  obtain ⟨hinc, hout⟩ := htr v hv
  have hcases : i = 0 ∨ i = 1 ∨ i = 2 ∨ i = 3 ∨ i = 4 := by omega
  rcases hcases with h | h | h | h | h <;> subst h <;>
    simp only [streamSelectors, List.get?, Option.some.injEq, Bool.and_eq_true] at hsel ⊢ <;>
    first
    | exact ⟨⟨hsel.1, hc hsel.2⟩, ⟨hinc hsel.1, hsel.2⟩⟩
    | exact ⟨⟨hsel.1, hc hsel.2⟩, ⟨hout hsel.1, hsel.2⟩⟩
    | exact ⟨⟨hsel.1, hp hsel.2⟩, ⟨hout hsel.1, hsel.2⟩⟩
    | exact ⟨⟨hsel.1, hp hsel.2⟩, ⟨hinc hsel.1, hsel.2⟩⟩
    | exact ⟨hf hsel, hsel⟩

/-- C28: stream classification never skips a stream that could hold a match. For every
tx criteria whose set flag fields equal the flags of a fragment: for a fragment of a
confirmed builder, with flags (true, false, false, true), `canBeConfirmed` holds; for a
pool or pending fragment, with flags (false, true, false, true), `canBeInTxPool` holds
when `height` and `minHeight` are unset; for a failed fragment, with flags (false, false,
true, false), the failed selector holds; and the test on `isFailed` in the stream of
unconfirmed outgoing payments keeps the fragment. -/
theorem classification_enables_matching_streams (wallet2 : Wallet2) (H : Nat)
    (payment_id txid : String) (pd : payment_details) (cpd : confirmed_transfer_details)
    (ppd : pool_payment_details) (upd : unconfirmed_transfer_details) (txReq : MoneroTxRequest) :
    (txReq.flagsAllow (buildTxWithIncomingTransfer wallet2 H payment_id pd) →
      canBeConfirmed txReq = true) ∧
    (txReq.flagsAllow (buildTxWithOutgoingTransfer wallet2 H txid cpd) →
      canBeConfirmed txReq = true) ∧
    (txReq.flagsAllow (buildTxWithIncomingTransferUnconfirmed wallet2 payment_id ppd) →
      txReq.height = none → txReq.minHeight = none → canBeInTxPool txReq = true) ∧
    (txReq.flagsAllow (buildTxWithOutgoingTransferUnconfirmed wallet2 txid upd) →
      (upd.m_state ≠ transfer_state.failed → txReq.height = none → txReq.minHeight = none →
        canBeInTxPool txReq = true) ∧
      (upd.m_state = transfer_state.failed → canBeFailed txReq = true) ∧
      (!(txReq.isFailed != none &&
        txReq.isFailed != (buildTxWithOutgoingTransferUnconfirmed wallet2 txid upd).isFailed))
        = true) ∧
    (∀ tx, tx.isConfirmed = some true → tx.inTxPool = some false → tx.isFailed = some false →
      tx.isRelayed = some true → txReq.flagsAllow tx → canBeConfirmed txReq = true) ∧
    (∀ tx, tx.isConfirmed = some false → tx.inTxPool = some true → tx.isFailed = some false →
      tx.isRelayed = some true → txReq.flagsAllow tx → txReq.height = none →
      txReq.minHeight = none → canBeInTxPool txReq = true) ∧
    (∀ tx, tx.isConfirmed = some false → tx.inTxPool = some false → tx.isFailed = some true →
      tx.isRelayed = some false → txReq.flagsAllow tx → canBeFailed txReq = true) := by
  have hconf : ∀ tx : MoneroTxWallet, tx.isConfirmed = some true → tx.inTxPool = some false →
      tx.isFailed = some false → tx.isRelayed = some true → txReq.flagsAllow tx →
      canBeConfirmed txReq = true := by
    intro tx h1 h2 h3 h4 hallow
    simp only [MoneroTxRequest.flagsAllow, h1, h2, h3, h4] at hallow
    obtain ⟨a | a, b | b, c | c, d | d⟩ := hallow <;>
      simp [canBeConfirmed, boolEquals, a, b, c, d]
  have hpool : ∀ tx : MoneroTxWallet, tx.isConfirmed = some false → tx.inTxPool = some true →
      tx.isFailed = some false → tx.isRelayed = some true → txReq.flagsAllow tx →
      txReq.height = none → txReq.minHeight = none → canBeInTxPool txReq = true := by
    intro tx h1 h2 h3 h4 hallow hh hm
    simp only [MoneroTxRequest.flagsAllow, h1, h2, h3, h4] at hallow
    obtain ⟨a | a, b | b, c | c, d | d⟩ := hallow <;>
      simp [canBeInTxPool, boolEquals, a, b, c, d, hh, hm]
  have hfail : ∀ tx : MoneroTxWallet, tx.isConfirmed = some false → tx.inTxPool = some false →
      tx.isFailed = some true → tx.isRelayed = some false → txReq.flagsAllow tx →
      canBeFailed txReq = true := by
    intro tx h1 h2 h3 h4 hallow
    simp only [MoneroTxRequest.flagsAllow, h1, h2, h3, h4] at hallow
    obtain ⟨a | a, b | b, c | c, _⟩ := hallow <;>
      simp [canBeFailed, boolEquals, a, b, c]
  refine ⟨hconf _ rfl rfl rfl rfl, hconf _ rfl rfl rfl rfl, hpool _ rfl rfl rfl rfl, ?_,
    hconf, hpool, hfail⟩
  intro hallow
  refine ⟨?_, ?_, ?_⟩
  · intro hstate
    exact hpool _ rfl (by simp [buildTxWithOutgoingTransferUnconfirmed, hstate]) (by
      simp [buildTxWithOutgoingTransferUnconfirmed, hstate]) (by
      simp [buildTxWithOutgoingTransferUnconfirmed, hstate]) hallow
  · intro hstate
    exact hfail _ rfl (by simp [buildTxWithOutgoingTransferUnconfirmed, hstate]) (by
      simp [buildTxWithOutgoingTransferUnconfirmed, hstate]) (by
      simp [buildTxWithOutgoingTransferUnconfirmed, hstate]) hallow
  · obtain ⟨_, _, c | c, _⟩ := hallow
    · simp [c]
    · simp [c]

/-- C28: the statement at criteria that ask for confirmed txs that are not failed, and a
confirmed incoming fragment. -/
theorem classification_enables_matching_streams_witness :
    canBeConfirmed { isConfirmed := some true, isFailed := some false } = true :=
  (classification_enables_matching_streams scenarioWallet 10 "" "aa11" {} {} {} {}
    { isConfirmed := some true, isFailed := some false }).1
    ⟨Or.inr rfl, Or.inl rfl, Or.inr rfl, Or.inl rfl⟩

end monero
